import Mathlib

/-!
Verification of the OTB chess-analysis vision pipeline (otb-chess-analysis).

This file shallowly embeds the Python sources under src/otbreview/pipeline
(tag_decode.py, decode.py, pieces.py, classify.py, analyze.py,
tag_detector.py, board_detect.py, extract.py, pgn.py) together with the
parts of the python-chess library that they use.  Machine floats are
modelled as rationals; cv2 image primitives that cannot be modelled
exactly (marker detection, contour extraction, pixel statistics) are taken
as abstract inputs to the embedded functions, mirroring the data each
Python function actually consumes.  Python dicts are modelled as
insertion-ordered association lists with update-in-place semantics.
-/

namespace Chess

/-- Piece colour, as in python-chess (WHITE/BLACK). -/
inductive Color where
  | white
  | black
deriving DecidableEq, Repr

def Color.other : Color → Color
  | Color.white => Color.black
  | Color.black => Color.white

/-- Piece kind, as in python-chess PIECE_TYPES. -/
inductive PieceType where
  | pawn
  | knight
  | bishop
  | rook
  | queen
  | king
deriving DecidableEq, Repr

/-- A coloured piece, as in python-chess `chess.Piece`. -/
structure Piece where
  color : Color
  ptype : PieceType
deriving DecidableEq, Repr

/-- Squares are 0..63 with a1 = 0, b1 = 1, ..., h8 = 63 (python-chess layout:
`chess.square(file, rank) = rank*8 + file`). -/
def fileOf (sq : Nat) : Nat := sq % 8

def rankOf (sq : Nat) : Nat := sq / 8

def mkSquare (file rank : Nat) : Nat := rank * 8 + file

/-- A move, the record content of python-chess `chess.Move`
(`from_square`, `to_square`, `promotion`).  A UCI string such as
"e2e4" or "e7e8q" denotes exactly one such record, so UCI strings are
represented by their `Move` value. -/
structure Move where
  src : Nat
  dst : Nat
  promo : Option PieceType
deriving DecidableEq, Repr

/-- The state of a python-chess `chess.Board` that is visible to FEN:
piece placement, side to move, castling rights (standard chess:
the four flags correspond to rook squares h1, a1, h8, a8), en-passant
square, halfmove clock and fullmove number.  The placement list is
indexed by square (length 64). -/
structure Board where
  pieces : List (Option Piece)
  turn : Color
  castleWK : Bool
  castleWQ : Bool
  castleBK : Bool
  castleBQ : Bool
  epSquare : Option Nat
  halfmove : Nat
  fullmove : Nat
deriving DecidableEq, Repr

def pieceAtP (p : List (Option Piece)) (sq : Nat) : Option Piece :=
  (p.getD sq none)

def Board.pieceAt (b : Board) (sq : Nat) : Option Piece :=
  pieceAtP b.pieces sq

/-- Offset a square by a (file, rank) delta, `none` when off the board. -/
def shiftSq (sq : Nat) (df dr : Int) : Option Nat :=
  let f : Int := (fileOf sq : Int) + df
  let r : Int := (rankOf sq : Int) + dr
  if 0 ≤ f ∧ f < 8 ∧ 0 ≤ r ∧ r < 8 then some ((r * 8 + f).toNat) else none

/-- Pawn advance direction (+1 rank for white, -1 for black). -/
def pawnDir : Color → Int
  | Color.white => 1
  | Color.black => -1

def knightDeltas : List (Int × Int) :=
  [(1, 2), (2, 1), (2, -1), (1, -2), (-1, -2), (-2, -1), (-2, 1), (-1, 2)]

def kingDeltas : List (Int × Int) :=
  [(0, 1), (1, 1), (1, 0), (1, -1), (0, -1), (-1, -1), (-1, 0), (-1, 1)]

def bishopDirs : List (Int × Int) :=
  [(1, 1), (1, -1), (-1, -1), (-1, 1)]

def rookDirs : List (Int × Int) :=
  [(0, 1), (1, 0), (0, -1), (-1, 0)]

/-- Walk a ray from `sq` in direction `(df, dr)` collecting reachable target
squares for a slider of colour `c`: empty squares are passed through, the
first occupied square stops the ray (included when it holds an enemy
piece).  `fuel` bounds the walk (7 suffices on an 8x8 board). -/
def rayAux (p : List (Option Piece)) (c : Color) (df dr : Int) :
    Nat → Nat → List Nat
  | 0, _ => []
  | fuel + 1, sq =>
    match shiftSq sq df dr with
    | none => []
    | some t =>
      match pieceAtP p t with
      | none => t :: rayAux p c df dr fuel t
      | some pc => if pc.color = c then [] else [t]

def rayTargets (p : List (Option Piece)) (c : Color) (sq : Nat)
    (d : Int × Int) : List Nat :=
  rayAux p c d.fst d.snd 7 sq

/-- First piece encountered on the ray from `sq` in direction `(df, dr)`. -/
def firstOnRay (p : List (Option Piece)) (df dr : Int) :
    Nat → Nat → Option Piece
  | 0, _ => none
  | fuel + 1, sq =>
    match shiftSq sq df dr with
    | none => none
    | some t =>
      match pieceAtP p t with
      | none => firstOnRay p df dr fuel t
      | some pc => some pc

/-- Whether some piece of colour `c` attacks square `sq`
(python-chess `Board.is_attacked_by`). -/
def isAttackedByP (p : List (Option Piece)) (c : Color) (sq : Nat) : Bool :=
  (knightDeltas.any (fun d =>
    match shiftSq sq d.fst d.snd with
    | some t => pieceAtP p t = some ⟨c, PieceType.knight⟩
    | none => false)) ||
  (kingDeltas.any (fun d =>
    match shiftSq sq d.fst d.snd with
    | some t => pieceAtP p t = some ⟨c, PieceType.king⟩
    | none => false)) ||
  (([(-1 : Int), 1].any (fun df =>
    match shiftSq sq df (- pawnDir c) with
    | some t => pieceAtP p t = some ⟨c, PieceType.pawn⟩
    | none => false))) ||
  (bishopDirs.any (fun d =>
    match firstOnRay p d.fst d.snd 7 sq with
    | some pc =>
        pc.color = c && (pc.ptype = PieceType.bishop || pc.ptype = PieceType.queen)
    | none => false)) ||
  (rookDirs.any (fun d =>
    match firstOnRay p d.fst d.snd 7 sq with
    | some pc =>
        pc.color = c && (pc.ptype = PieceType.rook || pc.ptype = PieceType.queen)
    | none => false))

/-- Promotion expansion of a pawn move reaching the last rank; python-chess
yields queen, rook, bishop, knight in this order, other pawn moves carry no
promotion. -/
def pawnMoveTo (c : Color) (src dst : Nat) : List Move :=
  if rankOf dst = 7 ∨ rankOf dst = 0 then
    [⟨src, dst, some PieceType.queen⟩, ⟨src, dst, some PieceType.rook⟩,
     ⟨src, dst, some PieceType.bishop⟩, ⟨src, dst, some PieceType.knight⟩]
  else
    [⟨src, dst, none⟩]
-- c is unused: python-chess decides promotion by destination rank alone.

/-- Pseudo-legal pawn moves from `sq` (pushes, double pushes from the start
rank, and captures to enemy-occupied squares).  En-passant captures are
generated separately, as in python-chess. -/
def pawnMovesFrom (p : List (Option Piece)) (c : Color) (sq : Nat) : List Move :=
  let dir := pawnDir c
  let startRank : Nat := match c with
    | Color.white => 1
    | Color.black => 6
  let pushes : List Move :=
    match shiftSq sq 0 dir with
    | none => []
    | some t1 =>
      if pieceAtP p t1 = none then
        (pawnMoveTo c sq t1) ++
        (if rankOf sq = startRank then
          match shiftSq sq 0 (2 * dir) with
          | none => []
          | some t2 => if pieceAtP p t2 = none then [⟨sq, t2, none⟩] else []
        else [])
      else []
  let captures : List Move :=
    ([(-1 : Int), 1].flatMap (fun df =>
      match shiftSq sq df dir with
      | none => []
      | some t =>
        match pieceAtP p t with
        | none => []
        | some pc => if pc.color = c then [] else pawnMoveTo c sq t))
  pushes ++ captures

def stepMoves (p : List (Option Piece)) (c : Color) (sq : Nat)
    (deltas : List (Int × Int)) : List Move :=
  deltas.flatMap (fun d =>
    match shiftSq sq d.fst d.snd with
    | none => []
    | some t =>
      match pieceAtP p t with
      | none => [⟨sq, t, none⟩]
      | some pc => if pc.color = c then [] else [⟨sq, t, none⟩])

def sliderMoves (p : List (Option Piece)) (c : Color) (sq : Nat)
    (dirs : List (Int × Int)) : List Move :=
  dirs.flatMap (fun d => (rayTargets p c sq d).map (fun t => ⟨sq, t, none⟩))

/-- Pseudo-legal moves of the piece standing on `sq` (no castling, no
en-passant; those are generated separately as in python-chess). -/
def movesFromSq (p : List (Option Piece)) (c : Color) (sq : Nat) : List Move :=
  match pieceAtP p sq with
  | none => []
  | some pc =>
    if pc.color ≠ c then []
    else
      match pc.ptype with
      | PieceType.pawn => pawnMovesFrom p c sq
      | PieceType.knight => stepMoves p c sq knightDeltas
      | PieceType.bishop => sliderMoves p c sq bishopDirs
      | PieceType.rook => sliderMoves p c sq rookDirs
      | PieceType.queen => sliderMoves p c sq (bishopDirs ++ rookDirs)
      | PieceType.king => stepMoves p c sq kingDeltas

/-- All pseudo-legal non-castling, non-en-passant moves for the side `c`. -/
def normalMovesP (p : List (Option Piece)) (c : Color) : List Move :=
  (List.range 64).flatMap (movesFromSq p c)

/-- python-chess `Board.is_en_passant`: destination equals the en-passant
square, a pawn stands on the origin, the square-index difference is 7 or 9
and the destination is empty. -/
def isEpCaptureP (p : List (Option Piece)) (ep : Option Nat) (m : Move) : Bool :=
  match ep with
  | none => false
  | some e =>
    m.dst = e &&
    (match pieceAtP p m.src with
     | some pc => pc.ptype = PieceType.pawn
     | none => false) &&
    (((m.dst : Int) - (m.src : Int)).natAbs = 7 ||
     ((m.dst : Int) - (m.src : Int)).natAbs = 9) &&
    pieceAtP p m.dst = none

/-- Pseudo-legal en-passant captures (python-chess
`generate_pseudo_legal_ep`): requires the en-passant square to be empty and
an own pawn attacking it. -/
def epMovesP (p : List (Option Piece)) (c : Color) (ep : Option Nat) : List Move :=
  match ep with
  | none => []
  | some e =>
    if pieceAtP p e ≠ none then []
    else
      ([(-1 : Int), 1].flatMap (fun df =>
        match shiftSq e df (- pawnDir c) with
        | none => []
        | some s =>
          if pieceAtP p s = some ⟨c, PieceType.pawn⟩ then [⟨s, e, none⟩] else []))

/-- python-chess `Board.is_castling` restricted to standard chess: the
moving piece is a king travelling more than one file. -/
def isCastlingP (p : List (Option Piece)) (m : Move) : Bool :=
  match pieceAtP p m.src with
  | some pc =>
    pc.ptype = PieceType.king &&
    1 < (((fileOf m.dst : Int) - (fileOf m.src : Int)).natAbs)
  | none => false

/-- The square of the pawn removed by an en-passant capture (one rank
behind the destination from the mover's point of view). -/
def epVictimSq (c : Color) (dst : Nat) : Nat :=
  match c with
  | Color.white => dst - 8
  | Color.black => dst + 8

/-- Piece placement after executing move `m` for the side `c` under
en-passant square `ep`: handles the castling rook jump, en-passant pawn
removal and promotion exactly as python-chess `Board.push` updates the
piece bitboards.  Applied only to generated moves (python-chess asserts
the origin square is occupied). -/
def movedPlacement (p : List (Option Piece)) (c : Color) (ep : Option Nat)
    (m : Move) : List (Option Piece) :=
  match pieceAtP p m.src with
  | none => p
  | some mover =>
    if isCastlingP p m then
      let rookSrc : Nat := if fileOf m.dst = 6 then m.src + 3 else m.src - 4
      let rookDst : Nat := if fileOf m.dst = 6 then m.src + 1 else m.src - 1
      ((((p.set m.src none).set rookSrc none).set m.dst (some mover)).set
        rookDst (some ⟨mover.color, PieceType.rook⟩))
    else
      let cleared := p.set m.src none
      let cleared2 :=
        if isEpCaptureP p ep m then cleared.set (epVictimSq c m.dst) none
        else cleared
      let placed : Piece :=
        match m.promo with
        | some t => ⟨mover.color, t⟩
        | none => mover
      cleared2.set m.dst (some placed)

/-- First square holding the king of colour `c`. -/
def kingSqP (p : List (Option Piece)) (c : Color) : Option Nat :=
  (List.range 64).find? (fun s => pieceAtP p s = some ⟨c, PieceType.king⟩)

/-- python-chess `Board.is_into_check` for non-castling moves: after making
the move, the mover's own king is attacked (kingless boards are never in
check, as in python-chess). -/
def intoCheckP (p : List (Option Piece)) (c : Color) (ep : Option Nat)
    (m : Move) : Bool :=
  let p2 := movedPlacement p c ep m
  match kingSqP p2 c with
  | none => false
  | some k => isAttackedByP p2 (Color.other c) k

/-- Legal castling moves (python-chess `generate_castling_moves` and the
castling part of legal-move generation, standard chess): the right flag is
set, king and rook stand on their home squares, the squares between them
are empty, the king is not in check and does not cross or land on an
attacked square. -/
def castlingMovesP (p : List (Option Piece)) (c : Color)
    (wk wq bk bq : Bool) : List Move :=
  let whiteKing : Option Piece := some ⟨Color.white, PieceType.king⟩
  let whiteRook : Option Piece := some ⟨Color.white, PieceType.rook⟩
  let blackKing : Option Piece := some ⟨Color.black, PieceType.king⟩
  let blackRook : Option Piece := some ⟨Color.black, PieceType.rook⟩
  match c with
  | Color.white =>
    (if wk && pieceAtP p 4 = whiteKing && pieceAtP p 7 = whiteRook &&
        pieceAtP p 5 = none && pieceAtP p 6 = none &&
        !(isAttackedByP p Color.black 4) && !(isAttackedByP p Color.black 5) &&
        !(isAttackedByP p Color.black 6) then [⟨4, 6, none⟩] else []) ++
    (if wq && pieceAtP p 4 = whiteKing && pieceAtP p 0 = whiteRook &&
        pieceAtP p 1 = none && pieceAtP p 2 = none && pieceAtP p 3 = none &&
        !(isAttackedByP p Color.black 4) && !(isAttackedByP p Color.black 3) &&
        !(isAttackedByP p Color.black 2) then [⟨4, 2, none⟩] else [])
  | Color.black =>
    (if bk && pieceAtP p 60 = blackKing && pieceAtP p 63 = blackRook &&
        pieceAtP p 61 = none && pieceAtP p 62 = none &&
        !(isAttackedByP p Color.white 60) && !(isAttackedByP p Color.white 61) &&
        !(isAttackedByP p Color.white 62) then [⟨60, 62, none⟩] else []) ++
    (if bq && pieceAtP p 60 = blackKing && pieceAtP p 56 = blackRook &&
        pieceAtP p 57 = none && pieceAtP p 58 = none && pieceAtP p 59 = none &&
        !(isAttackedByP p Color.white 60) && !(isAttackedByP p Color.white 59) &&
        !(isAttackedByP p Color.white 58) then [⟨60, 58, none⟩] else [])

/-- python-chess `Board.legal_moves`: pseudo-legal moves filtered by own
king safety, plus the self-contained legal castling moves. -/
def legalMoves (b : Board) : List Move :=
  ((normalMovesP b.pieces b.turn).filter
    (fun m => !(intoCheckP b.pieces b.turn b.epSquare m))) ++
  ((epMovesP b.pieces b.turn b.epSquare).filter
    (fun m => !(intoCheckP b.pieces b.turn b.epSquare m))) ++
  castlingMovesP b.pieces b.turn b.castleWK b.castleWQ b.castleBK b.castleBQ

/-- Castling-rights update of python-chess `Board.push`: rights whose rook
square is touched by the move are cleared, and a king move clears both
rights of the mover's colour. -/
def rightsAfter (p : List (Option Piece)) (m : Move)
    (wk wq bk bq : Bool) : Bool × Bool × Bool × Bool :=
  let kingClearWhite :=
    match pieceAtP p m.src with
    | some pc => pc.ptype = PieceType.king && pc.color = Color.white
    | none => false
  let kingClearBlack :=
    match pieceAtP p m.src with
    | some pc => pc.ptype = PieceType.king && pc.color = Color.black
    | none => false
  (wk && !(m.src = 7 || m.dst = 7) && !kingClearWhite,
   wq && !(m.src = 0 || m.dst = 0) && !kingClearWhite,
   bk && !(m.src = 63 || m.dst = 63) && !kingClearBlack,
   bq && !(m.src = 56 || m.dst = 56) && !kingClearBlack)

/-- New en-passant square after a move (python-chess `Board.push`): set
exactly on a double pawn push. -/
def epAfter (p : List (Option Piece)) (m : Move) : Option Nat :=
  match pieceAtP p m.src with
  | some pc =>
    if pc.ptype = PieceType.pawn then
      if (m.dst : Int) - (m.src : Int) = 16 ∧ rankOf m.src = 1 then
        some (m.src + 8)
      else if (m.dst : Int) - (m.src : Int) = -16 ∧ rankOf m.src = 6 then
        some (m.src - 8)
      else none
    else none
  | none => none

/-- python-chess `Board.is_zeroing`: a pawn move or a capture of an enemy
piece resets the halfmove clock. -/
def isZeroing (b : Board) (m : Move) : Bool :=
  (match b.pieceAt m.src with
   | some pc => pc.ptype = PieceType.pawn
   | none => false) ||
  (match b.pieceAt m.dst with
   | some pc => pc.color = Color.other b.turn
   | none => false)

/-- python-chess `Board.push` (standard chess). -/
def push (b : Board) (m : Move) : Board :=
  let rights := rightsAfter b.pieces m b.castleWK b.castleWQ b.castleBK b.castleBQ
  { pieces := movedPlacement b.pieces b.turn b.epSquare m
    turn := Color.other b.turn
    castleWK := rights.fst
    castleWQ := rights.snd.fst
    castleBK := rights.snd.snd.fst
    castleBQ := rights.snd.snd.snd
    epSquare := epAfter b.pieces m
    halfmove := if isZeroing b m then 0 else b.halfmove + 1
    fullmove := if b.turn = Color.black then b.fullmove + 1 else b.fullmove }

def Board.isCheck (b : Board) : Bool :=
  match kingSqP b.pieces b.turn with
  | none => false
  | some k => isAttackedByP b.pieces (Color.other b.turn) k

/-- python-chess `Board.is_checkmate`. -/
def Board.isCheckmate (b : Board) : Bool :=
  b.isCheck && (legalMoves b).isEmpty

/-- python-chess `Board.is_stalemate`. -/
def Board.isStalemate (b : Board) : Bool :=
  !(b.isCheck) && (legalMoves b).isEmpty

/-- The standard starting position (python-chess `chess.Board()`). -/
def backRank (c : Color) : List (Option Piece) :=
  [some ⟨c, PieceType.rook⟩, some ⟨c, PieceType.knight⟩,
   some ⟨c, PieceType.bishop⟩, some ⟨c, PieceType.queen⟩,
   some ⟨c, PieceType.king⟩, some ⟨c, PieceType.bishop⟩,
   some ⟨c, PieceType.knight⟩, some ⟨c, PieceType.rook⟩]

def pawnRank (c : Color) : List (Option Piece) :=
  List.replicate 8 (some ⟨c, PieceType.pawn⟩)

def emptyRank : List (Option Piece) := List.replicate 8 none

def startPlacement : List (Option Piece) :=
  backRank Color.white ++ pawnRank Color.white ++
  emptyRank ++ emptyRank ++ emptyRank ++ emptyRank ++
  pawnRank Color.black ++ backRank Color.black

def startBoard : Board :=
  { pieces := startPlacement
    turn := Color.white
    castleWK := true
    castleWQ := true
    castleBK := true
    castleBQ := true
    epSquare := none
    halfmove := 0
    fullmove := 1 }

/-- python-chess `chess.Board.empty()`: no pieces, white to move, no
castling rights, no en-passant square. -/
def emptyBoard : Board :=
  { pieces := List.replicate 64 none
    turn := Color.white
    castleWK := false
    castleWQ := false
    castleBK := false
    castleBQ := false
    epSquare := none
    halfmove := 0
    fullmove := 1 }

def squareName (sq : Nat) : String :=
  String.mk [Char.ofNat (97 + fileOf sq), Char.ofNat (49 + rankOf sq)]

def pieceLetter : PieceType → String
  | PieceType.pawn => ""
  | PieceType.knight => "N"
  | PieceType.bishop => "B"
  | PieceType.rook => "R"
  | PieceType.queen => "Q"
  | PieceType.king => "K"

/-- Check/checkmate suffix of a SAN, evaluated on the position after the
move (python-chess `_algebraic_and_push`). -/
def sanSuffix (after : Board) : String :=
  if after.isCheck then (if (legalMoves after).isEmpty then "#" else "+") else ""

/-- python-chess SAN disambiguation for a non-pawn move: among other legal
moves of the same piece type to the same destination, a candidate sharing
the rank forces the file letter, one sharing the file forces the rank
digit, otherwise the file letter is used. -/
def sanDisambiguation (b : Board) (pt : PieceType) (m : Move) : String :=
  let others := (legalMoves b).filter (fun mv =>
    mv.dst = m.dst && mv.src ≠ m.src &&
    (match b.pieceAt mv.src with
     | some pc => pc.ptype = pt
     | none => false))
  if others.isEmpty then ""
  else
    let sameRank := others.any (fun mv => rankOf mv.src = rankOf m.src)
    let sameFile := others.any (fun mv => fileOf mv.src = fileOf m.src)
    let useFile := sameRank || !sameFile
    (if useFile then String.mk [Char.ofNat (97 + fileOf m.src)] else "") ++
    (if sameFile then String.mk [Char.ofNat (49 + rankOf m.src)] else "")

/-- python-chess `Board.is_capture`: an enemy piece on the destination or
an en-passant capture. -/
def isCaptureB (b : Board) (m : Move) : Bool :=
  (match b.pieceAt m.dst with
   | some pc => pc.color = Color.other b.turn
   | none => false) ||
  isEpCaptureP b.pieces b.epSquare m

/-- python-chess `Board.san`, computed in the position `b` before the move
is made.  Returns `none` where python-chess raises AssertionError: a
non-castling move whose origin square is empty (`san() and lan() expect
move to be legal or null`). -/
def sanOf (b : Board) (m : Move) : Option String :=
  if isCastlingP b.pieces m then
    some ((if fileOf m.dst < fileOf m.src then "O-O-O" else "O-O") ++
      sanSuffix (push b m))
  else
    match b.pieceAt m.src with
    | none => none
    | some pc =>
      let capture := isCaptureB b m
      let body :=
        if pc.ptype = PieceType.pawn then
          (if capture then String.mk [Char.ofNat (97 + fileOf m.src), 'x']
           else "") ++ squareName m.dst
        else
          pieceLetter pc.ptype ++ sanDisambiguation b pc.ptype m ++
          (if capture then "x" else "") ++ squareName m.dst
      let promoStr :=
        match m.promo with
        | some t => "=" ++ pieceLetter t
        | none => ""
      some (body ++ promoStr ++ sanSuffix (push b m))

/-- python-chess `chess.parse_square` on a two-character name (the file
must be a..h, code 97..104, and the rank 1..8, code 49..56). -/
def parseSquareChars : List Char → Option Nat
  | [f, r] =>
    if (97 ≤ f.toNat ∧ f.toNat ≤ 104) ∧ (49 ≤ r.toNat ∧ r.toNat ≤ 56) then
      some (mkSquare (f.toNat - 97) (r.toNat - 49))
    else none
  | _ => none

def parseSquare (s : String) : Option Nat :=
  parseSquareChars s.toList

def promoOfChar (c : Char) : Option PieceType :=
  if c = 'p' ∨ c = 'P' then some PieceType.pawn
  else if c = 'n' ∨ c = 'N' then some PieceType.knight
  else if c = 'b' ∨ c = 'B' then some PieceType.bishop
  else if c = 'r' ∨ c = 'R' then some PieceType.rook
  else if c = 'q' ∨ c = 'Q' then some PieceType.queen
  else if c = 'k' ∨ c = 'K' then some PieceType.king
  else none

/-- python-chess `Move.from_uci` for ordinary moves: 4 characters plus an
optional promotion piece symbol; identical origin and destination are
rejected (only "0000" may be null, which no caller in this repository
accepts as a legal move). -/
def moveFromUci (s : String) : Option Move :=
  match s.toList with
  | [a, b, c, d] =>
    match parseSquareChars [a, b], parseSquareChars [c, d] with
    | some f, some t => if f = t then none else some ⟨f, t, none⟩
    | _, _ => none
  | [a, b, c, d, e] =>
    match parseSquareChars [a, b], parseSquareChars [c, d], promoOfChar e with
    | some f, some t, some pr =>
      if f = t ∨ ('A' ≤ e ∧ e ≤ 'Z') then none else some ⟨f, t, some pr⟩
    | _, _, _ => none
  | _ => none

/-- python-chess `Move.uci`. -/
def Move.uci (m : Move) : String :=
  squareName m.src ++ squareName m.dst ++
  (match m.promo with
   | some PieceType.knight => "n"
   | some PieceType.bishop => "b"
   | some PieceType.rook => "r"
   | some PieceType.queen => "q"
   | some PieceType.king => "k"
   | some PieceType.pawn => "p"
   | none => "")

def isFileChar (c : Char) : Bool := 'a' ≤ c ∧ c ≤ 'h'

def isRankChar (c : Char) : Bool := '1' ≤ c ∧ c ≤ '8'

def isPieceUpper (c : Char) : Bool :=
  c = 'N' ∨ c = 'B' ∨ c = 'K' ∨ c = 'R' ∨ c = 'Q'

def ptypeOfUpper (c : Char) : PieceType :=
  if c = 'N' then PieceType.knight
  else if c = 'B' then PieceType.bishop
  else if c = 'R' then PieceType.rook
  else if c = 'Q' then PieceType.queen
  else PieceType.king

/-- The groups of the python-chess SAN regular expression
`([NBKRQ])?([a-h])?([1-8])?[-x]?([a-h][1-8])(=?[nbrqkNBRQK])?[+#]?`:
piece letter, origin file, origin rank, target square, promotion. -/
structure SanGroups where
  pieceChar : Option Char
  fromFile : Option Nat
  fromRank : Option Nat
  target : Nat
  promo : Option PieceType
deriving DecidableEq, Repr

/-- Match the middle part `([a-h])?([1-8])?[-x]?` of the SAN regex. -/
def sanMatchMiddle (cs : List Char) : Option (Option Nat × Option Nat) :=
  let step1 : Option Nat × List Char :=
    match cs with
    | c :: rest => if isFileChar c then (some (c.toNat - 97), rest) else (none, cs)
    | [] => (none, cs)
  let step2 : Option Nat × List Char :=
    match step1.snd with
    | c :: rest => if isRankChar c then (some (c.toNat - 49), rest) else (none, step1.snd)
    | [] => (none, step1.snd)
  match step2.snd with
  | [] => some (step1.fst, step2.fst)
  | [c] => if c = '-' ∨ c = 'x' then some (step1.fst, step2.fst) else none
  | _ => none

/-- Match the SAN regex against a token (anchored), returning its groups.
The trailing `[+#]?` and the promotion suffix are stripped from the end,
the target square is the final two characters, and the remainder is the
optional piece letter followed by the origin-square groups. -/
def sanMatch (cs : List Char) : Option SanGroups :=
  let noCheck := if cs.getLast? = some '+' ∨ cs.getLast? = some '#' then
    cs.dropLast else cs
  let promoAndRest : Option PieceType × List Char :=
    match noCheck.getLast? with
    | some c =>
      match promoOfChar c with
      | some pt =>
        let rest := noCheck.dropLast
        if rest.getLast? = some '=' then (some pt, rest.dropLast)
        else (some pt, rest)
      | none => (none, noCheck)
    | none => (none, noCheck)
  let core := promoAndRest.snd
  if core.length < 2 then none
  else
    let targetChars := core.drop (core.length - 2)
    let front := core.take (core.length - 2)
    match parseSquareChars targetChars with
    | none => none
    | some tgt =>
      let pieceAndMid : Option Char × List Char :=
        match front with
        | c :: rest => if isPieceUpper c then (some c, rest) else (none, front)
        | [] => (none, front)
      match sanMatchMiddle pieceAndMid.snd with
      | none => none
      | some fr =>
        some ⟨pieceAndMid.fst, fr.fst, fr.snd, tgt, promoAndRest.fst⟩

/-- python-chess `Board.find_move`: a missing promotion is completed to a
queen for a pawn reaching the back rank, then the move must be legal. -/
def findMove (b : Board) (src dst : Nat) (promo : Option PieceType) :
    Option Move :=
  let promo2 :=
    match promo with
    | some pt => some pt
    | none =>
      match b.pieceAt src with
      | some pc =>
        if pc.ptype = PieceType.pawn ∧ (rankOf dst = 0 ∨ rankOf dst = 7) then
          some PieceType.queen
        else none
      | none => none
  let m : Move := ⟨src, dst, promo2⟩
  if (legalMoves b).contains m then some m else none

/-- The unique element of a list, `none` when empty or ambiguous; the
matching loop of python-chess `parse_san` (IllegalMoveError and
AmbiguousMoveError are both ValueError subclasses, which every caller in
this repository treats alike). -/
def uniqueMatch (l : List Move) : Option Move :=
  match l with
  | [m] => some m
  | _ => none

/-- python-chess `Board.parse_san`.  Castling tokens pick a legal castling
move; otherwise the SAN regex groups filter the legal moves by origin
square, piece type (pawns when no piece letter is given) and promotion;
failures and ambiguities yield `none` (ValueError in Python). -/
def parseSan (b : Board) (s : String) : Option Move :=
  if s = "O-O" ∨ s = "O-O+" ∨ s = "O-O#" ∨ s = "0-0" ∨ s = "0-0+" ∨ s = "0-0#" then
    (castlingMovesP b.pieces b.turn b.castleWK b.castleWQ b.castleBK b.castleBQ).find?
      (fun m => fileOf m.dst = 6)
  else if s = "O-O-O" ∨ s = "O-O-O+" ∨ s = "O-O-O#" ∨ s = "0-0-0" ∨
      s = "0-0-0+" ∨ s = "0-0-0#" then
    (castlingMovesP b.pieces b.turn b.castleWK b.castleWQ b.castleBK b.castleBQ).find?
      (fun m => fileOf m.dst = 2)
  else
    match sanMatch s.toList with
    | none => none
    | some g =>
      let ownAtTarget : Bool :=
        match b.pieceAt g.target with
        | some pc => pc.color = b.turn
        | none => false
      if ownAtTarget then none
      else
        match g.pieceChar with
        | some pcChar =>
          let pt := ptypeOfUpper pcChar
          let cands := (legalMoves b).filter (fun m =>
            m.dst = g.target && m.promo = g.promo &&
            (match g.fromFile with
             | some f => fileOf m.src = f
             | none => true) &&
            (match g.fromRank with
             | some r => rankOf m.src = r
             | none => true) &&
            (match b.pieceAt m.src with
             | some pc => pc.ptype = pt
             | none => false))
          uniqueMatch cands
        | none =>
          match g.fromFile, g.fromRank with
          | some f, some r => findMove b (mkSquare f r) g.target g.promo
          | _, _ =>
            let cands := (legalMoves b).filter (fun m =>
              m.dst = g.target && m.promo = g.promo &&
              (match g.fromFile with
               | some f => fileOf m.src = f
               | none => true) &&
              (match g.fromRank with
               | some r => rankOf m.src = r
               | none => true) &&
              (match b.pieceAt m.src with
               | some pc => pc.ptype = PieceType.pawn
               | none => false))
            uniqueMatch cands

/-- python-chess `Board.has_legal_en_passant`. -/
def hasLegalEp (b : Board) : Bool :=
  !(((epMovesP b.pieces b.turn b.epSquare).filter
      (fun m => !(intoCheckP b.pieces b.turn b.epSquare m))).isEmpty)

def cleanWK (p : List (Option Piece)) : Bool :=
  pieceAtP p 4 = some ⟨Color.white, PieceType.king⟩ &&
  pieceAtP p 7 = some ⟨Color.white, PieceType.rook⟩

def cleanWQ (p : List (Option Piece)) : Bool :=
  pieceAtP p 4 = some ⟨Color.white, PieceType.king⟩ &&
  pieceAtP p 0 = some ⟨Color.white, PieceType.rook⟩

def cleanBK (p : List (Option Piece)) : Bool :=
  pieceAtP p 60 = some ⟨Color.black, PieceType.king⟩ &&
  pieceAtP p 63 = some ⟨Color.black, PieceType.rook⟩

def cleanBQ (p : List (Option Piece)) : Bool :=
  pieceAtP p 60 = some ⟨Color.black, PieceType.king⟩ &&
  pieceAtP p 56 = some ⟨Color.black, PieceType.rook⟩

/-- The record denoted by the FEN string python-chess `Board.fen` prints
for `b`.  FEN strings are injective encodings of these records, so the
record itself stands for the string: castling letters appear only for
rights whose king and rook stand on their home squares (the standard-chess
content of `clean_castling_rights`), and the en-passant field is printed
only when an en-passant capture is actually legal (the default
`en_passant="legal"` mode).  `chess.Board(fen)` restores exactly the
fields of this record. -/
def fenOf (b : Board) : Board :=
  { pieces := b.pieces
    turn := b.turn
    castleWK := b.castleWK && cleanWK b.pieces
    castleWQ := b.castleWQ && cleanWQ b.pieces
    castleBK := b.castleBK && cleanBK b.pieces
    castleBQ := b.castleBQ && cleanBQ b.pieces
    epSquare := if hasLegalEp b then b.epSquare else none
    halfmove := b.halfmove
    fullmove := b.fullmove }

/-- Pushing a UCI move onto a FEN: parse the FEN to a board, require the
move to be legal there, push it and print the FEN of the result.  This is
the "FEN obtained by pushing the uci onto the fen" operation of the
specification. -/
def pushUciOnFen (f : Board) (m : Move) : Option Board :=
  if (legalMoves f).contains m then some (fenOf (push f m)) else none

end Chess

/-! Python dict and helper semantics shared by the embedded modules:
insertion-ordered association lists where assignment updates in place and
otherwise appends. -/

namespace PyDict

def set {α β : Type} [DecidableEq α] : List (α × β) → α → β → List (α × β)
  | [], k, v => [(k, v)]
  | (a, b) :: t, k, v =>
    if a = k then (a, v) :: t else (a, b) :: set t k v

def get {α β : Type} [DecidableEq α] (l : List (α × β)) (k : α) : Option β :=
  (l.find? (fun e => e.fst = k)).map (fun e => e.snd)

def keys {α β : Type} (l : List (α × β)) : List α :=
  l.map (fun e => e.fst)

def values {α β : Type} (l : List (α × β)) : List β :=
  l.map (fun e => e.snd)

end PyDict

namespace PyNum

/-- Python floor division (`//`) on rationals. -/
def qfloor (x : ℚ) : Int := x.num.fdiv (x.den : Int)

/-- Python `int()` truncation toward zero on rationals. -/
def qtrunc (x : ℚ) : Int := x.num.tdiv (x.den : Int)

end PyNum

deriving instance DecidableEq for Except

/-! Embedding of src/otbreview/pipeline/tag_decode.py. -/

namespace TagDecode

/-- One value of the piece_id_map.json object before validation: the
"symbol"/"square"/"name" keys may each be present or absent. -/
structure RawEntry where
  symbol : Option String
  square : Option String
  name : Option String
deriving DecidableEq, Repr

/-- A validated entry of the id map. -/
structure MapEntry where
  symbol : String
  square : String
  name : String
deriving DecidableEq, Repr

/-- The exception `PieceIdMapError` of tag_decode.py, carrying the
offending key. -/
inductive LoadError where
  | pieceIdMapError (key : Int)
deriving DecidableEq, Repr

def loadAux : List (Int × RawEntry) → List (Int × MapEntry) →
    Except LoadError (List (Int × MapEntry))
  | [], acc => Except.ok acc
  | (k, v) :: t, acc =>
    match v.symbol, v.square with
    | some sy, some sq =>
      loadAux t (PyDict.set acc k ⟨sy, sq, v.name.getD (toString k)⟩)
    | _, _ => Except.error (LoadError.pieceIdMapError k)

/-- `load_piece_id_map` after `json.loads`: iterate the object entries,
convert each key with `int()` (the keys are modelled post-conversion; a
non-numeric key would raise ValueError, which is not a PieceIdMapError),
raise `PieceIdMapError` when "symbol" or "square" is missing, and default
the "name" field to `str(pid)`. -/
def load_piece_id_map (data : List (Int × RawEntry)) :
    Except LoadError (List (Int × MapEntry)) :=
  loadAux data []

/-- python-chess `Piece.from_symbol`: upper case is white. -/
def pieceFromSymbol (s : String) : Option Chess.Piece :=
  match s.toList with
  | [c] =>
    match Chess.promoOfChar c with
    | some pt =>
      some ⟨if 'A' ≤ c ∧ c ≤ 'Z' then Chess.Color.white else Chess.Color.black, pt⟩
    | none => none
  | _ => none

/-- python-chess `Board.set_piece_at` (silently replaces any piece already
standing on the square). -/
def setPieceAt (b : Chess.Board) (sq : Nat) (pc : Chess.Piece) : Chess.Board :=
  { b with pieces := b.pieces.set sq (some pc) }

def initAux : List (Int × MapEntry) → Chess.Board → List (Int × Chess.Piece) →
    List (Int × Nat) →
    Option (Chess.Board × List (Int × Chess.Piece) × List (Int × Nat))
  | [], b, idToPiece, idToSquare => some (b, idToPiece, idToSquare)
  | (pid, info) :: t, b, idToPiece, idToSquare =>
    match pieceFromSymbol info.symbol, Chess.parseSquare info.square with
    | some piece, some square =>
      initAux t (setPieceAt b square piece) (PyDict.set idToPiece pid piece)
        (PyDict.set idToSquare pid square)
    | _, _ => none

/-- `_init_board_from_map`: start from `chess.Board.empty()`, place every
entry of the map (later entries on the same square silently overwrite
earlier ones), record the id-to-piece and id-to-square dicts and set the
turn to white.  `none` models the ValueError raised by `from_symbol` or
`parse_square` on a malformed entry. -/
def _init_board_from_map (pieceMap : List (Int × MapEntry)) :
    Option (Chess.Board × List (Int × Chess.Piece) × List (Int × Nat)) :=
  (initAux pieceMap Chess.emptyBoard [] []).map
    (fun r => ({ r.fst with turn := Chess.Color.white }, r.snd))

/-- `_grid_to_positions`: scan rows 0..7 (row 0 is rank 8) and columns
0..7, mapping positive ids to `chess.square(col, 7 - row)`; duplicate ids
overwrite (dict assignment). -/
def _grid_to_positions (g : List (List Int)) : List (Int × Nat) :=
  (List.range 8).foldl
    (fun acc row =>
      (List.range 8).foldl
        (fun acc2 col =>
          let pid := (g.getD row []).getD col 0
          if pid ≤ 0 then acc2
          else PyDict.set acc2 pid (Chess.mkSquare col (7 - row)))
        acc)
    []

/-- `_match_legal_move`: first legal move with the given origin and
destination, the promotion constraint applying only when one is given. -/
def _match_legal_move (b : Chess.Board) (fromSq toSq : Nat)
    (promotion : Option Chess.PieceType) : Option Chess.Move :=
  (Chess.legalMoves b).find? (fun mv =>
    mv.src = fromSq && mv.dst = toSq &&
    (promotion.isNone || mv.promo = promotion))

/-- `_detect_castling`: with exactly two moved ids, find the (last) king id
and rook id among them, require all four old/new positions to be known,
and match the four canonical castling patterns. -/
def _detect_castling (movedIds : List Int) (prevPositions currPositions : List (Int × Nat))
    (idToPiece : List (Int × Chess.Piece)) : Option Chess.Move :=
  if movedIds.length ≠ 2 then none
  else
    let kingId := (movedIds.filter (fun pid =>
      match PyDict.get idToPiece pid with
      | some pc => pc.ptype = Chess.PieceType.king
      | none => false)).getLast?
    let rookId := (movedIds.filter (fun pid =>
      match PyDict.get idToPiece pid with
      | some pc => pc.ptype = Chess.PieceType.rook
      | none => false)).getLast?
    match kingId, rookId with
    | some kid, some rid =>
      match PyDict.get prevPositions kid, PyDict.get currPositions kid,
          PyDict.get prevPositions rid, PyDict.get currPositions rid with
      | some kingFrom, some kingTo, some rookFrom, some rookTo =>
        if kingFrom = 4 ∧ kingTo = 6 ∧ rookFrom = 7 ∧ rookTo = 5 then
          some ⟨4, 6, none⟩
        else if kingFrom = 4 ∧ kingTo = 2 ∧ rookFrom = 0 ∧ rookTo = 3 then
          some ⟨4, 2, none⟩
        else if kingFrom = 60 ∧ kingTo = 62 ∧ rookFrom = 63 ∧ rookTo = 61 then
          some ⟨60, 62, none⟩
        else if kingFrom = 60 ∧ kingTo = 58 ∧ rookFrom = 56 ∧ rookTo = 59 then
          some ⟨60, 58, none⟩
        else none
      | _, _, _, _ => none
    | _, _ => none

/-- The ids whose position changed between two observations: the union of
the keys with differing lookups.  Python iterates a set here; the order is
irrelevant to the decoder (the list is only tested for length, indexed
when it is a singleton, and scanned whole by `_detect_castling`). -/
def movedIdsOf (prevPositions currPositions : List (Int × Nat)) : List Int :=
  ((PyDict.keys prevPositions) ++ (PyDict.keys currPositions)).dedup.filter
    (fun pid => PyDict.get prevPositions pid ≠ PyDict.get currPositions pid)

/-- The decoder state carried across steps of `infer_moves_from_id_grids`:
the canonical board, the previous positions dict, the SAN list published
so far and the indices of the steps recorded as uncertain. -/
structure DecodeState where
  board : Chess.Board
  prevPositions : List (Int × Nat)
  movesSan : List String
  uncertainSteps : List Nat
deriving DecidableEq, Repr

/-- One iteration of the loop of `infer_moves_from_id_grids` (steps
idx = 1, 2, ...): try castling, then the single-moved-id case; a `none`
outcome appends "??" and records the step as uncertain without advancing
the canonical board. -/
def stepFn (idToPiece : List (Int × Chess.Piece)) (st : DecodeState)
    (idx : Nat) (grid : List (List Int)) : DecodeState :=
  let curr := _grid_to_positions grid
  let movedIds := movedIdsOf st.prevPositions curr
  let castle := _detect_castling movedIds st.prevPositions curr idToPiece
  let chosenCastle : Option Chess.Move :=
    match castle with
    | some c => if (Chess.legalMoves st.board).contains c then some c else none
    | none => none
  let chosen : Option Chess.Move :=
    match chosenCastle with
    | some c => some c
    | none =>
      if movedIds.length = 1 then
        let pid := movedIds.headD 0
        match PyDict.get st.prevPositions pid, PyDict.get curr pid,
            PyDict.get idToPiece pid with
        | some fromSq, some toSq, some piece =>
          let promotion : Option Chess.PieceType :=
            if piece.ptype = Chess.PieceType.pawn ∧
                (Chess.rankOf toSq = 0 ∨ Chess.rankOf toSq = 7) then
              some Chess.PieceType.queen
            else none
          let m : Chess.Move := ⟨fromSq, toSq, promotion⟩
          if (Chess.legalMoves st.board).contains m then some m
          else _match_legal_move st.board fromSq toSq promotion
        | _, _, _ => none
      else none
  match chosen with
  | none =>
    { board := st.board
      prevPositions := curr
      movesSan := st.movesSan ++ ["??"]
      uncertainSteps := st.uncertainSteps ++ [idx] }
  | some m =>
    let san := (Chess.sanOf st.board m).getD ""
    { board := Chess.push st.board m
      prevPositions := curr
      movesSan := st.movesSan ++ [san]
      uncertainSteps := st.uncertainSteps }

def inferAux (idToPiece : List (Int × Chess.Piece)) :
    Nat → DecodeState → List (List (List Int)) → DecodeState
  | _, st, [] => st
  | idx, st, g :: rest => inferAux idToPiece (idx + 1) (stepFn idToPiece st idx g) rest

/-- `infer_moves_from_id_grids`: initialise the canonical board from the
piece map, read the first grid as the baseline positions, then decode each
successive grid pair; returns the SAN list (with "??" placeholders) and
the uncertain step indices.  `none` models the ValueError raised while
parsing a malformed piece map. -/
def infer_moves_from_id_grids (grids : List (List (List Int)))
    (pieceMap : List (Int × MapEntry)) : Option (List String × List Nat) :=
  match grids with
  | [] => some ([], [])
  | g0 :: rest =>
    match _init_board_from_map pieceMap with
    | none => none
    | some (b, idToPiece, _) =>
      let st0 : DecodeState :=
        { board := b
          prevPositions := _grid_to_positions g0
          movesSan := []
          uncertainSteps := [] }
      let final := inferAux idToPiece 1 st0 rest
      some (final.movesSan, final.uncertainSteps)

/-- A 32-entry id map matching the standard starting position: ids 1-8 are
the white pawns a2..h2, 9-16 the white back rank a1..h1, 17-24 the black
pawns a7..h7, 25-32 the black back rank a8..h8. -/
def stdPieceMap : List (Int × MapEntry) :=
  [(1, ⟨"P", "a2", "wp1"⟩), (2, ⟨"P", "b2", "wp2"⟩), (3, ⟨"P", "c2", "wp3"⟩),
   (4, ⟨"P", "d2", "wp4"⟩), (5, ⟨"P", "e2", "wp5"⟩), (6, ⟨"P", "f2", "wp6"⟩),
   (7, ⟨"P", "g2", "wp7"⟩), (8, ⟨"P", "h2", "wp8"⟩),
   (9, ⟨"R", "a1", "wr1"⟩), (10, ⟨"N", "b1", "wn1"⟩), (11, ⟨"B", "c1", "wb1"⟩),
   (12, ⟨"Q", "d1", "wq"⟩), (13, ⟨"K", "e1", "wk"⟩), (14, ⟨"B", "f1", "wb2"⟩),
   (15, ⟨"N", "g1", "wn2"⟩), (16, ⟨"R", "h1", "wr2"⟩),
   (17, ⟨"p", "a7", "bp1"⟩), (18, ⟨"p", "b7", "bp2"⟩), (19, ⟨"p", "c7", "bp3"⟩),
   (20, ⟨"p", "d7", "bp4"⟩), (21, ⟨"p", "e7", "bp5"⟩), (22, ⟨"p", "f7", "bp6"⟩),
   (23, ⟨"p", "g7", "bp7"⟩), (24, ⟨"p", "h7", "bp8"⟩),
   (25, ⟨"r", "a8", "br1"⟩), (26, ⟨"n", "b8", "bn1"⟩), (27, ⟨"b", "c8", "bb1"⟩),
   (28, ⟨"q", "d8", "bq"⟩), (29, ⟨"k", "e8", "bk"⟩), (30, ⟨"b", "f8", "bb2"⟩),
   (31, ⟨"n", "g8", "bn2"⟩), (32, ⟨"r", "h8", "br2"⟩)]

/-- The tag grid of the standard starting position under `stdPieceMap`
(row 0 is rank 8). -/
def gridStart : List (List Int) :=
  [[25, 26, 27, 28, 29, 30, 31, 32],
   [17, 18, 19, 20, 21, 22, 23, 24],
   [0, 0, 0, 0, 0, 0, 0, 0],
   [0, 0, 0, 0, 0, 0, 0, 0],
   [0, 0, 0, 0, 0, 0, 0, 0],
   [0, 0, 0, 0, 0, 0, 0, 0],
   [1, 2, 3, 4, 5, 6, 7, 8],
   [9, 10, 11, 12, 13, 14, 15, 16]]

/-- The grid after 1. e4 (white e-pawn, id 5, on e4). -/
def gridAfterE4 : List (List Int) :=
  [[25, 26, 27, 28, 29, 30, 31, 32],
   [17, 18, 19, 20, 21, 22, 23, 24],
   [0, 0, 0, 0, 0, 0, 0, 0],
   [0, 0, 0, 0, 0, 0, 0, 0],
   [0, 0, 0, 0, 5, 0, 0, 0],
   [0, 0, 0, 0, 0, 0, 0, 0],
   [1, 2, 3, 4, 0, 6, 7, 8],
   [9, 10, 11, 12, 13, 14, 15, 16]]

/-- The grid after 1. e4 d5 (black d-pawn, id 20, on d5). -/
def gridAfterD5 : List (List Int) :=
  [[25, 26, 27, 28, 29, 30, 31, 32],
   [17, 18, 19, 0, 21, 22, 23, 24],
   [0, 0, 0, 0, 0, 0, 0, 0],
   [0, 0, 0, 20, 0, 0, 0, 0],
   [0, 0, 0, 0, 5, 0, 0, 0],
   [0, 0, 0, 0, 0, 0, 0, 0],
   [1, 2, 3, 4, 0, 6, 7, 8],
   [9, 10, 11, 12, 13, 14, 15, 16]]

/-- The grid after 1. e4 d5 2. exd5: id 5 stands on d5 and id 20 has
disappeared (it was captured). -/
def gridAfterExd5 : List (List Int) :=
  [[25, 26, 27, 28, 29, 30, 31, 32],
   [17, 18, 19, 0, 21, 22, 23, 24],
   [0, 0, 0, 0, 0, 0, 0, 0],
   [0, 0, 0, 5, 0, 0, 0, 0],
   [0, 0, 0, 0, 0, 0, 0, 0],
   [0, 0, 0, 0, 0, 0, 0, 0],
   [1, 2, 3, 4, 0, 6, 7, 8],
   [9, 10, 11, 12, 13, 14, 15, 16]]

/-- The four-observation capture run used against claim C1. -/
def captureRunGrids : List (List (List Int)) :=
  [gridStart, gridAfterE4, gridAfterD5, gridAfterExd5]

/-- The piece that the last map entry naming square `s` places there
(starting from `dflt`): the piece `_init_board_from_map` leaves on `s`,
since later entries silently overwrite earlier ones. -/
def lastPlacedFold (pieceMap : List (Int × MapEntry)) (s : Nat)
    (dflt : Option Chess.Piece) : Option Chess.Piece :=
  pieceMap.foldl
    (fun acc e =>
      match pieceFromSymbol e.snd.symbol, Chess.parseSquare e.snd.square with
      | some pc, some sq => if sq = s then some pc else acc
      | _, _ => acc)
    dflt

end TagDecode

/-! Embedding of src/otbreview/pipeline/decode.py. -/

namespace Decode

/-- Exceptions decode_moves can raise: IndexError on an empty state list
(`board_states[0]`), and the python-chess AssertionError from computing
`board.san(best_move)` after `board.push(best_move)` (the origin square of
the move is empty in the pushed position). -/
inductive PyExc where
  | indexError
  | assertionErrorSan
deriving DecidableEq, Repr

/-- `_board_state_to_occupancy`: the 8x8 occupancy matrix of a board
state (0 empty, 1 white, 2 black); row 0 is rank 8. -/
def OccGrid : Type := List (List Int)

/-- `_fen_to_occupancy`: the occupancy grid of the position denoted by a
FEN; the FEN string is represented by its board record, whose placement it
determines. -/
def _fen_to_occupancy (b : Chess.Board) : List (List Int) :=
  (List.range 8).map (fun row =>
    (List.range 8).map (fun col =>
      match b.pieceAt ((7 - row) * 8 + col) with
      | none => (0 : Int)
      | some pc => if pc.color = Chess.Color.white then 1 else 2))

/-- `_compute_occupancy_distance`: number of mismatching cells. -/
def _compute_occupancy_distance (a b : List (List Int)) : ℚ :=
  (((List.range 8).map (fun row =>
    ((List.range 8).filter (fun col =>
      (a.getD row []).getD col 0 ≠ (b.getD row []).getD col 0)).length)).sum : ℕ)

/-- `_find_best_move`: score every legal move by the distance between the
expected occupancy after it and the observed grid, sort stably by score
and return the minimum with the full candidate list; `none` when there are
no legal moves (python returns `(None, inf, [])`).  The `prevOcc`
parameter mirrors `prev_occupancy`, which the source accepts but never
reads. -/
def _find_best_move (b : Chess.Board) (prevOcc currOcc : List (List Int)) :
    Option (Chess.Move × ℚ × List (Chess.Move × ℚ)) :=
  let legal := Chess.legalMoves b
  if legal.isEmpty then none
  else
    let candidates := legal.map (fun m =>
      (m, _compute_occupancy_distance (_fen_to_occupancy (Chess.push b m)) currOcc))
    let sorted := candidates.mergeSort (fun x y => x.snd ≤ y.snd)
    match sorted with
    | [] => none
    | best :: _ => some (best.fst, best.snd, sorted)

/-- One confidence record of decode_moves. -/
structure ConfEntry where
  uncertain : Bool
  score : Option ℚ
deriving DecidableEq, Repr

def decodeAux : Chess.Board → OccGrid → List OccGrid → List String →
    List ConfEntry → Except PyExc (List String × List ConfEntry)
  | _, _, [], sans, confs => Except.ok (sans, confs)
  | b, prevOcc, currOcc :: rest, sans, confs =>
    match _find_best_move b prevOcc currOcc with
    | none =>
      decodeAux b currOcc rest (sans ++ ["??"]) (confs ++ [⟨true, none⟩])
    | some (bestMove, bestScore, candidates) =>
      let b2 := Chess.push b bestMove
      match Chess.sanOf b2 bestMove with
      | none => Except.error PyExc.assertionErrorSan
      | some san =>
        let uncertain :=
          match candidates with
          | _ :: second :: _ => decide (second.snd - bestScore < (1 : ℚ) / 10)
          | _ => false
        decodeAux b2 currOcc rest (sans ++ [san])
          (confs ++ [⟨uncertain, some bestScore⟩])

/-- `decode_moves`: from the first observed occupancy onward, pick the
best-matching legal move for each successive grid and publish its SAN.
`initial_fen = None` starts from `chess.Board()`.  The source pushes the
move first (`board.push(best_move)`) and only then computes
`san = board.san(best_move)`, so the SAN is evaluated in the position
after the move, where python-chess raises AssertionError because the
origin square of the move is empty; the embedding evaluates `sanOf` on the
pushed board accordingly. -/
def decode_moves (board_states : List OccGrid)
    (initial_fen : Option Chess.Board) :
    Except PyExc (List String × List ConfEntry) :=
  match board_states with
  | [] => Except.error PyExc.indexError
  | first :: rest => decodeAux (initial_fen.getD Chess.startBoard) first rest [] []

end Decode

/-! Embedding of src/otbreview/pipeline/pieces.py (the photometric
two-phase observer).  Image data enters through the per-patch statistics
the source derives with cv2: the Lab-channel mean of the central patch of
each cell and its Canny edge-pixel ratio.  `np.std` involves a square
root, which has no exact rational counterpart, so it is passed in as a
function parameter. -/

namespace Pieces

/-- The per-cell patch statistics of a rectified board: Lab mean (L, a, b)
and edge-pixel ratio of each central patch. -/
structure ImageStats where
  labMean : Nat → Nat → ℚ × ℚ × ℚ
  edgeScore : Nat → Nat → ℚ

/-- Unhandled Python exceptions of this module.  `nameErrorWarped` is the
NameError raised by `detect_pieces_two_stage`: its body reads the name
`warped` (src/otbreview/pipeline/pieces.py lines 180, 184 and 196) but the
parameter is called `warped_board` and no binding named `warped` exists in
the function or module scope. -/
inductive PyExc where
  | nameErrorWarped
deriving DecidableEq, Repr

/-- Evaluation of the unbound name `warped` in the body of
`detect_pieces_two_stage`: in Python the lookup raises NameError before
any further work. -/
def lookupNameWarped : Except PyExc ImageStats :=
  Except.error PyExc.nameErrorWarped

def meanQ (l : List ℚ) : ℚ :=
  if l.length = 0 then 0 else l.sum / (l.length : ℚ)

def absDiff3 (a b : ℚ × ℚ × ℚ) : ℚ :=
  (abs (a.fst - b.fst) + abs (a.snd.fst - b.snd.fst) +
   abs (a.snd.snd - b.snd.snd)) / 3

def mean3 (l : List (ℚ × ℚ × ℚ)) : ℚ × ℚ × ℚ :=
  (meanQ (l.map (fun v => v.fst)), meanQ (l.map (fun v => v.snd.fst)),
   meanQ (l.map (fun v => v.snd.snd)))

/-- Phase A calibration data (calibration_phase_a.json). -/
structure PhaseACalib where
  templateWhite : ℚ × ℚ × ℚ
  templateBlack : ℚ × ℚ × ℚ
  t1 : ℚ
  t2 : ℚ
deriving DecidableEq, Repr

def calibCells : List (Nat × Nat) :=
  ((List.range 8).filter (fun r => r = 2 ∨ r = 3 ∨ r = 4 ∨ r = 5)).flatMap
    (fun r => (List.range 8).map (fun c => (r, c)))

/-- `_phase_a_piece_empty` calibration on the first frame: Lab templates of
the light and dark board squares sampled from rows 2-5, and thresholds
mean + 4 std of the calibration color-diff and edge-score distributions
(`std` models `np.std`). -/
def phaseACalibrate (std : List ℚ → ℚ) (img : ImageStats) : PhaseACalib :=
  let whites := (calibCells.filter (fun rc => (rc.fst + rc.snd) % 2 = 0)).map
    (fun rc => img.labMean rc.fst rc.snd)
  let blacks := (calibCells.filter (fun rc => (rc.fst + rc.snd) % 2 ≠ 0)).map
    (fun rc => img.labMean rc.fst rc.snd)
  let templateWhite := mean3 whites
  let templateBlack := mean3 blacks
  let colorDiffs := calibCells.map (fun rc =>
    absDiff3 (img.labMean rc.fst rc.snd)
      (if (rc.fst + rc.snd) % 2 = 0 then templateWhite else templateBlack))
  let edgeScores := calibCells.map (fun rc => img.edgeScore rc.fst rc.snd)
  { templateWhite := templateWhite
    templateBlack := templateBlack
    t1 := meanQ colorDiffs + 4 * std colorDiffs
    t2 := meanQ edgeScores + 4 * std edgeScores }

/-- `_phase_a_piece_empty` classification: a cell holds a piece iff its
color-diff exceeds T1 or its edge score exceeds T2. -/
def phaseAMask (calib : PhaseACalib) (img : ImageStats) : List (List Bool) :=
  (List.range 8).map (fun r =>
    (List.range 8).map (fun c =>
      let template := if (r + c) % 2 = 0 then calib.templateWhite
        else calib.templateBlack
      absDiff3 (img.labMean r c) template > calib.t1 ∨
        img.edgeScore r c > calib.t2))

/-- `_phase_b_light_dark` calibration: Tld is the midpoint of the mean
L values of the piece cells on rows 0-1 (dark) and rows 6-7 (light),
defaulting to 100 when either sample is empty. -/
def phaseBThreshold (img : ImageStats) (mask : List (List Bool)) : ℚ :=
  let darkSamples := ((List.range 8).filter (fun r => r = 0 ∨ r = 1)).flatMap
    (fun r => ((List.range 8).filter
      (fun c => (mask.getD r []).getD c false)).map
      (fun c => (img.labMean r c).fst))
  let lightSamples := ((List.range 8).filter (fun r => r = 6 ∨ r = 7)).flatMap
    (fun r => ((List.range 8).filter
      (fun c => (mask.getD r []).getD c false)).map
      (fun c => (img.labMean r c).fst))
  if darkSamples.length = 0 ∨ lightSamples.length = 0 then 100
  else (meanQ darkSamples + meanQ lightSamples) / 2

/-- The board_state dict returned by `detect_pieces_two_stage`. -/
structure BoardState where
  occupancy : List (List Int)
  confidence : List (List ℚ)
  labels : List (List String)
deriving DecidableEq, Repr

/-- `_phase_b_light_dark` classification: empty cells get occupancy 0 and
confidence 0.8; piece cells are light (1) iff L ≥ Tld, with confidence
min(1, 0.5 + |L - Tld| / 50 · 0.5). -/
def phaseBClassify (img : ImageStats) (mask : List (List Bool)) (tld : ℚ) :
    BoardState :=
  { occupancy := (List.range 8).map (fun r => (List.range 8).map (fun c =>
      if (mask.getD r []).getD c false then
        (if (img.labMean r c).fst ≥ tld then (1 : Int) else 2)
      else 0))
    confidence := (List.range 8).map (fun r => (List.range 8).map (fun c =>
      if (mask.getD r []).getD c false then
        min 1 ((1 : ℚ) / 2 + (abs ((img.labMean r c).fst - tld) / 50) / 2)
      else (8 : ℚ) / 10))
    labels := (List.range 8).map (fun r => (List.range 8).map (fun c =>
      if (mask.getD r []).getD c false then
        (if (img.labMean r c).fst ≥ tld then "light" else "dark")
      else "empty")) }

/-- `_phase_a_piece_empty` on the calibration frame: `none` when either
empty-square sample is missing (the cannot-calibrate return of the
source), otherwise the calibration record and the piece mask. -/
def phaseA (std : List ℚ → ℚ) (img : ImageStats) :
    Option (PhaseACalib × List (List Bool)) :=
  let whites := calibCells.filter (fun rc => (rc.fst + rc.snd) % 2 = 0)
  let blacks := calibCells.filter (fun rc => (rc.fst + rc.snd) % 2 ≠ 0)
  if whites.length = 0 ∨ blacks.length = 0 then none
  else
    let calib := phaseACalibrate std img
    some (calib, phaseAMask calib img)

/-- `detect_pieces_two_stage` as written in the source: on the calibration
frame with debug enabled it first tries `cv2.imwrite(..., warped)`, and in
every call it invokes `_phase_a_piece_empty(warped_board=warped, ...)` and
then `_phase_b_light_dark(warped_board=warped, ...)`.  All three read the
unbound name `warped`, so the NameError fires before Phase A can run; the
remainder of the body is consequently dead code. -/
def detect_pieces_two_stage (std : List ℚ → ℚ) (warped_board : ImageStats)
    (frame_idx : Nat) (debug : Bool) : Except PyExc (Option BoardState) := do
  let _unusedImg := warped_board
  let warpedVal ← lookupNameWarped
  match phaseA std warpedVal with
  | none => pure none
  | some (_, mask) =>
    let tld := phaseBThreshold warpedVal mask
    pure (some (phaseBClassify warpedVal mask tld))

end Pieces

/-! Embedding of src/otbreview/pipeline/analyze.py (`_extract_eval`) and
src/otbreview/pipeline/classify.py (`classify_moves`). -/

namespace Analyze

/-- The engine score object as `_extract_eval` uses it: `is_mate()`,
`mate()` and `score()`.  Centipawn values are integers from the engine,
reported from the side to move. -/
structure EngineScore where
  mateVal : Option Int
  cpVal : Option Int
deriving DecidableEq, Repr

structure EvalOut where
  cp : Option ℚ
  mate : Option Int
deriving DecidableEq, Repr

/-- `_extract_eval`: mate scores are sign-adjusted to the white point of
view; centipawn scores are negated for black to move and divided by 100
(so `eval_cp` is measured in pawns, not centipawns). -/
def _extract_eval (score : EngineScore) (turn : Chess.Color) : EvalOut :=
  match score.mateVal with
  | some mateScore =>
    if turn = Chess.Color.white then { cp := none, mate := some mateScore }
    else { cp := none, mate := some (-mateScore) }
  | none =>
    match score.cpVal with
    | none => { cp := some 0, mate := none }
    | some cp =>
      let cpW : Int := if turn = Chess.Color.black then -cp else cp
      { cp := some ((cpW : ℚ) / 100), mate := none }

end Analyze

namespace Classify

/-- One entry of the analysis list consumed by `classify_moves`. -/
structure AnalysisEntry where
  move_number : Nat
  move_san : String
  fen : String
  eval_cp : Option ℚ
  eval_mate : Option Int
deriving DecidableEq, Repr

structure ClassifiedEntry where
  entry : AnalysisEntry
  classification : Option String
  cp_loss : Option ℚ
  is_book : Option Bool
deriving DecidableEq, Repr

/-- The TypeError Python raises when `prev_eval - curr_eval` hits a `None`
`eval_cp` (a mate entry). -/
inductive PyExc where
  | typeErrorNoneArith
deriving DecidableEq, Repr

/-- `_is_book_move`: the source stub always returns False. -/
def _is_book_move (fen : String) (moveSan : String) : Bool := false

/-- The classification thresholds of classify.py (`THRESHOLDS`), applied
to the stored `cp_loss` value. -/
def classifyLoss (cpLoss : ℚ) : String :=
  if cpLoss ≤ 0 then "best"
  else if cpLoss ≤ 50 then "good"
  else if cpLoss ≤ 100 then "inaccuracy"
  else if cpLoss ≤ 200 then "mistake"
  else "blunder"

def classifyEntry (analysis : List AnalysisEntry) (i : Nat)
    (e : AnalysisEntry) : Except PyExc ClassifiedEntry :=
  if i = 0 then
    Except.ok ⟨e, some "initial", some 0, some false⟩
  else
    match (analysis.getD (i - 1) e).eval_cp, e.eval_cp with
    | some prevEval, some currEval =>
      let cpLoss := if i % 2 = 1 then prevEval - currEval else currEval - prevEval
      let isBook := _is_book_move e.fen e.move_san
      let classification := if isBook then "book" else classifyLoss cpLoss
      Except.ok ⟨e, some classification, some cpLoss, some isBook⟩
    | _, _ => Except.error PyExc.typeErrorNoneArith

def classifyAll (analysis : List AnalysisEntry) :
    Nat → List AnalysisEntry → Except PyExc (List ClassifiedEntry)
  | _, [] => Except.ok []
  | i, e :: rest => do
    let c ← classifyEntry analysis i e
    let cs ← classifyAll analysis (i + 1) rest
    pure (c :: cs)

/-- `classify_moves`: entry 0 is "initial"; for later entries the stored
`cp_loss` is the mover-perspective difference of successive `eval_cp`
values (white moves are the odd indices) and the classification applies
the centipawn thresholds to it.  Lists shorter than 2 are returned
unclassified. -/
def classify_moves (analysis : List AnalysisEntry) :
    Except PyExc (List ClassifiedEntry) :=
  if analysis.length < 2 then
    Except.ok (analysis.map (fun e => ⟨e, none, none, none⟩))
  else
    classifyAll analysis 0 analysis

end Classify

/-! Embedding of src/otbreview/pipeline/tag_detector.py.  The ArUco
detector results are abstract inputs (id and corner quadrilateral per raw
detection); `np.linalg.norm` involves a square root and is passed in as a
function parameter `norm2` (norm of a 2-vector). -/

namespace TagDetector

structure TagDetection where
  marker_id : Int
  row : Nat
  col : Nat
  center : ℚ × ℚ
  area : ℚ
  score : ℚ
  decode_margin : ℚ
  border_penalty : ℚ
deriving DecidableEq, Repr

/-- A raw ArUco detection on one preprocessing candidate: decoded id and
the four corner points (already divided by the candidate's upscale
factor, as in `corners_scaled`). -/
structure RawDetection where
  markerId : Int
  corners : List (ℚ × ℚ)
deriving DecidableEq, Repr

/-- cv2.contourArea via the shoelace formula. -/
def contourArea (pts : List (ℚ × ℚ)) : ℚ :=
  let n := pts.length
  let cross := ((List.range n).map (fun i =>
    let a := pts.getD i (0, 0)
    let b := pts.getD ((i + 1) % n) (0, 0)
    a.fst * b.snd - b.fst * a.snd)).sum
  abs cross / 2

def meanPoint (pts : List (ℚ × ℚ)) : ℚ × ℚ :=
  if pts.length = 0 then (0, 0)
  else ((pts.map (fun p => p.fst)).sum / (pts.length : ℚ),
        (pts.map (fun p => p.snd)).sum / (pts.length : ℚ))

def clip07 (x : ℚ) : Nat :=
  (max 0 (min 7 (PyNum.qfloor x))).toNat

def qMin (l : List ℚ) (dflt : ℚ) : ℚ :=
  match l with
  | [] => dflt
  | x :: t => t.foldl min x

def qMax (l : List ℚ) (dflt : ℚ) : ℚ :=
  match l with
  | [] => dflt
  | x :: t => t.foldl max x

/-- `_calc_border_penalty`. -/
def _calc_border_penalty (corners : List (ℚ × ℚ)) (size : Nat) : ℚ :=
  let xs := corners.map (fun p => p.fst)
  let ys := corners.map (fun p => p.snd)
  let minBorder := qMin [qMin xs 0, (size : ℚ) - qMax xs 0,
    qMin ys 0, (size : ℚ) - qMax ys 0] 0
  let safeMargin := max ((size : ℚ) / 100) 1
  if minBorder ≥ safeMargin then 0
  else max 0 (1 - minBorder / safeMargin)

/-- `_calc_decode_margin` (`norm2` models np.linalg.norm of a vector). -/
def _calc_decode_margin (norm2 : ℚ × ℚ → ℚ) (corners : List (ℚ × ℚ)) : ℚ :=
  let sideLengths := (List.range 4).map (fun i =>
    let a := corners.getD i (0, 0)
    let b := corners.getD ((i + 1) % 4) (0, 0)
    norm2 (a.fst - b.fst, a.snd - b.snd))
  let maxLen := qMax sideLengths 1
  let minLen := qMin sideLengths 1
  let squareness := minLen / (maxLen + 1 / 1000000)
  max (1 / 10) (min 1 squareness)

/-- `_detect_on_candidate`: keep detections whose id is allowed and whose
area reaches the minimum, locate the cell of the corner centroid and
compute the quality score. -/
def _detect_on_candidate (norm2 : ℚ × ℚ → ℚ) (raw : List RawDetection)
    (allowed_ids : List Int) (min_area cell : ℚ) (size : Nat) :
    List TagDetection :=
  raw.filterMap (fun d =>
    if !(allowed_ids.contains d.markerId) then none
    else
      let area := contourArea d.corners
      if area < min_area then none
      else
        let center := meanPoint d.corners
        let col := clip07 (center.fst / cell)
        let row := clip07 (center.snd / cell)
        let borderPenalty := _calc_border_penalty d.corners size
        let decodeMargin := _calc_decode_margin norm2 d.corners
        some
          { marker_id := d.markerId
            row := row
            col := col
            center := center
            area := area
            score := area * (1 - borderPenalty) * decodeMargin
            decode_margin := decodeMargin
            border_penalty := borderPenalty })

def uniqueIdCount (l : List TagDetection) : Nat :=
  (l.map (fun d => d.marker_id)).dedup.length

def totalScore (l : List TagDetection) : ℚ :=
  (l.map (fun d => d.score)).sum

/-- The preprocessing-candidate selection loop of `detect_piece_tags`:
prefer more unique ids, then more detections, then higher total score;
a nonempty list also beats an empty incumbent. -/
def selectBest : List (List TagDetection) → List TagDetection → List TagDetection
  | [], best => best
  | dets :: rest, best =>
    let takeIt :=
      uniqueIdCount dets > uniqueIdCount best ∨
      (uniqueIdCount dets = uniqueIdCount best ∧ dets.length > best.length) ∨
      (uniqueIdCount dets = uniqueIdCount best ∧ dets.length = best.length ∧
        totalScore dets > totalScore best) ∨
      (best.isEmpty ∧ !dets.isEmpty)
    selectBest rest (if takeIt then dets else best)

/-- One record of the conflict log (`conflict_log`).  The source appends
the same field values in both branches of each comparison, so when the new
detection wins the "kept"/"discarded" labels name the opposite
detections. -/
inductive ConflictEntry where
  | cellConflict (cell : Nat × Nat) (keptId discardedId : Int)
      (keptScore discardedScore : ℚ)
  | idConflict (markerId : Int) (keptCell discardedCell : Nat × Nat)
      (keptScore discardedScore : ℚ)
deriving DecidableEq, Repr

/-- Step 1: keep the highest-scoring detection per cell, logging every
conflict (fields exactly as the source writes them). -/
def bestByCellFold : List TagDetection →
    List ((Nat × Nat) × TagDetection) → List ConflictEntry →
    List ((Nat × Nat) × TagDetection) × List ConflictEntry
  | [], acc, log => (acc, log)
  | det :: rest, acc, log =>
    let key := (det.row, det.col)
    match PyDict.get acc key with
    | none => bestByCellFold rest (PyDict.set acc key det) log
    | some prev =>
      let entry := ConflictEntry.cellConflict key prev.marker_id det.marker_id
        prev.score det.score
      if det.score > prev.score then
        bestByCellFold rest (PyDict.set acc key det) (log ++ [entry])
      else
        bestByCellFold rest acc (log ++ [entry])

/-- Step 2: keep the highest-scoring cell per id, logging every conflict. -/
def bestByIdFold : List TagDetection →
    List (Int × TagDetection) → List ConflictEntry →
    List (Int × TagDetection) × List ConflictEntry
  | [], acc, log => (acc, log)
  | det :: rest, acc, log =>
    match PyDict.get acc det.marker_id with
    | none => bestByIdFold rest (PyDict.set acc det.marker_id det) log
    | some prev =>
      let entry := ConflictEntry.idConflict det.marker_id
        (prev.row, prev.col) (det.row, det.col) prev.score det.score
      if det.score > prev.score then
        bestByIdFold rest (PyDict.set acc det.marker_id det) (log ++ [entry])
      else
        bestByIdFold rest acc (log ++ [entry])

def emptyGrid : List (List Int) :=
  (List.range 8).map (fun _ => (List.range 8).map (fun _ => (0 : Int)))

def setCell (g : List (List Int)) (row col : Nat) (v : Int) : List (List Int) :=
  g.set row ((g.getD row []).set col v)

def fillGrid (dets : List TagDetection) : List (List Int) :=
  dets.foldl (fun g det => setCell g det.row det.col det.marker_id) emptyGrid

/-- Whether a conflict-log entry names the given marker id in either of
its id fields (because of the label swap described above, a discarded
detection may appear under the "kept" label). -/
def mentionsId (e : ConflictEntry) (i : Int) : Bool :=
  match e with
  | ConflictEntry.cellConflict _ keptId discardedId _ _ =>
    keptId = i ∨ discardedId = i
  | ConflictEntry.idConflict markerId _ _ _ _ => markerId = i

/-- The result record of `detect_piece_tags` (warnings and the overlay
image paths are debug side effects and are not modelled). -/
structure TagDetectResult where
  board_ids : List (List Int)
  detections : List TagDetection
  conflict_log : List ConflictEntry
deriving DecidableEq, Repr

/-- `detect_piece_tags`: `allowed_ids = none` defaults to 1..32; the raw
detector output per preprocessing candidate is the abstract input; the
best candidate is chosen, both conflict-resolution passes are applied and
the surviving detections fill the 8x8 id grid. -/
def detect_piece_tags (norm2 : ℚ × ℚ → ℚ)
    (candidateRaw : List (List RawDetection))
    (allowed_ids : Option (List Int)) (min_area_ratio : ℚ) (size : Nat) :
    TagDetectResult :=
  let allowed := allowed_ids.getD ((List.range 32).map (fun i => (i : Int) + 1))
  let cell : ℚ := (size : ℚ) / 8
  let minArea : ℚ := (size : ℚ) * (size : ℚ) * min_area_ratio
  let candidateDets := candidateRaw.map (fun raw =>
    _detect_on_candidate norm2 raw allowed minArea cell size)
  let bestDetections := selectBest candidateDets []
  let step1 := bestByCellFold bestDetections [] []
  let step2 := bestByIdFold (PyDict.values step1.fst) [] step1.snd
  let finalDets := PyDict.values step2.fst
  { board_ids := fillGrid finalDets
    detections := finalDets
    conflict_log := step2.snd }

end TagDetector

/-! Embedding of src/otbreview/pipeline/board_detect.py.  cv2 inputs are
abstract: the frame decode result, the marker-detection outcome for the
frame and the contour list of the Canny edge image. -/

namespace BoardDetect

/-- The centres of the four corner markers (ids 0..3), when
`detect_aruco_corners` decodes them all. -/
structure MarkerQuad where
  tl : ℚ × ℚ
  tr : ℚ × ℚ
  br : ℚ × ℚ
  bl : ℚ × ℚ
deriving DecidableEq, Repr

/-- One external contour with its `cv2.approxPolyDP` polygon. -/
structure Contour where
  area : ℚ
  approx : List (ℚ × ℚ)
deriving DecidableEq, Repr

/-- The per-frame data consumed by the board locator. -/
structure FrameInput where
  height : Nat
  width : Nat
  markers : Option MarkerQuad
  contours : List Contour
deriving DecidableEq, Repr

/-- The rectified output, described by its source quadrilateral and side
(the warp itself is a cv2 call on these data). -/
inductive Warped where
  | fromMarkers (q : MarkerQuad)
  | fromQuad (quad : List (ℚ × ℚ)) (size : Nat)
deriving DecidableEq, Repr

/-- np.argmin: index of the first minimal element. -/
def argminIdx (l : List ℚ) : Nat :=
  match l.enum with
  | [] => 0
  | e0 :: t =>
    (t.foldl (fun best e => if e.snd < best.snd then e else best) e0).fst

/-- np.argmax: index of the first maximal element. -/
def argmaxIdx (l : List ℚ) : Nat :=
  match l.enum with
  | [] => 0
  | e0 :: t =>
    (t.foldl (fun best e => if e.snd > best.snd then e else best) e0).fst

/-- `_order_points`: TL by minimal x+y, BR by maximal x+y, TR by minimal
y-x, BL by maximal y-x (np.diff on a point gives y - x). -/
def _order_points (pts : List (ℚ × ℚ)) : List (ℚ × ℚ) :=
  let sums := pts.map (fun p => p.fst + p.snd)
  let diffs := pts.map (fun p => p.snd - p.fst)
  [pts.getD (argminIdx sums) (0, 0), pts.getD (argminIdx diffs) (0, 0),
   pts.getD (argmaxIdx sums) (0, 0), pts.getD (argmaxIdx diffs) (0, 0)]

/-- The contour-selection loop of `_detect_without_markers`: walk the
contours, skipping those smaller than the current maximum, and keep the
latest 4-vertex polygon. -/
def pickBoardContour : List Contour → ℚ → Option (List (ℚ × ℚ)) →
    Option (List (ℚ × ℚ))
  | [], _, best => best
  | c :: rest, maxArea, best =>
    if c.area < maxArea then pickBoardContour rest maxArea best
    else if c.approx.length = 4 then pickBoardContour rest c.area (some c.approx)
    else pickBoardContour rest maxArea best

/-- `_detect_without_markers`: when no 4-vertex contour is found the whole
frame is used as the board quadrilateral, so this path always returns a
rectified image; the output side is the larger of the measured edge
lengths (`norm2` models the square-root distance computations, truncated
by `int()`). -/
def _detect_without_markers (norm2 : ℚ × ℚ → ℚ) (fr : FrameInput) :
    Option Warped × Bool :=
  let quad0 :=
    match pickBoardContour fr.contours 0 none with
    | some q => q
    | none =>
      [((0 : ℚ), (0 : ℚ)), ((fr.width : ℚ), 0),
       ((fr.width : ℚ), (fr.height : ℚ)), (0, (fr.height : ℚ))]
  let quad := _order_points quad0
  let tl := quad.getD 0 (0, 0)
  let tr := quad.getD 1 (0, 0)
  let br := quad.getD 2 (0, 0)
  let bl := quad.getD 3 (0, 0)
  let widthA := norm2 (br.fst - bl.fst, br.snd - bl.snd)
  let widthB := norm2 (tr.fst - tl.fst, tr.snd - tl.snd)
  let heightA := norm2 (tr.fst - br.fst, tr.snd - br.snd)
  let heightB := norm2 (tl.fst - bl.fst, tl.snd - bl.snd)
  let maxWidth := max (PyNum.qtrunc widthA) (PyNum.qtrunc widthB)
  let maxHeight := max (PyNum.qtrunc heightA) (PyNum.qtrunc heightB)
  let size := (max maxWidth maxHeight).toNat
  (some (Warped.fromQuad quad size), true)

/-- `_detect_with_markers`: when the four markers are not all decoded this
falls back to `_detect_without_markers` (printing a warning), otherwise it
warps from the marker centres. -/
def _detect_with_markers (norm2 : ℚ × ℚ → ℚ) (fr : FrameInput) :
    Option Warped × Bool :=
  match fr.markers with
  | none => _detect_without_markers norm2 fr
  | some q => (some (Warped.fromMarkers q), true)

/-- `detect_and_warp_board`: `(none, false)` only when the frame cannot be
read (the `Bool` stands for the grid-overlay image being produced). -/
def detect_and_warp_board (norm2 : ℚ × ℚ → ℚ) (frame : Option FrameInput)
    (use_markers : Bool) : Option Warped × Bool :=
  match frame with
  | none => (none, false)
  | some fr =>
    if use_markers then _detect_with_markers norm2 fr
    else _detect_without_markers norm2 fr

/-- `detect_and_warp_board_debug`: requires markers; fails (returns
`success = false` and no image) when the frame is unreadable, when
`use_markers` is off, or when the four markers are not decoded. -/
def detect_and_warp_board_debug (frame : Option FrameInput)
    (use_markers : Bool) : Bool × Option Warped :=
  match frame with
  | none => (false, none)
  | some fr =>
    if !use_markers then (false, none)
    else
      match fr.markers with
      | none => (false, none)
      | some q => (true, some (Warped.fromMarkers q))

end BoardDetect

/-! Embedding of src/otbreview/pipeline/extract.py
(`extract_stable_frames`).  Frames are abstract; `meanAbs` models
`np.mean(cv2.absdiff(gray, prev))`. -/

namespace Extract

/-- The loop of `extract_stable_frames`: grayscale frames are compared to
their predecessor; motion below the threshold grows the stable counter,
and when it reaches `stable_frame_count` the CURRENT frame is saved and
the counter resets.  Saved frames are returned with their frame index. -/
def extractAux {Img : Type} (meanAbs : Img → Img → ℚ) (τ : ℚ) (n : Nat) :
    List Img → Img → Nat → Nat → List (Nat × Img) → List (Nat × Img)
  | [], _, _, _, acc => acc
  | f :: rest, prev, counter, idx, acc =>
    let motion := meanAbs f prev / 255
    if motion < τ then
      let counter2 := counter + 1
      if counter2 ≥ n then
        extractAux meanAbs τ n rest f 0 (idx + 1) (acc ++ [(idx, f)])
      else
        extractAux meanAbs τ n rest f counter2 (idx + 1) acc
    else
      extractAux meanAbs τ n rest f 0 (idx + 1) acc

/-- `extract_stable_frames`: `stable_frame_count = int(fps·duration)`;
when no stable frame is found the first frame is saved as a degenerate
result. -/
def extract_stable_frames {Img : Type} (meanAbs : Img → Img → ℚ)
    (frames : List Img) (fps motion_threshold stable_duration : ℚ) :
    List (Nat × Img) :=
  let n := (PyNum.qtrunc (fps * stable_duration)).toNat
  match frames with
  | [] => []
  | f0 :: rest =>
    let res := extractAux meanAbs motion_threshold n rest f0 0 1 []
    if res.isEmpty then [(0, f0)] else res

/-- The middle-of-window frame index formula of the debug sampler
(`extract_stable_frames_debug`, src/otbreview/pipeline/extract.py line
204): `stable_start_idx + (stable_counter // 2) * skip_frames`. -/
def midIdxFormula (stableStart counter skip : Nat) : Nat :=
  stableStart + (counter / 2) * skip

/-- Frame `i` is the final frame of a window of `n` consecutive sampled
frames whose motion energy stays below `τ`, and `img` is that frame. -/
def stableWindowEnd {Img : Type} (d : Img) (meanAbs : Img → Img → ℚ)
    (τ : ℚ) (n : Nat) (frames : List Img) (i : Nat) (img : Img) : Prop :=
  i < frames.length ∧ n ≤ i ∧ img = frames.getD i d ∧
  ∀ k, k < n → meanAbs (frames.getD (i - k) d) (frames.getD (i - k - 1) d) / 255 < τ

end Extract

/-! Embedding of src/otbreview/pipeline/pgn.py. -/

namespace Pgn

/-- python-chess `Board.has_insufficient_material` for one colour. -/
def hasInsufficientMaterial (b : Chess.Board) (c : Chess.Color) : Bool :=
  let pieceList := b.pieces.filterMap (fun opc => opc)
  let own := pieceList.filter (fun pc => pc.color = c)
  let anyOwn := fun t => own.any (fun pc => pc.ptype = t)
  if anyOwn Chess.PieceType.pawn ∨ anyOwn Chess.PieceType.rook ∨
      anyOwn Chess.PieceType.queen then false
  else if anyOwn Chess.PieceType.knight then
    own.length ≤ 2 &&
    !((pieceList.filter (fun pc => pc.color = Chess.Color.other c)).any
      (fun pc => pc.ptype ≠ Chess.PieceType.king ∧ pc.ptype ≠ Chess.PieceType.queen))
  else if anyOwn Chess.PieceType.bishop then
    let bishopSquares := (List.range 64).filter (fun sq =>
      match Chess.pieceAtP b.pieces sq with
      | some pc => pc.ptype = Chess.PieceType.bishop
      | none => false)
    let sameColor :=
      (bishopSquares.all (fun sq => (Chess.fileOf sq + Chess.rankOf sq) % 2 = 0)) ∨
      (bishopSquares.all (fun sq => (Chess.fileOf sq + Chess.rankOf sq) % 2 = 1))
    sameColor &&
    !(pieceList.any (fun pc => pc.ptype = Chess.PieceType.pawn)) &&
    !(pieceList.any (fun pc => pc.ptype = Chess.PieceType.rook)) &&
    !(pieceList.any (fun pc => pc.ptype = Chess.PieceType.queen))
  else true

def isInsufficientMaterial (b : Chess.Board) : Bool :=
  hasInsufficientMaterial b Chess.Color.white &&
  hasInsufficientMaterial b Chess.Color.black

/-- python-chess `Board.is_seventy_five_moves`. -/
def isSeventyFiveMoves (b : Chess.Board) : Bool :=
  b.halfmove ≥ 150 && !((Chess.legalMoves b).isEmpty)

/-- The game object built by `generate_pgn`: its mainline moves and the
Result header (the other headers are constants or timestamps). -/
structure PgnGame where
  mainline : List Chess.Move
  result : String
deriving DecidableEq, Repr

def pgnAux : List String → Chess.Board → List Chess.Move →
    Chess.Board × List Chess.Move
  | [], b, acc => (b, acc)
  | s :: rest, b, acc =>
    if s = "??" then pgnAux rest b acc
    else
      match Chess.parseSan b s with
      | none => pgnAux rest b acc
      | some m => pgnAux rest (Chess.push b m) (acc ++ [m])

/-- `generate_pgn`: skip "??" placeholders and unparseable SANs, chain the
rest into the mainline, and set the Result header from the final
position. -/
def generate_pgn (moves : List String) : PgnGame :=
  let r := pgnAux moves Chess.startBoard []
  let b := r.fst
  { mainline := r.snd
    result :=
      if b.isCheckmate then
        (if b.turn = Chess.Color.white then "0-1" else "1-0")
      else if b.isStalemate ∨ isInsufficientMaterial b ∨ isSeventyFiveMoves b then
        "1/2-1/2"
      else "*" }

def mainlineSansAux : Chess.Board → List Chess.Move → List String
  | _, [] => []
  | b, m :: rest =>
    ((Chess.sanOf b m).getD "") :: mainlineSansAux (Chess.push b m) rest

/-- Parsing the produced PGN back into its mainline SAN sequence: the PGN
movetext prints `board.san(move)` for each mainline node starting from the
standard position, and a reader replays the same nodes, so the round trip
is the SAN rendering of the game's mainline. -/
def mainlineSans (ms : List Chess.Move) : List String :=
  mainlineSansAux Chess.startBoard ms

/-- A SAN list is canonical when each entry parses in sequence and is the
SAN the position prints for the parsed move. -/
def canonicalSanAux : Chess.Board → List String → Bool
  | _, [] => true
  | b, s :: rest =>
    match Chess.parseSan b s with
    | none => false
    | some m => Chess.sanOf b m = some s && canonicalSanAux (Chess.push b m) rest

def isCanonicalSanList (moves : List String) : Bool :=
  canonicalSanAux Chess.startBoard moves

/-- One entry of moves.json: the SAN, the UCI (as its move record) and the
FEN after the move (as its normalized board record). -/
structure TraceEntry where
  san : String
  uci : Chess.Move
  fen : Chess.Board
deriving DecidableEq, Repr

/-- The parsing step of `generate_moves_json`: `board.parse_san`, falling
back on `chess.Move.from_uci` checked against the legal moves (all
ValueError paths yield `none`). -/
def parseOrUci (b : Chess.Board) (s : String) : Option Chess.Move :=
  match Chess.parseSan b s with
  | some m => some m
  | none =>
    match Chess.moveFromUci s with
    | some m => if (Chess.legalMoves b).contains m then some m else none
    | none => none

def movesJsonAux : List String → Chess.Board → List TraceEntry → List TraceEntry
  | [], _, acc => acc
  | s :: rest, b, acc =>
    if s = "??" then movesJsonAux rest b acc
    else
      match parseOrUci b s with
      | none => movesJsonAux rest b acc
      | some m =>
        let san := (Chess.sanOf b m).getD ""
        let b2 := Chess.push b m
        movesJsonAux rest b2 (acc ++ [⟨san, m, Chess.fenOf b2⟩])

/-- `generate_moves_json`: skip "??" and unparseable entries, record
`{san, uci, fen}` for each successfully parsed move, pushing it onto the
running board. -/
def generate_moves_json (moves : List String) : List TraceEntry :=
  movesJsonAux moves Chess.startBoard []

end Pgn

/-! Concrete inputs used by the witnesses and counterexamples. -/

namespace Inputs

/-- The canonical board of the tag decoder after accepting 1. e4 d5. -/
def boardAfterE4D5 : Chess.Board :=
  Chess.push (Chess.push
    (match TagDecode._init_board_from_map TagDecode.stdPieceMap with
     | some r => r.fst
     | none => Chess.emptyBoard)
    ⟨12, 28, none⟩) ⟨51, 35, none⟩

/-- The decoder state just before the capture step of the C1 run. -/
def stateBeforeCapture : TagDecode.DecodeState :=
  { board := boardAfterE4D5
    prevPositions := TagDecode._grid_to_positions TagDecode.gridAfterD5
    movesSan := ["e4", "d5"]
    uncertainSteps := [] }

def idToPieceStd : List (Int × Chess.Piece) :=
  match TagDecode._init_board_from_map TagDecode.stdPieceMap with
  | some r => r.snd.fst
  | none => []

/-- Occupancy observation of the starting position. -/
def occStart : List (List Int) := Decode._fen_to_occupancy Chess.startBoard

/-- Occupancy observation after 1. e4. -/
def occAfterE4 : List (List Int) :=
  Decode._fen_to_occupancy (Chess.push Chess.startBoard ⟨12, 28, none⟩)

/-- Engine analysis entry for the initial position: engine reports
+100 centipawns with white to move. -/
def analysisEntry0 : Classify.AnalysisEntry :=
  { move_number := 0
    move_san := "initial"
    fen := "fen0"
    eval_cp := (Analyze._extract_eval ⟨none, some 100⟩ Chess.Color.white).cp
    eval_mate := (Analyze._extract_eval ⟨none, some 100⟩ Chess.Color.white).mate }

/-- Engine analysis entry after white's first move: the engine reports
+200 centipawns for the side to move (black), i.e. -200 centipawns from
white's point of view, so white's move lost 300 centipawns. -/
def analysisEntry1 : Classify.AnalysisEntry :=
  { move_number := 1
    move_san := "m1"
    fen := "fen1"
    eval_cp := (Analyze._extract_eval ⟨none, some 200⟩ Chess.Color.black).cp
    eval_mate := (Analyze._extract_eval ⟨none, some 200⟩ Chess.Color.black).mate }

/-- A taxicab stand-in for np.linalg.norm (any concrete norm works for the
control-flow claims it feeds). -/
def taxiNorm : ℚ × ℚ → ℚ := fun v => abs v.fst + abs v.snd

/-- Three raw tag detections: id 5 twice (cells (0,0) and (1,1)) and id 7
in cell (1,1) as well, exercising both conflict-resolution passes. -/
def rawTagInput : List (List TagDetector.RawDetection) :=
  [[⟨5, [(10, 10), (30, 10), (30, 30), (10, 30)]⟩,
    ⟨5, [(110, 110), (140, 110), (140, 140), (110, 140)]⟩,
    ⟨7, [(112, 112), (138, 112), (138, 138), (112, 138)]⟩]]

def dummyDet : TagDetector.TagDetection :=
  { marker_id := 0, row := 0, col := 0, center := (0, 0), area := 0,
    score := 0, decode_margin := 0, border_penalty := 0 }

/-- The best-candidate detection list of the concrete tag input (the
internal `best_detections` of `detect_piece_tags` on it). -/
def bestTagList : List TagDetector.TagDetection :=
  TagDetector.selectBest (Inputs.rawTagInput.map (fun raw =>
    TagDetector._detect_on_candidate Inputs.taxiNorm raw
      ((none : Option (List Int)).getD ((List.range 32).map (fun i => (i : Int) + 1)))
      (((800 : Nat) : ℚ) * ((800 : Nat) : ℚ) * (5 / 10000))
      (((800 : Nat) : ℚ) / 8) 800)) []

/-- The first detection of the best list: the id-5 tag in cell (0,0),
which the id-conflict pass discards in favour of the higher-scoring id-5
tag in cell (1,1). -/
def discardedDet : TagDetector.TagDetection := Inputs.bestTagList.headD dummyDet

/-- A readable frame on which neither the markers nor any 4-vertex
contour is found. -/
def bareFrame : BoardDetect.FrameInput :=
  { height := 100, width := 200, markers := none, contours := [] }

/-- One-pixel grayscale frames: three identical frames after the first,
then a bright frame; `absQ` is `np.mean(cv2.absdiff(a, b))` on them. -/
def flatFrames : List ℚ := [10, 10, 10, 10, 99]

def absQ : ℚ → ℚ → ℚ := fun a b => abs (a - b)

/-- A piece-map JSON object whose second entry lacks the "square" key. -/
def rawMapMissingSquare : List (Int × TagDecode.RawEntry) :=
  [(1, ⟨some "P", some "e2", some "wp"⟩), (2, ⟨some "N", none, none⟩)]

/-- A complete two-entry piece map (violating the 32-entry invariant). -/
def rawMapTwoEntries : List (Int × TagDecode.RawEntry) :=
  [(1, ⟨some "P", some "e2", some "wp"⟩), (2, ⟨some "N", some "g1", none⟩)]

/-- A piece map placing two different pieces on the same square e2. -/
def dupSquareMap : List (Int × TagDecode.MapEntry) :=
  [(1, ⟨"P", "e2", "wp"⟩), (2, ⟨"N", "e2", "wn"⟩)]

/-- Default trace entry used with `List.getD` on concrete move traces. -/
def dummyTrace : Pgn.TraceEntry := ⟨"", ⟨0, 0, none⟩, Chess.emptyBoard⟩

end Inputs

/-!
## Theorems

Each claim of the specification review is settled by exactly one theorem
below (with a witness or counterexample where required); shared helper
lemmas precede them.
-/

/-- C1 (counterexample): in the run 1. e4 d5 2. exd5 observed through tag
grids, the final pair changes exactly two ids, id 20 disappears (it stood
on d5 and is absent afterwards), and the remaining id 5 moved e4 to d5,
which is a legal capture (SAN "exd5") on the canonical board — yet the
decoder publishes "??" for that step and records it as uncertain, instead
of emitting the capture. -/
theorem C1_counterexample :
    (TagDecode.movedIdsOf (TagDecode._grid_to_positions TagDecode.gridAfterD5)
      (TagDecode._grid_to_positions TagDecode.gridAfterExd5)).length = 2 ∧
    PyDict.get (TagDecode._grid_to_positions TagDecode.gridAfterD5) (20 : Int) =
      some 35 ∧
    PyDict.get (TagDecode._grid_to_positions TagDecode.gridAfterExd5) (20 : Int) =
      none ∧
    PyDict.get (TagDecode._grid_to_positions TagDecode.gridAfterD5) (5 : Int) =
      some 28 ∧
    PyDict.get (TagDecode._grid_to_positions TagDecode.gridAfterExd5) (5 : Int) =
      some 35 ∧
    (Chess.legalMoves Inputs.boardAfterE4D5).contains ⟨28, 35, none⟩ = true ∧
    Chess.sanOf Inputs.boardAfterE4D5 ⟨28, 35, none⟩ = some "exd5" ∧
    TagDecode.infer_moves_from_id_grids TagDecode.captureRunGrids
      TagDecode.stdPieceMap = some (["e4", "d5", "??"], [3]) := by
  set_option maxRecDepth 20000 in decide

/-- C2 (code bug): on the photometric observations of the starting
position followed by the position after 1. e4, `decode_moves` selects the
legal move e2e4 but computes `board.san(best_move)` after
`board.push(best_move)`; python-chess raises AssertionError because the
origin square e2 is empty in the pushed position, so the call terminates
with an unhandled exception instead of publishing the SAN of the move in
the position before the push. -/
theorem C2_decode_moves_assertion_error :
    Decode.decode_moves [Inputs.occStart, Inputs.occAfterE4] none =
      Except.error Decode.PyExc.assertionErrorSan ∧
    (Decode._find_best_move Chess.startBoard Inputs.occStart
      Inputs.occAfterE4).map (fun r => r.fst) = some ⟨12, 28, none⟩ ∧
    Chess.sanOf Chess.startBoard ⟨12, 28, none⟩ = some "e4" := by
  with_unfolding_all decide

/-- C3 (code bug): every call of `detect_pieces_two_stage` raises
NameError — its body reads the unbound name `warped` (the parameter is
`warped_board`) at the debug imwrite and at both phase calls — so it never
returns a board_state or None. -/
theorem C3_detect_two_stage_always_name_error (std : List ℚ → ℚ)
    (img : Pieces.ImageStats) (frameIdx : Nat) (debugFlag : Bool) :
    Pieces.detect_pieces_two_stage std img frameIdx debugFlag =
      Except.error Pieces.PyExc.nameErrorWarped := rfl

/-- C4 (code bug): `_extract_eval` stores engine evaluations divided by
100 (pawns), while `classify_moves` compares the stored difference against
the centipawn thresholds.  With the engine reporting +100 cp before and
-200 cp (white point of view) after white's move, the true
mover-perspective centipawn loss is 300 > 200 — the claim requires
"blunder" — but the code computes cp_loss = 3.0 and classifies the move
"good". -/
theorem C4_classification_unit_mismatch :
    Inputs.analysisEntry0.eval_cp = some 1 ∧
    Inputs.analysisEntry1.eval_cp = some (-2) ∧
    ((100 : ℚ) - (-200) = 300 ∧ ¬((300 : ℚ) ≤ 200)) ∧
    (Classify.classify_moves [Inputs.analysisEntry0, Inputs.analysisEntry1]).map
      (fun l => (l.getD 1 ⟨Inputs.analysisEntry1, none, none, none⟩).classification)
      = Except.ok (some "good") ∧
    Classify.classifyLoss 300 = "blunder" ∧ "good" ≠ "blunder" := by
  with_unfolding_all decide

/-- C6 (counterexample): on a readable frame where the markers are not
decoded and no contour approximates to four vertices — neither path yields
a quadrilateral — `detect_and_warp_board` in marker mode still returns a
rectified board: `_detect_with_markers` falls back to the contour path,
which uses the whole frame as the board quadrilateral; no BoardNotFound
failure occurs. -/
theorem C6_counterexample :
    Inputs.bareFrame.markers = none ∧
    BoardDetect.pickBoardContour Inputs.bareFrame.contours 0 none = none ∧
    BoardDetect.detect_and_warp_board Inputs.taxiNorm (some Inputs.bareFrame)
      true =
      (some (BoardDetect.Warped.fromQuad
        [(0, 0), (200, 0), (200, 100), (0, 100)] 200), true) ∧
    BoardDetect.detect_and_warp_board Inputs.taxiNorm (some Inputs.bareFrame)
      true =
      BoardDetect._detect_without_markers Inputs.taxiNorm Inputs.bareFrame := by
  with_unfolding_all decide

/-- C7 (counterexample): with one-pixel frames [10, 10, 10, 10, 99],
target rate 1 and stable duration 3 (required run 3), the frames at
indices 1..3 form the stable window; `extract_stable_frames` saves frame
index 3 — the endpoint of the window — whereas the middle of the window
(the formula of the debug sampler applied to start 1, length 3, skip 1)
is index 2. -/
theorem C7_counterexample :
    Extract.extract_stable_frames Inputs.absQ Inputs.flatFrames 1 (1 / 100) 3 =
      [(3, 10)] ∧
    (PyNum.qtrunc ((1 : ℚ) * 3)).toNat = 3 ∧
    (∀ j, j ∈ [1, 2, 3] →
      Inputs.absQ (Inputs.flatFrames.getD j 0)
        (Inputs.flatFrames.getD (j - 1) 0) / 255 < 1 / 100) ∧
    Extract.midIdxFormula 1 3 1 = 2 ∧ (3 : Nat) ≠ 2 := by
  with_unfolding_all decide

/-- C9 (counterexample): `generate_pgn` skips the "??" placeholder, so the
round trip of the SAN list ["??"] yields the empty mainline, not the input
list. -/
theorem C9_counterexample :
    Pgn.mainlineSans (Pgn.generate_pgn ["??"]).mainline = [] ∧
    ([] : List String) ≠ ["??"] := by
  decide

/-- C6 (amended): the locator returns `(None, None)` only when the frame
cannot be read.  On a readable frame it always produces a rectified board:
the contour path substitutes the full frame when no 4-vertex contour
exists, and in marker mode a failed marker decode falls back to the
contour path rather than failing; only the debug variant reports failure
when the markers are missing. -/
theorem C6_amended (norm2 : ℚ × ℚ → ℚ) (fr : BoardDetect.FrameInput)
    (useMarkers : Bool) :
    (BoardDetect.detect_and_warp_board norm2 (some fr) useMarkers).fst.isSome =
      true ∧
    (useMarkers = true → fr.markers = none →
      BoardDetect.detect_and_warp_board norm2 (some fr) useMarkers =
        BoardDetect._detect_without_markers norm2 fr) ∧
    (fr.markers = none →
      BoardDetect.detect_and_warp_board_debug (some fr) true = (false, none)) ∧
    BoardDetect.detect_and_warp_board norm2 none useMarkers = (none, false) := by
  refine ⟨?_, ?_, ?_, rfl⟩
  · cases useMarkers <;>
      cases hm : fr.markers <;>
        simp [BoardDetect.detect_and_warp_board, BoardDetect._detect_with_markers,
          BoardDetect._detect_without_markers, hm]
  · intro hu hm
    cases useMarkers with
    | false => cases hu
    | true =>
      simp [BoardDetect.detect_and_warp_board, BoardDetect._detect_with_markers, hm]
  · intro hm
    simp [BoardDetect.detect_and_warp_board_debug, hm]

/-- C6 witness: the amended theorem applied to the readable frame with no
markers and no contours. -/
theorem C6_amended_witness :
    (BoardDetect.detect_and_warp_board Inputs.taxiNorm (some Inputs.bareFrame)
      true).fst.isSome = true ∧
    BoardDetect.detect_and_warp_board Inputs.taxiNorm (some Inputs.bareFrame)
      true = BoardDetect._detect_without_markers Inputs.taxiNorm Inputs.bareFrame ∧
    BoardDetect.detect_and_warp_board_debug (some Inputs.bareFrame) true =
      (false, none) :=
  ⟨(C6_amended Inputs.taxiNorm Inputs.bareFrame true).1,
   (C6_amended Inputs.taxiNorm Inputs.bareFrame true).2.1 rfl rfl,
   (C6_amended Inputs.taxiNorm Inputs.bareFrame true).2.2.1 rfl⟩

theorem pgnAux_append :
    ∀ (moves : List String) (b : Chess.Board) (acc : List Chess.Move),
      (Pgn.pgnAux moves b acc).snd = acc ++ (Pgn.pgnAux moves b []).snd := by
  intro moves
  induction moves with
  | nil => intro b acc; simp [Pgn.pgnAux]
  | cons s rest ih =>
    intro b acc
    by_cases hq : s = "??"
    · simp only [Pgn.pgnAux, if_pos hq]
      exact ih b acc
    · cases hp : Chess.parseSan b s with
      | none =>
        simp only [Pgn.pgnAux, if_neg hq, hp]
        exact ih b acc
      | some m =>
        simp only [Pgn.pgnAux, if_neg hq, hp, List.nil_append]
        rw [ih (Chess.push b m) (acc ++ [m]), ih (Chess.push b m) [m]]
        simp

theorem pgnAux_canonical :
    ∀ (moves : List String) (b : Chess.Board),
      Pgn.canonicalSanAux b moves = true →
      Pgn.mainlineSansAux b (Pgn.pgnAux moves b []).snd = moves := by
  intro moves
  induction moves with
  | nil => intro b _; simp [Pgn.pgnAux, Pgn.mainlineSansAux]
  | cons s rest ih =>
    intro b h
    simp only [Pgn.canonicalSanAux] at h
    cases hp : Chess.parseSan b s with
    | none => rw [hp] at h; cases h
    | some m =>
      rw [hp] at h
      have hsan : Chess.sanOf b m = some s := by
        have := (Bool.and_eq_true _ _).mp h
        exact of_decide_eq_true this.1
      have hrest : Pgn.canonicalSanAux (Chess.push b m) rest = true :=
        ((Bool.and_eq_true _ _).mp h).2
      have hq : s ≠ "??" := by
        intro he
        rw [he] at hp
        have hnone : Chess.parseSan b "??" = none := rfl
        rw [hnone] at hp
        cases hp
      simp only [Pgn.pgnAux, if_neg hq, hp, List.nil_append]
      rw [pgnAux_append rest (Chess.push b m) [m]]
      simp only [List.singleton_append, Pgn.mainlineSansAux, hsan, Option.getD_some]
      simpa using ih (Chess.push b m) hrest

/-- C9 (amended): for every SAN list that is canonical — each entry parses
as a legal move in sequence and equals the SAN the position prints for the
parsed move (in particular it contains no "??" placeholder and no invalid
move) — parsing the produced PGN back into its mainline SAN sequence
yields exactly the input list. -/
theorem C9_roundtrip_canonical (moves : List String)
    (h : Pgn.isCanonicalSanList moves = true) :
    Pgn.mainlineSans (Pgn.generate_pgn moves).mainline = moves :=
  pgnAux_canonical moves Chess.startBoard h

/-- C9 witness: the canonical list ["e4", "e5"] round-trips. -/
theorem C9_roundtrip_witness :
    Pgn.isCanonicalSanList ["e4", "e5"] = true ∧
    Pgn.mainlineSans (Pgn.generate_pgn ["e4", "e5"]).mainline = ["e4", "e5"] :=
  ⟨by set_option maxRecDepth 20000 in decide,
   C9_roundtrip_canonical ["e4", "e5"] (by set_option maxRecDepth 20000 in decide)⟩

theorem loadAux_error_iff :
    ∀ (data : List (Int × TagDecode.RawEntry))
      (acc : List (Int × TagDecode.MapEntry)),
      (∃ err, TagDecode.loadAux data acc = Except.error err) ↔
      ∃ kv, kv ∈ data ∧ (kv.snd.symbol = none ∨ kv.snd.square = none) := by
  intro data
  induction data with
  | nil =>
    intro acc
    simp [TagDecode.loadAux]
  | cons kv rest ih =>
    intro acc
    rcases kv with ⟨k, v⟩
    cases hs : v.symbol with
    | none =>
      constructor
      · intro _
        exact ⟨(k, v), List.mem_cons_self _ _, Or.inl hs⟩
      · intro _
        exact ⟨TagDecode.LoadError.pieceIdMapError k,
          by simp [TagDecode.loadAux, hs]⟩
    | some sy =>
      cases hq : v.square with
      | none =>
        constructor
        · intro _
          exact ⟨(k, v), List.mem_cons_self _ _, Or.inr hq⟩
        · intro _
          exact ⟨TagDecode.LoadError.pieceIdMapError k,
            by simp [TagDecode.loadAux, hs, hq]⟩
      | some sq =>
        have hstep : TagDecode.loadAux ((k, v) :: rest) acc =
            TagDecode.loadAux rest
              (PyDict.set acc k ⟨sy, sq, v.name.getD (toString k)⟩) := by
          simp [TagDecode.loadAux, hs, hq]
        rw [hstep, ih]
        constructor
        · rintro ⟨kv2, hmem, hcond⟩
          exact ⟨kv2, List.mem_cons_of_mem _ hmem, hcond⟩
        · rintro ⟨kv2, hmem, hcond⟩
          rcases List.mem_cons.mp hmem with he | ht
          · subst he
            rcases hcond with hc | hc
            · rw [hs] at hc; cases hc
            · rw [hq] at hc; cases hc
          · exact ⟨kv2, ht, hcond⟩

theorem pieceAtP_set (l : List (Option Chess.Piece)) (i j : Nat)
    (v : Option Chess.Piece) :
    Chess.pieceAtP (l.set i v) j =
      if j = i ∧ i < l.length then v else Chess.pieceAtP l j := by
  unfold Chess.pieceAtP
  rw [List.getD_eq_getElem?_getD, List.getD_eq_getElem?_getD, List.getElem?_set]
  by_cases hlen : i < l.length
  · by_cases hij : i = j
    · subst hij; simp [hlen]
    · have hne : ¬(j = i ∧ i < l.length) := fun h => hij h.1.symm
      simp [hij, hne]
  · by_cases hij : i = j
    · subst hij
      rw [List.getElem?_eq_none (by omega)]
      simp [hlen]
    · have hne : ¬(j = i ∧ i < l.length) := fun h => hlen h.2
      simp [hij, hne]

theorem parseSquareChars_lt (cs : List Char) (sq : Nat)
    (h : Chess.parseSquareChars cs = some sq) : sq < 64 := by
  cases cs with
  | nil => simp [Chess.parseSquareChars] at h
  | cons f t =>
    cases t with
    | nil => simp [Chess.parseSquareChars] at h
    | cons r t2 =>
      cases t2 with
      | cons x t3 => simp [Chess.parseSquareChars] at h
      | nil =>
        simp only [Chess.parseSquareChars] at h
        split at h
        · rename_i hcond
          injection h with h2
          rw [← h2]
          unfold Chess.mkSquare
          omega
        · cases h

theorem parseSquare_lt (s : String) (sq : Nat)
    (h : Chess.parseSquare s = some sq) : sq < 64 :=
  parseSquareChars_lt s.toList sq h

theorem emptyBoard_pieceAt (s : Nat) : Chess.emptyBoard.pieceAt s = none := by
  unfold Chess.Board.pieceAt Chess.emptyBoard Chess.pieceAtP
  rw [List.getD_eq_getElem?_getD, List.getElem?_replicate]
  by_cases h : s < 64 <;> simp [h]

theorem initAux_pieceAt :
    ∀ (pm : List (Int × TagDecode.MapEntry)) (b : Chess.Board)
      (ip : List (Int × Chess.Piece)) (isq : List (Int × Nat))
      (res : Chess.Board × List (Int × Chess.Piece) × List (Int × Nat)),
      b.pieces.length = 64 →
      TagDecode.initAux pm b ip isq = some res →
      ∀ s : Nat, res.fst.pieceAt s =
        TagDecode.lastPlacedFold pm s (b.pieceAt s) := by
  intro pm
  induction pm with
  | nil =>
    intro b ip isq res _ h s
    simp only [TagDecode.initAux, Option.some.injEq] at h
    rw [← h]
    simp [TagDecode.lastPlacedFold]
  | cons e rest ih =>
    intro b ip isq res hlen h s
    rcases e with ⟨pid, info⟩
    cases hpf : TagDecode.pieceFromSymbol info.symbol with
    | none => simp [TagDecode.initAux, hpf] at h
    | some pc =>
      cases hps : Chess.parseSquare info.square with
      | none => simp [TagDecode.initAux, hpf, hps] at h
      | some sq =>
        have hstep : TagDecode.initAux ((pid, info) :: rest) b ip isq =
            TagDecode.initAux rest (TagDecode.setPieceAt b sq pc)
              (PyDict.set ip pid pc) (PyDict.set isq pid sq) := by
          simp [TagDecode.initAux, hpf, hps]
        rw [hstep] at h
        have hlen2 : (TagDecode.setPieceAt b sq pc).pieces.length = 64 := by
          simp [TagDecode.setPieceAt, hlen]
        have hres := ih _ _ _ res hlen2 h s
        rw [hres]
        simp only [TagDecode.lastPlacedFold, List.foldl_cons, hpf, hps]
        have hsq : sq < 64 := parseSquare_lt _ _ hps
        have hat : (TagDecode.setPieceAt b sq pc).pieceAt s =
            if sq = s then some pc else b.pieceAt s := by
          simp only [TagDecode.setPieceAt, Chess.Board.pieceAt]
          rw [pieceAtP_set, hlen]
          by_cases hss : s = sq
          · subst hss; simp [hsq]
          · have hne : ¬(sq = s) := fun hh => hss hh.symm
            simp [hss, hne]
        rw [hat]

/-- C10: `load_piece_id_map` raises `PieceIdMapError` exactly when some
entry of the JSON object lacks a "symbol" or "square" key, with no other
validation of the PieceMap invariant — maps of any size load, and
`_init_board_from_map` leaves on each square the piece of the LAST map
entry naming that square, silently overwriting earlier pieces on
duplicate squares. -/
theorem C10_load_and_overwrite :
    (∀ data : List (Int × TagDecode.RawEntry),
      (∃ err, TagDecode.load_piece_id_map data = Except.error err) ↔
      ∃ kv, kv ∈ data ∧ (kv.snd.symbol = none ∨ kv.snd.square = none)) ∧
    (∀ (pieceMap : List (Int × TagDecode.MapEntry))
      (res : Chess.Board × List (Int × Chess.Piece) × List (Int × Nat)),
      TagDecode._init_board_from_map pieceMap = some res →
      ∀ s : Nat, res.fst.pieceAt s =
        TagDecode.lastPlacedFold pieceMap s none) := by
  constructor
  · intro data
    exact loadAux_error_iff data []
  · intro pm res h s
    unfold TagDecode._init_board_from_map at h
    cases hi : TagDecode.initAux pm Chess.emptyBoard [] [] with
    | none => rw [hi] at h; cases h
    | some r =>
      rw [hi] at h
      simp only [Option.map_some'] at h
      have hr := initAux_pieceAt pm Chess.emptyBoard [] [] r
        (by simp [Chess.emptyBoard]) hi s
      rw [emptyBoard_pieceAt] at hr
      rw [← Option.some.inj h]
      exact hr

/-- C10 witness: a map whose second entry lacks "square" raises
PieceIdMapError, and on a map placing a pawn then a knight on e2 the
initialised board holds the knight (the later entry). -/
theorem C10_witness :
    (∃ err, TagDecode.load_piece_id_map Inputs.rawMapMissingSquare =
      Except.error err) ∧
    (TagDecode._init_board_from_map Inputs.dupSquareMap).map
      (fun r => r.fst.pieceAt 12) =
      some (TagDecode.lastPlacedFold Inputs.dupSquareMap 12 none) ∧
    TagDecode.lastPlacedFold Inputs.dupSquareMap 12 none =
      some ⟨Chess.Color.white, Chess.PieceType.knight⟩ := by
  refine ⟨(C10_load_and_overwrite.1 Inputs.rawMapMissingSquare).mpr
    ⟨(2, ⟨some "N", none, none⟩), by decide, Or.inr rfl⟩, ?_, by decide⟩
  cases hi : TagDecode._init_board_from_map Inputs.dupSquareMap with
  | none =>
    have : (TagDecode._init_board_from_map Inputs.dupSquareMap).isSome = true := by
      decide
    rw [hi] at this
    cases this
  | some r =>
    simp only [Option.map_some', Option.some.injEq]
    exact C10_load_and_overwrite.2 Inputs.dupSquareMap r hi 12

theorem getLast?_mem_of_eq {α : Type} {l : List α} {a : α}
    (h : l.getLast? = some a) : a ∈ l := by
  rcases List.mem_getLast?_eq_getLast (Option.mem_def.mpr h) with ⟨hne, heq⟩
  rw [heq]
  exact List.getLast_mem hne

theorem detectCastling_none_of_vanished (movedIds : List Int)
    (prevPositions currPositions : List (Int × Nat))
    (idToPiece : List (Int × Chess.Piece)) (pid : Int)
    (hmem : pid ∈ movedIds) (hlen : movedIds.length = 2)
    (hcurr : PyDict.get currPositions pid = none) :
    TagDecode._detect_castling movedIds prevPositions currPositions idToPiece =
      none := by
  unfold TagDecode._detect_castling
  rw [if_neg (by omega : ¬movedIds.length ≠ 2)]
  cases hk : (movedIds.filter (fun pid2 =>
      match PyDict.get idToPiece pid2 with
      | some pc => pc.ptype = Chess.PieceType.king
      | none => false)).getLast? with
  | none => simp [hk]
  | some kid =>
    cases hr : (movedIds.filter (fun pid2 =>
        match PyDict.get idToPiece pid2 with
        | some pc => pc.ptype = Chess.PieceType.rook
        | none => false)).getLast? with
    | none => simp [hk, hr]
    | some rid =>
      have hkmem : kid ∈ movedIds :=
        List.mem_of_mem_filter (getLast?_mem_of_eq hk)
      have hrmem : rid ∈ movedIds :=
        List.mem_of_mem_filter (getLast?_mem_of_eq hr)
      have hkf := List.of_mem_filter (getLast?_mem_of_eq hk)
      have hrf := List.of_mem_filter (getLast?_mem_of_eq hr)
      have hne : kid ≠ rid := by
        intro he
        subst he
        cases hg : PyDict.get idToPiece kid with
        | none => rw [hg] at hkf; cases hkf
        | some pc =>
          rw [hg] at hkf hrf
          have h1 : pc.ptype = Chess.PieceType.king := by
            simpa using hkf
          have h2 : pc.ptype = Chess.PieceType.rook := by
            simpa using hrf
          rw [h1] at h2
          cases h2
      have hpid : pid = kid ∨ pid = rid := by
        rcases List.length_eq_two.mp hlen with ⟨a, b, hab⟩
        subst hab
        simp only [List.mem_cons, List.mem_singleton, List.not_mem_nil,
          or_false] at hmem hkmem hrmem
        omega
      simp only [hk, hr]
      rcases hpid with rfl | rfl
      · cases hpk : PyDict.get prevPositions pid with
        | none => simp [hpk]
        | some kf => simp [hpk, hcurr]
      · cases hpk : PyDict.get prevPositions kid with
        | none => simp [hpk]
        | some kf =>
          cases hck : PyDict.get currPositions kid with
          | none => simp [hpk, hck]
          | some kt =>
            cases hpr : PyDict.get prevPositions pid with
            | none => simp [hpk, hck, hpr]
            | some rf => simp [hpk, hck, hpr, hcurr]

/-- C1 (amended): for every pair of successive tag-id grids, in any
decoder state, in which exactly two ids changed position and one of them
disappeared (present before, absent now), the decoder marks the step
uncertain: it publishes "??", records the step index and leaves the
canonical board unchanged — captures are never emitted. -/
theorem C1_capture_step_marked_uncertain
    (idToPiece : List (Int × Chess.Piece)) (st : TagDecode.DecodeState)
    (idx : Nat) (grid : List (List Int)) (pid : Int)
    (hlen : (TagDecode.movedIdsOf st.prevPositions
      (TagDecode._grid_to_positions grid)).length = 2)
    (hmem : pid ∈ TagDecode.movedIdsOf st.prevPositions
      (TagDecode._grid_to_positions grid))
    (hprev : (PyDict.get st.prevPositions pid).isSome = true)
    (hcurr : PyDict.get (TagDecode._grid_to_positions grid) pid = none) :
    TagDecode.stepFn idToPiece st idx grid =
      { board := st.board
        prevPositions := TagDecode._grid_to_positions grid
        movesSan := st.movesSan ++ ["??"]
        uncertainSteps := st.uncertainSteps ++ [idx] } := by
  simp only [TagDecode.stepFn]
  rw [detectCastling_none_of_vanished _ st.prevPositions _ idToPiece pid hmem
    hlen hcurr]
  simp [hlen]

/-- C1 witness: the amended theorem applied to the concrete capture step
of the 1. e4 d5 2. exd5 run. -/
theorem C1_capture_step_witness :
    TagDecode.stepFn Inputs.idToPieceStd Inputs.stateBeforeCapture 3
      TagDecode.gridAfterExd5 =
      { board := Inputs.stateBeforeCapture.board
        prevPositions := TagDecode._grid_to_positions TagDecode.gridAfterExd5
        movesSan := ["e4", "d5", "??"]
        uncertainSteps := [3] } := by
  have h := C1_capture_step_marked_uncertain Inputs.idToPieceStd
    Inputs.stateBeforeCapture 3 TagDecode.gridAfterExd5 20
    (by decide) (by decide) (by decide) (by decide)
  simpa using h

theorem extractAux_sound {Img : Type} (d : Img) (meanAbs : Img → Img → ℚ)
    (τ : ℚ) (n : Nat) (frames : List Img) :
    ∀ (rest : List Img) (idx : Nat) (prev : Img) (counter : Nat)
      (acc : List (Nat × Img)),
      1 ≤ idx →
      rest = frames.drop idx →
      prev = frames.getD (idx - 1) d →
      counter + 1 ≤ idx →
      (∀ k, k < counter →
        meanAbs (frames.getD (idx - 1 - k) d)
          (frames.getD (idx - 1 - k - 1) d) / 255 < τ) →
      (∀ i img, (i, img) ∈ acc →
        Extract.stableWindowEnd d meanAbs τ n frames i img) →
      ∀ i img,
        (i, img) ∈ Extract.extractAux meanAbs τ n rest prev counter idx acc →
        Extract.stableWindowEnd d meanAbs τ n frames i img := by
  intro rest
  induction rest with
  | nil =>
    intro idx prev counter acc _ _ _ _ _ hacc i img hmem
    simp only [Extract.extractAux] at hmem
    exact hacc i img hmem
  | cons f rest2 ih =>
    intro idx prev counter acc hidx hdrop hprev hcnt hrun hacc i img hmem
    have hdrop2 : frames.drop idx = f :: rest2 := hdrop.symm
    have hidxlt : idx < frames.length := by
      by_contra hge
      push_neg at hge
      rw [List.drop_eq_nil_of_le hge] at hdrop2
      cases hdrop2
    have hgt : frames[idx]? = some f := by
      have h0 : (frames.drop idx)[0]? = some f := by rw [hdrop2]; simp
      rw [List.getElem?_drop] at h0
      simpa using h0
    have hf : frames.getD idx d = f := by
      rw [List.getD_eq_getElem?_getD, hgt]
      rfl
    have hrest2 : rest2 = frames.drop (idx + 1) := by
      have h1 : (frames.drop idx).drop 1 = frames.drop (idx + 1) := by
        rw [List.drop_drop]
      rw [hdrop2] at h1
      simpa using h1
    simp only [Extract.extractAux] at hmem
    by_cases hm : meanAbs f prev / 255 < τ
    · rw [if_pos hm] at hmem
      by_cases hn : counter + 1 ≥ n
      · rw [if_pos hn] at hmem
        refine ih (idx + 1) f 0 (acc ++ [(idx, f)]) (by omega) hrest2
          (by simpa using hf.symm) (by omega)
          (fun k hk => absurd hk (by omega)) ?_ i img hmem
        intro i2 img2 hmem2
        rcases List.mem_append.mp hmem2 with h1 | h2
        · exact hacc _ _ h1
        · have hpair : i2 = idx ∧ img2 = f := by
            simpa [Prod.ext_iff] using h2
          rw [hpair.1, hpair.2]
          refine ⟨hidxlt, by omega, hf.symm, ?_⟩
          intro k hk
          rcases Nat.eq_zero_or_pos k with rfl | hkpos
          · have e1 : idx - 0 = idx := by omega
            rw [e1, hf, ← hprev]
            exact hm
          · have hw := hrun (k - 1) (by omega)
            have e2 : idx - 1 - (k - 1) - 1 = idx - k - 1 := by omega
            have e1 : idx - 1 - (k - 1) = idx - k := by omega
            rw [e2] at hw
            rw [e1] at hw
            exact hw
      · rw [if_neg hn] at hmem
        refine ih (idx + 1) f (counter + 1) acc (by omega) hrest2
          (by simpa using hf.symm) (by omega) ?_ hacc i img hmem
        intro k hk
        rcases Nat.eq_zero_or_pos k with rfl | hkpos
        · have e2 : idx + 1 - 1 - 0 - 1 = idx - 1 := by omega
          have e1 : idx + 1 - 1 - 0 = idx := by omega
          rw [e2, e1, hf, ← hprev]
          exact hm
        · have hw := hrun (k - 1) (by omega)
          have e2 : idx + 1 - 1 - k - 1 = idx - 1 - (k - 1) - 1 := by omega
          have e1 : idx + 1 - 1 - k = idx - 1 - (k - 1) := by omega
          rw [e2, e1]
          exact hw
    · rw [if_neg hm] at hmem
      exact ih (idx + 1) f 0 acc (by omega) hrest2 (by simpa using hf.symm)
        (by omega) (fun k hk => absurd hk (by omega)) hacc i img hmem

/-- C7 (amended): every capture emitted by `extract_stable_frames` is
either the degenerate first-frame fallback or the LAST frame of a window
of `int(fps·stable_duration)` consecutive sampled frames whose motion
energy stays below the threshold — the endpoint of the stable window, not
its middle. -/
theorem C7_window_end_selected {Img : Type} (d : Img)
    (meanAbs : Img → Img → ℚ) (frames : List Img)
    (fps motion_threshold stable_duration : ℚ) (i : Nat) (img : Img)
    (hmem : (i, img) ∈ Extract.extract_stable_frames meanAbs frames fps
      motion_threshold stable_duration) :
    (i = 0 ∧ frames.getD 0 d = img ∧ 0 < frames.length) ∨
    Extract.stableWindowEnd d meanAbs motion_threshold
      ((PyNum.qtrunc (fps * stable_duration)).toNat) frames i img := by
  cases frames with
  | nil => simp [Extract.extract_stable_frames] at hmem
  | cons f0 rest =>
    simp only [Extract.extract_stable_frames] at hmem
    by_cases hres : (Extract.extractAux meanAbs motion_threshold
        ((PyNum.qtrunc (fps * stable_duration)).toNat) rest f0 0 1 []).isEmpty
    · rw [if_pos hres] at hmem
      have hpair : i = 0 ∧ img = f0 := by
        simpa [Prod.ext_iff] using hmem
      refine Or.inl ⟨hpair.1, ?_, by simp⟩
      rw [hpair.2]
      rfl
    · rw [if_neg hres] at hmem
      right
      exact extractAux_sound d meanAbs motion_threshold _ (f0 :: rest) rest 1
        f0 0 [] (by omega) (by simp) (by rfl) (by omega)
        (fun k hk => absurd hk (by omega))
        (fun _ _ hx => absurd hx (List.not_mem_nil _)) i img hmem

/-- C7 witness: the amended theorem applied to the concrete run of the
counterexample. -/
theorem C7_window_end_witness :
    ((3 : Nat), (10 : ℚ)) ∈ Extract.extract_stable_frames Inputs.absQ
      Inputs.flatFrames 1 (1 / 100) 3 ∧
    ((3 = 0 ∧ Inputs.flatFrames.getD 0 0 = 10 ∧ 0 < Inputs.flatFrames.length) ∨
     Extract.stableWindowEnd (0 : ℚ) Inputs.absQ (1 / 100)
       ((PyNum.qtrunc ((1 : ℚ) * 3)).toNat) Inputs.flatFrames 3 10) :=
  ⟨by with_unfolding_all decide,
   C7_window_end_selected 0 Inputs.absQ Inputs.flatFrames 1 (1 / 100) 3 3 10
     (by with_unfolding_all decide)⟩

/-- `keys` distributes over cons. -/
theorem pydict_keys_cons {α β : Type} (a : α) (b : β) (t : List (α × β)) :
    PyDict.keys ((a, b) :: t) = a :: PyDict.keys t := rfl

/-- `values` distributes over cons. -/
theorem pydict_values_cons {α β : Type} (a : α) (b : β) (t : List (α × β)) :
    PyDict.values ((a, b) :: t) = b :: PyDict.values t := rfl

/-- `get` on a cons dictionary checks the head key first. -/
theorem pydict_get_cons {α β : Type} [DecidableEq α] (a : α) (b : β)
    (t : List (α × β)) (k : α) :
    PyDict.get ((a, b) :: t) k = if a = k then some b else PyDict.get t k := by
  by_cases hak : a = k
  · rw [if_pos hak]
    unfold PyDict.get
    rw [List.find?_cons_of_pos _ (by simp [hak])]
    rfl
  · rw [if_neg hak]
    unfold PyDict.get
    rw [List.find?_cons_of_neg _ (by simp [hak])]

/-- Every entry of `set l k v` is the new pair or one of the old pairs. -/
theorem pydict_mem_set {α β : Type} [DecidableEq α] (l : List (α × β))
    (k : α) (v : β) (kv : α × β) (h : kv ∈ PyDict.set l k v) :
    kv = (k, v) ∨ kv ∈ l := by
  induction l with
  | nil => simpa [PyDict.set] using h
  | cons ab t ih =>
    obtain ⟨a, b⟩ := ab
    by_cases hak : a = k
    · subst hak
      simp only [PyDict.set, if_pos rfl] at h
      rcases List.mem_cons.mp h with he | ht
      · exact Or.inl he
      · exact Or.inr (List.mem_cons_of_mem _ ht)
    · simp only [PyDict.set, if_neg hak] at h
      rcases List.mem_cons.mp h with he | ht
      · exact Or.inr (he ▸ List.mem_cons_self _ _)
      · rcases ih ht with h1 | h2
        · exact Or.inl h1
        · exact Or.inr (List.mem_cons_of_mem _ h2)

/-- A key absent from the dictionary has no entry. -/
theorem pydict_get_none_not_mem {α β : Type} [DecidableEq α]
    (l : List (α × β)) (k : α) (h : PyDict.get l k = none) (v : β) :
    (k, v) ∉ l := by
  intro hmem
  unfold PyDict.get at h
  cases hf : l.find? (fun e => e.fst = k) with
  | some e => rw [hf] at h; cases h
  | none =>
    have := List.find?_eq_none.mp hf (k, v) hmem
    simp at this

/-- A successful lookup produces an entry of the dictionary. -/
theorem pydict_get_some_mem {α β : Type} [DecidableEq α]
    (l : List (α × β)) (k : α) (v : β) (h : PyDict.get l k = some v) :
    (k, v) ∈ l := by
  unfold PyDict.get at h
  cases hf : l.find? (fun e => e.fst = k) with
  | none => rw [hf] at h; cases h
  | some e =>
    rw [hf] at h
    have hmem := List.mem_of_find?_eq_some hf
    have hp := List.find?_some hf
    obtain ⟨e1, e2⟩ := e
    simp only [Option.map_some', Option.some.injEq] at h
    simp only [decide_eq_true_eq] at hp
    subst hp
    subst h
    exact hmem

/-- The second component of an entry is a dictionary value. -/
theorem pydict_values_of_mem {α β : Type} (l : List (α × β)) (kv : α × β)
    (h : kv ∈ l) : kv.snd ∈ PyDict.values l :=
  List.mem_map_of_mem _ h

/-- Every value of the dictionary comes from some entry. -/
theorem pydict_mem_of_values {α β : Type} (l : List (α × β)) (v : β)
    (h : v ∈ PyDict.values l) : ∃ k, (k, v) ∈ l := by
  rcases List.mem_map.mp h with ⟨kv, hmem, hv⟩
  refine ⟨kv.fst, ?_⟩
  have hkv : (kv.fst, v) = kv := by rw [← hv]
  rwa [hkv]

/-- The assigned value is always a value of the updated dictionary. -/
theorem pydict_self_mem_values_set {α β : Type} [DecidableEq α]
    (l : List (α × β)) (k : α) (v : β) :
    v ∈ PyDict.values (PyDict.set l k v) := by
  induction l with
  | nil => exact List.mem_singleton_self v
  | cons ab t ih =>
    obtain ⟨a, b⟩ := ab
    by_cases hak : a = k
    · have hset : PyDict.set ((a, b) :: t) k v = (a, v) :: t := by
        simp [PyDict.set, hak]
      rw [hset, pydict_values_cons]
      exact List.mem_cons_self _ _
    · have hset : PyDict.set ((a, b) :: t) k v = (a, b) :: PyDict.set t k v := by
        simp [PyDict.set, hak]
      rw [hset, pydict_values_cons]
      exact List.mem_cons_of_mem _ ih

/-- An update only removes (at most) the value previously stored at the
assigned key. -/
theorem pydict_values_set_superset {α β : Type} [DecidableEq α]
    (l : List (α × β)) (k : α) (v x : β) (h : x ∈ PyDict.values l) :
    x ∈ PyDict.values (PyDict.set l k v) ∨ PyDict.get l k = some x := by
  induction l with
  | nil => simp [PyDict.values] at h
  | cons ab t ih =>
    obtain ⟨a, b⟩ := ab
    have h2 : x = b ∨ x ∈ PyDict.values t := by
      rw [pydict_values_cons] at h
      exact List.mem_cons.mp h
    by_cases hak : a = k
    · subst hak
      rcases h2 with hx | hx
      · right
        subst hx
        rw [pydict_get_cons, if_pos rfl]
      · left
        have hset : PyDict.set ((a, b) :: t) a v = (a, v) :: t := by
          simp [PyDict.set]
        rw [hset, pydict_values_cons]
        exact List.mem_cons_of_mem _ hx
    · have hset : PyDict.set ((a, b) :: t) k v = (a, b) :: PyDict.set t k v := by
        simp [PyDict.set, hak]
      rcases h2 with hx | hx
      · left
        rw [hset, pydict_values_cons]
        exact hx ▸ List.mem_cons_self _ _
      · rcases ih hx with h1 | h1
        · left
          rw [hset, pydict_values_cons]
          exact List.mem_cons_of_mem _ h1
        · right
          rw [pydict_get_cons, if_neg hak]
          exact h1

/-- Assigning an absent key appends it to the key list. -/
theorem pydict_keys_set_none {α β : Type} [DecidableEq α]
    (l : List (α × β)) (k : α) (v : β) (h : PyDict.get l k = none) :
    PyDict.keys (PyDict.set l k v) = PyDict.keys l ++ [k] := by
  induction l with
  | nil => rfl
  | cons ab t ih =>
    obtain ⟨a, b⟩ := ab
    rw [pydict_get_cons] at h
    by_cases hak : a = k
    · rw [if_pos hak] at h; cases h
    · rw [if_neg hak] at h
      have hset : PyDict.set ((a, b) :: t) k v = (a, b) :: PyDict.set t k v := by
        simp [PyDict.set, hak]
      rw [hset, pydict_keys_cons, pydict_keys_cons, ih h, List.cons_append]

/-- Assigning a present key leaves the key list unchanged. -/
theorem pydict_keys_set_some {α β : Type} [DecidableEq α]
    (l : List (α × β)) (k : α) (v : β) (h : (PyDict.get l k).isSome) :
    PyDict.keys (PyDict.set l k v) = PyDict.keys l := by
  induction l with
  | nil => simp [PyDict.get, List.find?] at h
  | cons ab t ih =>
    obtain ⟨a, b⟩ := ab
    rw [pydict_get_cons] at h
    by_cases hak : a = k
    · have hset : PyDict.set ((a, b) :: t) k v = (a, v) :: t := by
        simp [PyDict.set, hak]
      rw [hset, pydict_keys_cons, pydict_keys_cons]
    · rw [if_neg hak] at h
      have hset : PyDict.set ((a, b) :: t) k v = (a, b) :: PyDict.set t k v := by
        simp [PyDict.set, hak]
      rw [hset, pydict_keys_cons, pydict_keys_cons, ih h]

/-- An absent key is not in the key list. -/
theorem pydict_not_mem_keys {α β : Type} [DecidableEq α]
    (l : List (α × β)) (k : α) (h : PyDict.get l k = none) :
    k ∉ PyDict.keys l := by
  intro hk
  rcases List.mem_map.mp hk with ⟨kv, hmem, hfst⟩
  exact pydict_get_none_not_mem l k h kv.snd
    (by rwa [show (k, kv.snd) = kv from by rw [← hfst]])

/-- Update preserves distinctness of the key list. -/
theorem pydict_keys_nodup_set {α β : Type} [DecidableEq α]
    (l : List (α × β)) (k : α) (v : β) (h : (PyDict.keys l).Nodup) :
    (PyDict.keys (PyDict.set l k v)).Nodup := by
  cases hg : PyDict.get l k with
  | none =>
    rw [pydict_keys_set_none l k v hg]
    refine List.Nodup.append h (List.nodup_singleton k) ?_
    intro x hx hxk
    rw [List.mem_singleton] at hxk
    subst hxk
    exact pydict_not_mem_keys l x hg hx
  | some b =>
    rw [pydict_keys_set_some l k v (by rw [hg]; rfl)]
    exact h

/-- Under distinct keys a key determines its value. -/
theorem pydict_value_unique {α β : Type} [DecidableEq α]
    (l : List (α × β)) (h : (PyDict.keys l).Nodup) (k : α) (v1 v2 : β)
    (h1 : (k, v1) ∈ l) (h2 : (k, v2) ∈ l) : v1 = v2 := by
  induction l with
  | nil => cases h1
  | cons ab t ih =>
    obtain ⟨a, b⟩ := ab
    rw [pydict_keys_cons] at h
    rcases List.mem_cons.mp h1 with he1 | ht1 <;>
      rcases List.mem_cons.mp h2 with he2 | ht2
    · injection he1 with hk1 hv1
      injection he2 with hk2 hv2
      rw [hv1, hv2]
    · exfalso
      injection he1 with hk1 hv1
      have hkt : k ∈ PyDict.keys t := List.mem_map_of_mem _ ht2
      rw [hk1] at hkt
      exact (List.nodup_cons.mp h).1 hkt
    · exfalso
      injection he2 with hk2 hv2
      have hkt : k ∈ PyDict.keys t := List.mem_map_of_mem _ ht1
      rw [hk2] at hkt
      exact (List.nodup_cons.mp h).1 hkt
    · exact ih (List.nodup_cons.mp h).2 ht1 ht2

/-- `List.set` seen through `getD`. -/
theorem listGetD_set {α : Type} (l : List α) (i j : Nat) (v d : α) :
    (l.set i v).getD j d = if j = i ∧ i < l.length then v else l.getD j d := by
  rw [List.getD_eq_getElem?_getD, List.getD_eq_getElem?_getD, List.getElem?_set]
  by_cases hlen : i < l.length
  · by_cases hij : i = j
    · subst hij; simp [hlen]
    · have hne : ¬(j = i ∧ i < l.length) := fun h => hij h.1.symm
      simp [hij, hne]
  · by_cases hij : i = j
    · subst hij
      rw [List.getElem?_eq_none (by omega)]
      simp [hlen]
    · have hne : ¬(j = i ∧ i < l.length) := fun h => hlen h.2
      simp [hij, hne]

theorem setCell_length (g : List (List Int)) (row col : Nat) (v : Int) :
    (TagDetector.setCell g row col v).length = g.length := by
  simp [TagDetector.setCell]

theorem setCell_row_length (g : List (List Int)) (row col r : Nat) (v : Int) :
    ((TagDetector.setCell g row col v).getD r []).length = (g.getD r []).length := by
  unfold TagDetector.setCell
  rw [listGetD_set]
  by_cases h : r = row ∧ row < g.length
  · rw [if_pos h, h.1]
    simp
  · rw [if_neg h]

/-- The value of a cell after `setCell`, for an in-shape target cell. -/
theorem setCell_get (g : List (List Int)) (row col r c : Nat) (v : Int)
    (hrow : row < g.length) (hcol : col < (g.getD row []).length) :
    ((TagDetector.setCell g row col v).getD r []).getD c 0 =
      if r = row ∧ c = col then v else (g.getD r []).getD c 0 := by
  unfold TagDetector.setCell
  rw [listGetD_set]
  by_cases hr : r = row
  · rw [if_pos ⟨hr, hrow⟩, listGetD_set]
    by_cases hc : c = col
    · rw [if_pos ⟨hc, hcol⟩, if_pos ⟨hr, hc⟩]
    · have hne : ¬(r = row ∧ c = col) := fun hh => hc hh.2
      rw [if_neg (fun hh => hc hh.1), if_neg hne, hr]
  · have h1 : ¬(r = row ∧ row < g.length) := fun hh => hr hh.1
    have h2 : ¬(r = row ∧ c = col) := fun hh => hr hh.1
    rw [if_neg h1, if_neg h2]

theorem emptyGrid_eq : TagDetector.emptyGrid =
    List.replicate 8 (List.replicate 8 (0 : Int)) := by decide

theorem emptyGrid_zero (r c : Nat) :
    (TagDetector.emptyGrid.getD r []).getD c 0 = 0 := by
  have hrow : TagDetector.emptyGrid.getD r [] = List.replicate 8 (0 : Int) ∨
      TagDetector.emptyGrid.getD r [] = [] := by
    rw [emptyGrid_eq, List.getD_eq_getElem?_getD _ r [], List.getElem?_replicate]
    rcases lt_or_ge r 8 with hr | hr
    · left; rw [if_pos hr]; rfl
    · right; rw [if_neg (by omega)]; rfl
  rcases hrow with h | h <;> rw [h]
  · rw [List.getD_eq_getElem?_getD _ c 0, List.getElem?_replicate]
    rcases lt_or_ge c 8 with hc | hc
    · rw [if_pos hc]; rfl
    · rw [if_neg (by omega)]; rfl
  · rfl

theorem emptyGrid_length : TagDetector.emptyGrid.length = 8 := by decide

theorem emptyGrid_row_length (r : Nat) (h : r < 8) :
    (TagDetector.emptyGrid.getD r []).length = 8 := by
  rw [emptyGrid_eq, List.getD_eq_getElem?_getD, List.getElem?_replicate, if_pos h]
  simp

/-- Folding `setCell` over detections: a cell either keeps the base value
or holds the id of one of the detections aimed at it. -/
theorem fillFold_get (dets : List TagDetector.TagDetection) :
    ∀ g : List (List Int), g.length = 8 →
      (∀ r2, r2 < 8 → (g.getD r2 []).length = 8) →
      (∀ d ∈ dets, d.row < 8 ∧ d.col < 8) →
      ∀ r c,
        ((dets.foldl (fun g2 det =>
            TagDetector.setCell g2 det.row det.col det.marker_id) g).getD r []).getD c 0
          = (g.getD r []).getD c 0 ∨
        ∃ d ∈ dets, d.row = r ∧ d.col = c ∧
          ((dets.foldl (fun g2 det =>
            TagDetector.setCell g2 det.row det.col det.marker_id) g).getD r []).getD c 0
            = d.marker_id := by
  induction dets with
  | nil =>
    intro g _ _ _ r c
    left; rfl
  | cons det rest ih =>
    intro g hlen hrows hb r c
    simp only [List.foldl_cons]
    have hbd := hb det (List.mem_cons_self _ _)
    have hlen2 : (TagDetector.setCell g det.row det.col det.marker_id).length = 8 := by
      rw [setCell_length, hlen]
    have hrows2 : ∀ r2, r2 < 8 →
        ((TagDetector.setCell g det.row det.col det.marker_id).getD r2 []).length = 8 := by
      intro r2 hr2
      rw [setCell_row_length]
      exact hrows r2 hr2
    have hvals := setCell_get g det.row det.col r c det.marker_id
      (by omega) (by rw [hrows det.row hbd.1]; omega)
    rcases ih (TagDetector.setCell g det.row det.col det.marker_id) hlen2 hrows2
        (fun d hd => hb d (List.mem_cons_of_mem _ hd)) r c with h1 | h1
    · by_cases hrc : r = det.row ∧ c = det.col
      · right
        refine ⟨det, List.mem_cons_self _ _, hrc.1.symm, hrc.2.symm, ?_⟩
        rw [h1, hvals, if_pos hrc]
      · left
        rw [h1, hvals, if_neg hrc]
    · obtain ⟨d, hd, hdr, hdc, hval⟩ := h1
      exact Or.inr ⟨d, List.mem_cons_of_mem _ hd, hdr, hdc, hval⟩

/-- A nonzero cell of `fillGrid` carries the id of a detection aimed at
that cell. -/
theorem fillGrid_get (dets : List TagDetector.TagDetection)
    (hb : ∀ d ∈ dets, d.row < 8 ∧ d.col < 8) (r c : Nat) :
    ((TagDetector.fillGrid dets).getD r []).getD c 0 = 0 ∨
      ∃ d ∈ dets, d.row = r ∧ d.col = c ∧
        ((TagDetector.fillGrid dets).getD r []).getD c 0 = d.marker_id := by
  have h := fillFold_get dets TagDetector.emptyGrid emptyGrid_length
    (fun r2 hr2 => emptyGrid_row_length r2 hr2) hb r c
  unfold TagDetector.fillGrid
  rcases h with h1 | h1
  · left
    rw [h1, emptyGrid_zero]
  · right
    exact h1

theorem clip07_lt (x : ℚ) : TagDetector.clip07 x < 8 := by
  unfold TagDetector.clip07
  have h1 : min 7 (PyNum.qfloor x) ≤ 7 := min_le_left _ _
  have h2 : max 0 (min 7 (PyNum.qfloor x)) ≤ 7 := max_le (by omega) h1
  have h3 : (max 0 (min 7 (PyNum.qfloor x))).toNat ≤ 7 :=
    Int.toNat_le.mpr (by exact_mod_cast h2)
  omega

/-- Every detection produced on a candidate has an allowed id and an
in-range cell. -/
theorem detect_on_candidate_mem (norm2 : ℚ × ℚ → ℚ)
    (raw : List TagDetector.RawDetection) (allowed : List Int)
    (minArea cell : ℚ) (size : Nat) (d : TagDetector.TagDetection)
    (h : d ∈ TagDetector._detect_on_candidate norm2 raw allowed minArea cell size) :
    allowed.contains d.marker_id = true ∧ d.row < 8 ∧ d.col < 8 := by
  unfold TagDetector._detect_on_candidate at h
  rcases List.mem_filterMap.mp h with ⟨rd, hmem, hf⟩
  dsimp only at hf
  split at hf
  · cases hf
  · split at hf
    · cases hf
    · injection hf with hd
      subst hd
      rename_i hcond hcond2
      refine ⟨by simpa using hcond, clip07_lt _, clip07_lt _⟩

/-- The selected best candidate list is the initial accumulator or one of
the candidate lists. -/
theorem selectBest_mem (cands : List (List TagDetector.TagDetection)) :
    ∀ acc, TagDetector.selectBest cands acc = acc ∨
      TagDetector.selectBest cands acc ∈ cands := by
  induction cands with
  | nil => intro acc; left; rfl
  | cons dets rest ih =>
    intro acc
    simp only [TagDetector.selectBest]
    split
    · rcases ih dets with h1 | h1
      · right; rw [h1]; exact List.mem_cons_self _ _
      · right; exact List.mem_cons_of_mem _ h1
    · rcases ih acc with h1 | h1
      · left; exact h1
      · right; exact List.mem_cons_of_mem _ h1

/-- The cell pass only appends to the conflict log. -/
theorem bestByCellFold_log_mono (dets : List TagDetector.TagDetection) :
    ∀ (acc : List ((Nat × Nat) × TagDetector.TagDetection))
      (log : List TagDetector.ConflictEntry) (e : TagDetector.ConflictEntry),
      e ∈ log → e ∈ (TagDetector.bestByCellFold dets acc log).snd := by
  induction dets with
  | nil =>
    intro acc log e he
    simpa [TagDetector.bestByCellFold] using he
  | cons det rest ih =>
    intro acc log e he
    cases hg : PyDict.get acc (det.row, det.col) with
    | none =>
      simp only [TagDetector.bestByCellFold, hg]
      exact ih _ _ e he
    | some prev =>
      simp only [TagDetector.bestByCellFold, hg]
      by_cases hsc : det.score > prev.score
      · rw [if_pos hsc]
        exact ih _ _ e (List.mem_append_left _ he)
      · rw [if_neg hsc]
        exact ih _ _ e (List.mem_append_left _ he)

/-- Every value surviving the cell pass is an input detection or was in
the accumulator. -/
theorem bestByCellFold_values (dets : List TagDetector.TagDetection) :
    ∀ (acc : List ((Nat × Nat) × TagDetector.TagDetection))
      (log : List TagDetector.ConflictEntry) (v : TagDetector.TagDetection),
      v ∈ PyDict.values (TagDetector.bestByCellFold dets acc log).fst →
      v ∈ PyDict.values acc ∨ v ∈ dets := by
  induction dets with
  | nil =>
    intro acc log v hv
    simp only [TagDetector.bestByCellFold] at hv
    exact Or.inl hv
  | cons det rest ih =>
    intro acc log v hv
    cases hg : PyDict.get acc (det.row, det.col) with
    | none =>
      simp only [TagDetector.bestByCellFold, hg] at hv
      rcases ih _ _ v hv with h1 | h1
      · rcases pydict_mem_of_values _ _ h1 with ⟨k2, hk2⟩
        rcases pydict_mem_set _ _ _ _ hk2 with he | hm
        · right
          have hvd : v = det := congrArg Prod.snd he
          rw [hvd]
          exact List.mem_cons_self _ _
        · left; exact pydict_values_of_mem _ _ hm
      · right; exact List.mem_cons_of_mem _ h1
    | some prev =>
      simp only [TagDetector.bestByCellFold, hg] at hv
      by_cases hsc : det.score > prev.score
      · rw [if_pos hsc] at hv
        rcases ih _ _ v hv with h1 | h1
        · rcases pydict_mem_of_values _ _ h1 with ⟨k2, hk2⟩
          rcases pydict_mem_set _ _ _ _ hk2 with he | hm
          · right
            have hvd : v = det := congrArg Prod.snd he
            rw [hvd]
            exact List.mem_cons_self _ _
          · left; exact pydict_values_of_mem _ _ hm
        · right; exact List.mem_cons_of_mem _ h1
      · rw [if_neg hsc] at hv
        rcases ih _ _ v hv with h1 | h1
        · left; exact h1
        · right; exact List.mem_cons_of_mem _ h1

/-- Accounting for the cell pass: every input (or accumulator) detection
either survives into the values or is named in the final conflict log. -/
theorem bestByCellFold_account (dets : List TagDetector.TagDetection) :
    ∀ (acc : List ((Nat × Nat) × TagDetector.TagDetection))
      (log : List TagDetector.ConflictEntry) (d : TagDetector.TagDetection),
      (d ∈ dets ∨ d ∈ PyDict.values acc) →
      d ∈ PyDict.values (TagDetector.bestByCellFold dets acc log).fst ∨
      ∃ e, e ∈ (TagDetector.bestByCellFold dets acc log).snd ∧
        TagDetector.mentionsId e d.marker_id = true := by
  induction dets with
  | nil =>
    intro acc log d hd
    rcases hd with h | h
    · cases h
    · left
      simpa [TagDetector.bestByCellFold] using h
  | cons det rest ih =>
    intro acc log d hd
    cases hg : PyDict.get acc (det.row, det.col) with
    | none =>
      simp only [TagDetector.bestByCellFold, hg]
      refine ih _ _ d ?_
      rcases hd with h | h
      · rcases List.mem_cons.mp h with he | hm
        · right; rw [he]; exact pydict_self_mem_values_set _ _ _
        · left; exact hm
      · rcases pydict_values_set_superset acc (det.row, det.col) det d h with h1 | h1
        · right; exact h1
        · rw [hg] at h1; cases h1
    | some prev =>
      simp only [TagDetector.bestByCellFold, hg]
      by_cases hsc : det.score > prev.score
      · rw [if_pos hsc]
        rcases hd with h | h
        · rcases List.mem_cons.mp h with he | hm
          · refine ih _ _ d (Or.inr ?_)
            rw [he]
            exact pydict_self_mem_values_set _ _ _
          · exact ih _ _ d (Or.inl hm)
        · rcases pydict_values_set_superset acc (det.row, det.col) det d h with h1 | h1
          · exact ih _ _ d (Or.inr h1)
          · rw [hg] at h1
            injection h1 with hdp
            right
            refine ⟨TagDetector.ConflictEntry.cellConflict (det.row, det.col)
              prev.marker_id det.marker_id prev.score det.score, ?_, ?_⟩
            · exact bestByCellFold_log_mono rest _ _ _
                (List.mem_append_right _ (List.mem_singleton_self _))
            · simp [TagDetector.mentionsId, hdp]
      · rw [if_neg hsc]
        rcases hd with h | h
        · rcases List.mem_cons.mp h with he | hm
          · right
            refine ⟨TagDetector.ConflictEntry.cellConflict (det.row, det.col)
              prev.marker_id det.marker_id prev.score det.score, ?_, ?_⟩
            · exact bestByCellFold_log_mono rest _ _ _
                (List.mem_append_right _ (List.mem_singleton_self _))
            · rw [he]
              simp [TagDetector.mentionsId]
          · exact ih _ _ d (Or.inl hm)
        · exact ih _ _ d (Or.inr h)

/-- In the id pass the stored key of every surviving entry is the
detection's marker id. -/
theorem bestByIdFold_key (dets : List TagDetector.TagDetection) :
    ∀ (acc : List (Int × TagDetector.TagDetection))
      (log : List TagDetector.ConflictEntry),
      (∀ kv ∈ acc, kv.fst = kv.snd.marker_id) →
      ∀ kv ∈ (TagDetector.bestByIdFold dets acc log).fst,
        kv.fst = kv.snd.marker_id := by
  induction dets with
  | nil =>
    intro acc log hacc kv hkv
    simp only [TagDetector.bestByIdFold] at hkv
    exact hacc kv hkv
  | cons det rest ih =>
    intro acc log hacc kv hkv
    cases hg : PyDict.get acc det.marker_id with
    | none =>
      simp only [TagDetector.bestByIdFold, hg] at hkv
      refine ih _ _ ?_ kv hkv
      intro kv2 hkv2
      rcases pydict_mem_set _ _ _ _ hkv2 with he | hm
      · rw [he]
      · exact hacc kv2 hm
    | some prev =>
      simp only [TagDetector.bestByIdFold, hg] at hkv
      by_cases hsc : det.score > prev.score
      · rw [if_pos hsc] at hkv
        refine ih _ _ ?_ kv hkv
        intro kv2 hkv2
        rcases pydict_mem_set _ _ _ _ hkv2 with he | hm
        · rw [he]
        · exact hacc kv2 hm
      · rw [if_neg hsc] at hkv
        exact ih _ _ hacc kv hkv

/-- The id pass keeps its keys distinct. -/
theorem bestByIdFold_nodup (dets : List TagDetector.TagDetection) :
    ∀ (acc : List (Int × TagDetector.TagDetection))
      (log : List TagDetector.ConflictEntry),
      (PyDict.keys acc).Nodup →
      (PyDict.keys (TagDetector.bestByIdFold dets acc log).fst).Nodup := by
  induction dets with
  | nil =>
    intro acc log hacc
    simpa [TagDetector.bestByIdFold] using hacc
  | cons det rest ih =>
    intro acc log hacc
    cases hg : PyDict.get acc det.marker_id with
    | none =>
      simp only [TagDetector.bestByIdFold, hg]
      exact ih _ _ (pydict_keys_nodup_set _ _ _ hacc)
    | some prev =>
      simp only [TagDetector.bestByIdFold, hg]
      by_cases hsc : det.score > prev.score
      · rw [if_pos hsc]
        exact ih _ _ (pydict_keys_nodup_set _ _ _ hacc)
      · rw [if_neg hsc]
        exact ih _ _ hacc

/-- The id pass only appends to the conflict log. -/
theorem bestByIdFold_log_mono (dets : List TagDetector.TagDetection) :
    ∀ (acc : List (Int × TagDetector.TagDetection))
      (log : List TagDetector.ConflictEntry) (e : TagDetector.ConflictEntry),
      e ∈ log → e ∈ (TagDetector.bestByIdFold dets acc log).snd := by
  induction dets with
  | nil =>
    intro acc log e he
    simpa [TagDetector.bestByIdFold] using he
  | cons det rest ih =>
    intro acc log e he
    cases hg : PyDict.get acc det.marker_id with
    | none =>
      simp only [TagDetector.bestByIdFold, hg]
      exact ih _ _ e he
    | some prev =>
      simp only [TagDetector.bestByIdFold, hg]
      by_cases hsc : det.score > prev.score
      · rw [if_pos hsc]
        exact ih _ _ e (List.mem_append_left _ he)
      · rw [if_neg hsc]
        exact ih _ _ e (List.mem_append_left _ he)

/-- Every value surviving the id pass is an input detection or was in the
accumulator. -/
theorem bestByIdFold_values (dets : List TagDetector.TagDetection) :
    ∀ (acc : List (Int × TagDetector.TagDetection))
      (log : List TagDetector.ConflictEntry) (v : TagDetector.TagDetection),
      v ∈ PyDict.values (TagDetector.bestByIdFold dets acc log).fst →
      v ∈ PyDict.values acc ∨ v ∈ dets := by
  induction dets with
  | nil =>
    intro acc log v hv
    simp only [TagDetector.bestByIdFold] at hv
    exact Or.inl hv
  | cons det rest ih =>
    intro acc log v hv
    cases hg : PyDict.get acc det.marker_id with
    | none =>
      simp only [TagDetector.bestByIdFold, hg] at hv
      rcases ih _ _ v hv with h1 | h1
      · rcases pydict_mem_of_values _ _ h1 with ⟨k2, hk2⟩
        rcases pydict_mem_set _ _ _ _ hk2 with he | hm
        · right
          have hvd : v = det := congrArg Prod.snd he
          rw [hvd]
          exact List.mem_cons_self _ _
        · left; exact pydict_values_of_mem _ _ hm
      · right; exact List.mem_cons_of_mem _ h1
    | some prev =>
      simp only [TagDetector.bestByIdFold, hg] at hv
      by_cases hsc : det.score > prev.score
      · rw [if_pos hsc] at hv
        rcases ih _ _ v hv with h1 | h1
        · rcases pydict_mem_of_values _ _ h1 with ⟨k2, hk2⟩
          rcases pydict_mem_set _ _ _ _ hk2 with he | hm
          · right
            have hvd : v = det := congrArg Prod.snd he
            rw [hvd]
            exact List.mem_cons_self _ _
          · left; exact pydict_values_of_mem _ _ hm
        · right; exact List.mem_cons_of_mem _ h1
      · rw [if_neg hsc] at hv
        rcases ih _ _ v hv with h1 | h1
        · left; exact h1
        · right; exact List.mem_cons_of_mem _ h1

/-- Accounting for the id pass: under the key invariant, every input (or
accumulator) detection survives or is named in the final conflict log. -/
theorem bestByIdFold_account (dets : List TagDetector.TagDetection) :
    ∀ (acc : List (Int × TagDetector.TagDetection))
      (log : List TagDetector.ConflictEntry) (d : TagDetector.TagDetection),
      (∀ kv ∈ acc, kv.fst = kv.snd.marker_id) →
      (d ∈ dets ∨ d ∈ PyDict.values acc) →
      d ∈ PyDict.values (TagDetector.bestByIdFold dets acc log).fst ∨
      ∃ e, e ∈ (TagDetector.bestByIdFold dets acc log).snd ∧
        TagDetector.mentionsId e d.marker_id = true := by
  induction dets with
  | nil =>
    intro acc log d hkeys hd
    rcases hd with h | h
    · cases h
    · left
      simpa [TagDetector.bestByIdFold] using h
  | cons det rest ih =>
    intro acc log d hkeys hd
    have hkeys2 : ∀ kv ∈ PyDict.set acc det.marker_id det,
        kv.fst = kv.snd.marker_id := by
      intro kv hkv
      rcases pydict_mem_set _ _ _ _ hkv with he | hm
      · rw [he]
      · exact hkeys kv hm
    cases hg : PyDict.get acc det.marker_id with
    | none =>
      simp only [TagDetector.bestByIdFold, hg]
      refine ih _ _ d hkeys2 ?_
      rcases hd with h | h
      · rcases List.mem_cons.mp h with he | hm
        · right; rw [he]; exact pydict_self_mem_values_set _ _ _
        · left; exact hm
      · rcases pydict_values_set_superset acc det.marker_id det d h with h1 | h1
        · right; exact h1
        · rw [hg] at h1; cases h1
    | some prev =>
      have hprevmem : (det.marker_id, prev) ∈ acc := pydict_get_some_mem _ _ _ hg
      have hprevid : det.marker_id = prev.marker_id := hkeys _ hprevmem
      simp only [TagDetector.bestByIdFold, hg]
      by_cases hsc : det.score > prev.score
      · rw [if_pos hsc]
        rcases hd with h | h
        · rcases List.mem_cons.mp h with he | hm
          · refine ih _ _ d hkeys2 (Or.inr ?_)
            rw [he]
            exact pydict_self_mem_values_set _ _ _
          · exact ih _ _ d hkeys2 (Or.inl hm)
        · rcases pydict_values_set_superset acc det.marker_id det d h with h1 | h1
          · exact ih _ _ d hkeys2 (Or.inr h1)
          · rw [hg] at h1
            injection h1 with hdp
            right
            refine ⟨TagDetector.ConflictEntry.idConflict det.marker_id
              (prev.row, prev.col) (det.row, det.col) prev.score det.score, ?_, ?_⟩
            · exact bestByIdFold_log_mono rest _ _ _
                (List.mem_append_right _ (List.mem_singleton_self _))
            · simp [TagDetector.mentionsId, hprevid, hdp]
      · rw [if_neg hsc]
        rcases hd with h | h
        · rcases List.mem_cons.mp h with he | hm
          · right
            refine ⟨TagDetector.ConflictEntry.idConflict det.marker_id
              (prev.row, prev.col) (det.row, det.col) prev.score det.score, ?_, ?_⟩
            · exact bestByIdFold_log_mono rest _ _ _
                (List.mem_append_right _ (List.mem_singleton_self _))
            · rw [he]
              simp [TagDetector.mentionsId]
          · exact ih _ _ d hkeys (Or.inl hm)
        · exact ih _ _ d hkeys (Or.inr h)

/-- C5: every board_ids grid emitted by detect_piece_tags satisfies the
published invariants: a non-zero id occupies at most one cell (equal
non-zero values force equal coordinates), every non-zero id in the grid
lies in the allowed id set (default 1..32), and every best-candidate
detection discarded by conflict resolution is named in the conflict
log. -/
theorem C5_board_ids_invariants (norm2 : ℚ × ℚ → ℚ)
    (candidateRaw : List (List TagDetector.RawDetection))
    (allowed_ids : Option (List Int)) (min_area_ratio : ℚ) (size : Nat)
    (res : TagDetector.TagDetectResult) (best : List TagDetector.TagDetection)
    (hres : res = TagDetector.detect_piece_tags norm2 candidateRaw allowed_ids
      min_area_ratio size)
    (hbest : best = TagDetector.selectBest (candidateRaw.map (fun raw =>
      TagDetector._detect_on_candidate norm2 raw
        (allowed_ids.getD ((List.range 32).map (fun i => (i : Int) + 1)))
        ((size : ℚ) * (size : ℚ) * min_area_ratio) ((size : ℚ) / 8) size)) []) :
    (∀ r c r2 c2, (res.board_ids.getD r []).getD c 0 ≠ 0 →
      (res.board_ids.getD r []).getD c 0 = (res.board_ids.getD r2 []).getD c2 0 →
      r = r2 ∧ c = c2) ∧
    (∀ r c, (res.board_ids.getD r []).getD c 0 ≠ 0 →
      (allowed_ids.getD ((List.range 32).map (fun i => (i : Int) + 1))).contains
        ((res.board_ids.getD r []).getD c 0) = true) ∧
    (∀ d, d ∈ best → d ∉ res.detections →
      ∃ e, e ∈ res.conflict_log ∧ TagDetector.mentionsId e d.marker_id = true) := by
  subst hres hbest
  simp only [TagDetector.detect_piece_tags]
  generalize hC : candidateRaw.map (fun raw =>
    TagDetector._detect_on_candidate norm2 raw
      (allowed_ids.getD ((List.range 32).map (fun i => (i : Int) + 1)))
      ((size : ℚ) * (size : ℚ) * min_area_ratio) ((size : ℚ) / 8) size) = cands
  generalize hB : TagDetector.selectBest cands [] = bestD
  generalize hS1 : TagDetector.bestByCellFold bestD [] [] = step1
  generalize hS2 : TagDetector.bestByIdFold (PyDict.values step1.fst) []
    step1.snd = step2
  have hbmem : ∀ d ∈ bestD,
      (allowed_ids.getD ((List.range 32).map (fun i => (i : Int) + 1))).contains
        d.marker_id = true ∧ d.row < 8 ∧ d.col < 8 := by
    intro d hd
    rcases selectBest_mem cands [] with h1 | h1
    · rw [← hB, h1] at hd
      exact absurd hd (List.not_mem_nil d)
    · rw [hB] at h1
      rw [← hC] at h1
      rcases List.mem_map.mp h1 with ⟨raw, hraw, hEq⟩
      rw [← hEq] at hd
      exact detect_on_candidate_mem norm2 raw _ _ _ size d hd
  have hkey : ∀ kv ∈ step2.fst, kv.fst = kv.snd.marker_id := by
    have h := bestByIdFold_key (PyDict.values step1.fst) [] step1.snd
      (by intro kv hkv; cases hkv)
    rw [hS2] at h
    exact h
  have hnodup : (PyDict.keys step2.fst).Nodup := by
    have h := bestByIdFold_nodup (PyDict.values step1.fst) [] step1.snd
      List.nodup_nil
    rw [hS2] at h
    exact h
  have huniq : ∀ v1 ∈ PyDict.values step2.fst, ∀ v2 ∈ PyDict.values step2.fst,
      v1.marker_id = v2.marker_id → v1 = v2 := by
    intro v1 h1 v2 h2 hid
    rcases pydict_mem_of_values _ _ h1 with ⟨k1, hk1⟩
    rcases pydict_mem_of_values _ _ h2 with ⟨k2, hk2⟩
    have e1 : k1 = v1.marker_id := hkey (k1, v1) hk1
    have e2 : k2 = v2.marker_id := hkey (k2, v2) hk2
    have ek : k1 = k2 := by rw [e1, e2, hid]
    subst ek
    exact pydict_value_unique step2.fst hnodup k1 v1 v2 hk1 hk2
  have hsub : ∀ v ∈ PyDict.values step2.fst, v ∈ bestD := by
    intro v hv
    rw [← hS2] at hv
    rcases bestByIdFold_values _ _ _ v hv with h1 | h1
    · exact absurd h1 (List.not_mem_nil v)
    · rw [← hS1] at h1
      rcases bestByCellFold_values _ _ _ v h1 with h2 | h2
      · exact absurd h2 (List.not_mem_nil v)
      · exact h2
  have hbfinal : ∀ d ∈ PyDict.values step2.fst, d.row < 8 ∧ d.col < 8 :=
    fun d hd => (hbmem d (hsub d hd)).2
  have hallow : ∀ d ∈ PyDict.values step2.fst,
      (allowed_ids.getD ((List.range 32).map (fun i => (i : Int) + 1))).contains
        d.marker_id = true :=
    fun d hd => (hbmem d (hsub d hd)).1
  refine ⟨?_, ?_, ?_⟩
  · intro r c r2 c2 hnz heq
    rcases fillGrid_get (PyDict.values step2.fst) hbfinal r c with h1 | h1
    · exact absurd h1 hnz
    rcases fillGrid_get (PyDict.values step2.fst) hbfinal r2 c2 with h2 | h2
    · rw [heq] at hnz
      exact absurd h2 hnz
    obtain ⟨d1, hd1, hr1, hc1, hv1⟩ := h1
    obtain ⟨d2, hd2, hr2, hc2, hv2⟩ := h2
    have hid : d1.marker_id = d2.marker_id := by
      rw [← hv1, ← hv2, heq]
    have h12 : d1 = d2 := huniq d1 hd1 d2 hd2 hid
    exact ⟨by rw [← hr1, ← hr2, h12], by rw [← hc1, ← hc2, h12]⟩
  · intro r c hnz
    rcases fillGrid_get (PyDict.values step2.fst) hbfinal r c with h1 | h1
    · exact absurd h1 hnz
    obtain ⟨d1, hd1, _, _, hv1⟩ := h1
    rw [hv1]
    exact hallow d1 hd1
  · intro d hd hnot
    have h := bestByCellFold_account bestD [] [] d (Or.inl hd)
    rw [hS1] at h
    rcases h with h1 | h1
    · have h2 := bestByIdFold_account (PyDict.values step1.fst) [] step1.snd d
        (by intro kv hkv; cases hkv) (Or.inl h1)
      rw [hS2] at h2
      rcases h2 with h3 | h3
      · exact absurd h3 hnot
      · exact h3
    · obtain ⟨e, he, hm⟩ := h1
      refine ⟨e, ?_, hm⟩
      have h2 := bestByIdFold_log_mono (PyDict.values step1.fst) [] step1.snd e he
      rw [hS2] at h2
      exact h2

/-- `headD` of a nonempty list is a member. -/
theorem headD_mem_of_ne {α : Type} (l : List α) (d : α) (h : l ≠ []) :
    l.headD d ∈ l := by
  cases l with
  | nil => exact absurd rfl h
  | cons a t => exact List.mem_cons_self a t

set_option maxRecDepth 20000 in
/-- C5 witness: the invariants evaluated on the concrete three-detection
input: the surviving id 5 sits in cell (1,1) and lies in the default id
set, and the discarded duplicate id-5 detection is named in the conflict
log. -/
theorem C5_witness :
    (((TagDetector.detect_piece_tags Inputs.taxiNorm Inputs.rawTagInput none
        (5 / 10000) 800).board_ids.getD 1 []).getD 1 0 ≠ 0 → (1 : Nat) = 1 ∧ (1 : Nat) = 1) ∧
    (((none : Option (List Int)).getD ((List.range 32).map (fun i => (i : Int) + 1))).contains
      (((TagDetector.detect_piece_tags Inputs.taxiNorm Inputs.rawTagInput none
        (5 / 10000) 800).board_ids.getD 1 []).getD 1 0) = true) ∧
    (∃ e, e ∈ (TagDetector.detect_piece_tags Inputs.taxiNorm Inputs.rawTagInput none
        (5 / 10000) 800).conflict_log ∧
      TagDetector.mentionsId e Inputs.discardedDet.marker_id = true) := by
  obtain ⟨h1, h2, h3⟩ := C5_board_ids_invariants Inputs.taxiNorm Inputs.rawTagInput
    none (5 / 10000) 800
    (TagDetector.detect_piece_tags Inputs.taxiNorm Inputs.rawTagInput none
      (5 / 10000) 800)
    Inputs.bestTagList rfl rfl
  refine ⟨fun hnz => h1 1 1 1 1 hnz rfl, ?_, ?_⟩
  · exact h2 1 1 (by with_unfolding_all decide)
  · exact h3 Inputs.discardedDet
      (headD_mem_of_ne Inputs.bestTagList Inputs.dummyDet
        (by with_unfolding_all decide))
      (by with_unfolding_all decide)

/-- A successful square shift lands at the offset square, on the board. -/
theorem shiftSq_spec (sq : Nat) (df dr : Int) (t : Nat)
    (h : Chess.shiftSq sq df dr = some t) :
    (t : Int) = (sq : Int) + 8 * dr + df ∧ t < 64 := by
  simp only [Chess.shiftSq] at h
  split at h
  · rename_i hb
    injection h with ht
    unfold Chess.fileOf Chess.rankOf at hb ht
    omega
  · cases h

/-- Members of the promotion expansion keep the given endpoints and never
promote to a king. -/
theorem pawnMoveTo_mem (c : Chess.Color) (s d : Nat) (m : Chess.Move)
    (h : m ∈ Chess.pawnMoveTo c s d) :
    m.src = s ∧ m.dst = d ∧ m.promo ≠ some Chess.PieceType.king := by
  unfold Chess.pawnMoveTo at h
  split at h
  · simp only [List.mem_cons, List.not_mem_nil, or_false] at h
    rcases h with rfl | rfl | rfl | rfl <;> exact ⟨rfl, rfl, by simp⟩
  · rw [List.mem_singleton] at h
    subst h
    exact ⟨rfl, rfl, by simp⟩

theorem stepMoves_mem (p : List (Option Chess.Piece)) (c : Chess.Color)
    (sq : Nat) (ds : List (Int × Int)) (m : Chess.Move)
    (h : m ∈ Chess.stepMoves p c sq ds) :
    m.src = sq ∧ m.promo = none := by
  unfold Chess.stepMoves at h
  rcases List.mem_flatMap.mp h with ⟨d, hd, hm⟩
  cases hs : Chess.shiftSq sq d.fst d.snd with
  | none =>
    simp only [hs] at hm
    exact absurd hm (List.not_mem_nil m)
  | some t =>
    simp only [hs] at hm
    cases hp : Chess.pieceAtP p t with
    | none =>
      simp only [hp] at hm
      rw [List.mem_singleton] at hm
      subst hm
      exact ⟨rfl, rfl⟩
    | some pc =>
      simp only [hp] at hm
      split at hm
      · exact absurd hm (List.not_mem_nil m)
      · rw [List.mem_singleton] at hm
        subst hm
        exact ⟨rfl, rfl⟩

theorem sliderMoves_mem (p : List (Option Chess.Piece)) (c : Chess.Color)
    (sq : Nat) (dirs : List (Int × Int)) (m : Chess.Move)
    (h : m ∈ Chess.sliderMoves p c sq dirs) :
    m.src = sq ∧ m.promo = none := by
  unfold Chess.sliderMoves at h
  rcases List.mem_flatMap.mp h with ⟨d, hd, hm⟩
  rcases List.mem_map.mp hm with ⟨t, ht, hmt⟩
  subst hmt
  exact ⟨rfl, rfl⟩

/-- A pseudo-legal pawn move from `sq` either lands on an occupied square
(a capture) or is a single or double push. -/
theorem pawnMovesFrom_mem (p : List (Option Chess.Piece)) (c : Chess.Color)
    (sq : Nat) (m : Chess.Move) (h : m ∈ Chess.pawnMovesFrom p c sq) :
    m.src = sq ∧ m.promo ≠ some Chess.PieceType.king ∧
      (Chess.pieceAtP p m.dst ≠ none ∨
        ((m.dst : Int) - (sq : Int)).natAbs = 8 ∨
        ((m.dst : Int) - (sq : Int)).natAbs = 16) := by
  have hdir : Chess.pawnDir c = 1 ∨ Chess.pawnDir c = -1 := by
    cases c
    · left; rfl
    · right; rfl
  simp only [Chess.pawnMovesFrom] at h
  rcases List.mem_append.mp h with h1 | h1
  · cases hs1 : Chess.shiftSq sq 0 (Chess.pawnDir c) with
    | none =>
      simp only [hs1] at h1
      exact absurd h1 (List.not_mem_nil m)
    | some t1 =>
      simp only [hs1] at h1
      split at h1
      · rcases List.mem_append.mp h1 with h2 | h2
        · obtain ⟨hsrc, hdst, hpr⟩ := pawnMoveTo_mem c sq t1 m h2
          have hspec := shiftSq_spec sq 0 (Chess.pawnDir c) t1 hs1
          refine ⟨hsrc, hpr, Or.inr (Or.inl ?_)⟩
          rw [hdst]
          omega
        · split at h2
          · cases hs2 : Chess.shiftSq sq 0 (2 * Chess.pawnDir c) with
            | none =>
              simp only [hs2] at h2
              exact absurd h2 (List.not_mem_nil m)
            | some t2 =>
              simp only [hs2] at h2
              split at h2
              · rw [List.mem_singleton] at h2
                subst h2
                have hspec := shiftSq_spec sq 0 (2 * Chess.pawnDir c) t2 hs2
                refine ⟨rfl, by simp, Or.inr (Or.inr ?_)⟩
                show ((t2 : Int) - (sq : Int)).natAbs = 16
                omega
              · exact absurd h2 (List.not_mem_nil m)
          · exact absurd h2 (List.not_mem_nil m)
      · exact absurd h1 (List.not_mem_nil m)
  · rcases List.mem_flatMap.mp h1 with ⟨df, hdf, hm⟩
    cases hs : Chess.shiftSq sq df (Chess.pawnDir c) with
    | none =>
      simp only [hs] at hm
      exact absurd hm (List.not_mem_nil m)
    | some t =>
      simp only [hs] at hm
      cases hp : Chess.pieceAtP p t with
      | none =>
        simp only [hp] at hm
        exact absurd hm (List.not_mem_nil m)
      | some pc =>
        simp only [hp] at hm
        split at hm
        · exact absurd hm (List.not_mem_nil m)
        · obtain ⟨hsrc, hdst, hpr⟩ := pawnMoveTo_mem c sq t m hm
          refine ⟨hsrc, hpr, Or.inl ?_⟩
          rw [hdst, hp]
          simp

/-- Inversion for the per-square pseudo-legal generator: the origin is the
square, the promotion is never a king, and the origin holds an own piece;
a pawn either captures an occupied square or pushes. -/
theorem movesFromSq_inv (p : List (Option Chess.Piece)) (c : Chess.Color)
    (sq : Nat) (m : Chess.Move) (h : m ∈ Chess.movesFromSq p c sq) :
    m.src = sq ∧ m.promo ≠ some Chess.PieceType.king ∧
      ∃ pc, Chess.pieceAtP p sq = some pc ∧ pc.color = c ∧
        (pc.ptype = Chess.PieceType.pawn →
          (Chess.pieceAtP p m.dst ≠ none ∨
            ((m.dst : Int) - (sq : Int)).natAbs = 8 ∨
            ((m.dst : Int) - (sq : Int)).natAbs = 16)) := by
  unfold Chess.movesFromSq at h
  cases hsq : Chess.pieceAtP p sq with
  | none =>
    simp only [hsq] at h
    exact absurd h (List.not_mem_nil m)
  | some pc =>
    simp only [hsq] at h
    split at h
    · exact absurd h (List.not_mem_nil m)
    · rename_i hcol
      have hcol2 : pc.color = c := not_not.mp hcol
      cases hpt : pc.ptype <;> simp only [hpt] at h
      case pawn =>
        obtain ⟨hsrc, hpr, hfact⟩ := pawnMovesFrom_mem p c sq m h
        exact ⟨hsrc, hpr, pc, rfl, hcol2, fun _ => hfact⟩
      case knight =>
        obtain ⟨hsrc, hprn⟩ := stepMoves_mem p c sq Chess.knightDeltas m h
        refine ⟨hsrc, by rw [hprn]; simp, pc, rfl, hcol2, fun hpw => ?_⟩
        rw [hpt] at hpw
        cases hpw
      case bishop =>
        obtain ⟨hsrc, hprn⟩ := sliderMoves_mem p c sq Chess.bishopDirs m h
        refine ⟨hsrc, by rw [hprn]; simp, pc, rfl, hcol2, fun hpw => ?_⟩
        rw [hpt] at hpw
        cases hpw
      case rook =>
        obtain ⟨hsrc, hprn⟩ := sliderMoves_mem p c sq Chess.rookDirs m h
        refine ⟨hsrc, by rw [hprn]; simp, pc, rfl, hcol2, fun hpw => ?_⟩
        rw [hpt] at hpw
        cases hpw
      case queen =>
        obtain ⟨hsrc, hprn⟩ :=
          sliderMoves_mem p c sq (Chess.bishopDirs ++ Chess.rookDirs) m h
        refine ⟨hsrc, by rw [hprn]; simp, pc, rfl, hcol2, fun hpw => ?_⟩
        rw [hpt] at hpw
        cases hpw
      case king =>
        obtain ⟨hsrc, hprn⟩ := stepMoves_mem p c sq Chess.kingDeltas m h
        refine ⟨hsrc, by rw [hprn]; simp, pc, rfl, hcol2, fun hpw => ?_⟩
        rw [hpt] at hpw
        cases hpw

theorem normalMovesP_inv (p : List (Option Chess.Piece)) (c : Chess.Color)
    (m : Chess.Move) (h : m ∈ Chess.normalMovesP p c) :
    m.promo ≠ some Chess.PieceType.king ∧
      ∃ pc, Chess.pieceAtP p m.src = some pc ∧ pc.color = c ∧
        (pc.ptype = Chess.PieceType.pawn →
          (Chess.pieceAtP p m.dst ≠ none ∨
            ((m.dst : Int) - (m.src : Int)).natAbs = 8 ∨
            ((m.dst : Int) - (m.src : Int)).natAbs = 16)) := by
  unfold Chess.normalMovesP at h
  rcases List.mem_flatMap.mp h with ⟨sq, hsq, hm⟩
  obtain ⟨hsrc, hpr, pc, hat, hcol, hfact⟩ := movesFromSq_inv p c sq m hm
  subst hsrc
  exact ⟨hpr, pc, hat, hcol, hfact⟩

/-- Any one of the inverted generator facts forces `is_en_passant` to be
false, whatever the en-passant square is. -/
theorem epcap_false_of_facts (p : List (Option Chess.Piece)) (m : Chess.Move)
    (pc : Chess.Piece) (hsrc : Chess.pieceAtP p m.src = some pc)
    (hfact : pc.ptype ≠ Chess.PieceType.pawn ∨ Chess.pieceAtP p m.dst ≠ none ∨
      ((m.dst : Int) - (m.src : Int)).natAbs = 8 ∨
      ((m.dst : Int) - (m.src : Int)).natAbs = 16)
    (ep : Option Nat) : Chess.isEpCaptureP p ep m = false := by
  cases ep with
  | none => rfl
  | some e =>
    rcases hfact with hf | hf | hf | hf <;>
      simp [Chess.isEpCaptureP, hsrc, hf]

theorem normal_epfalse (p : List (Option Chess.Piece)) (c : Chess.Color)
    (m : Chess.Move) (h : m ∈ Chess.normalMovesP p c) (ep : Option Nat) :
    Chess.isEpCaptureP p ep m = false := by
  obtain ⟨_, pc, hat, _, hfact⟩ := normalMovesP_inv p c m h
  by_cases hpt : pc.ptype = Chess.PieceType.pawn
  · exact epcap_false_of_facts p m pc hat (Or.inr (hfact hpt)) ep
  · exact epcap_false_of_facts p m pc hat (Or.inl hpt) ep

/-- Every generated castling move carries no promotion and starts on a
square holding a king. -/
theorem castlingMovesP_inv (p : List (Option Chess.Piece)) (c : Chess.Color)
    (wk wq bk bq : Bool) (m : Chess.Move)
    (h : m ∈ Chess.castlingMovesP p c wk wq bk bq) :
    m.promo = none ∧
      ∃ col, Chess.pieceAtP p m.src = some ⟨col, Chess.PieceType.king⟩ := by
  cases c with
  | white =>
    simp only [Chess.castlingMovesP] at h
    rcases List.mem_append.mp h with h1 | h1
    · split at h1
      · rename_i hcond
        simp only [Bool.and_eq_true, decide_eq_true_eq] at hcond
        rw [List.mem_singleton] at h1
        subst h1
        exact ⟨rfl, Chess.Color.white, hcond.1.1.1.1.1.1.2⟩
      · exact absurd h1 (List.not_mem_nil m)
    · split at h1
      · rename_i hcond
        simp only [Bool.and_eq_true, decide_eq_true_eq] at hcond
        rw [List.mem_singleton] at h1
        subst h1
        exact ⟨rfl, Chess.Color.white, hcond.1.1.1.1.1.1.1.2⟩
      · exact absurd h1 (List.not_mem_nil m)
  | black =>
    simp only [Chess.castlingMovesP] at h
    rcases List.mem_append.mp h with h1 | h1
    · split at h1
      · rename_i hcond
        simp only [Bool.and_eq_true, decide_eq_true_eq] at hcond
        rw [List.mem_singleton] at h1
        subst h1
        exact ⟨rfl, Chess.Color.black, hcond.1.1.1.1.1.1.2⟩
      · exact absurd h1 (List.not_mem_nil m)
    · split at h1
      · rename_i hcond
        simp only [Bool.and_eq_true, decide_eq_true_eq] at hcond
        rw [List.mem_singleton] at h1
        subst h1
        exact ⟨rfl, Chess.Color.black, hcond.1.1.1.1.1.1.1.2⟩
      · exact absurd h1 (List.not_mem_nil m)

theorem castling_epfalse (p : List (Option Chess.Piece)) (c : Chess.Color)
    (wk wq bk bq : Bool) (m : Chess.Move)
    (h : m ∈ Chess.castlingMovesP p c wk wq bk bq) (ep : Option Nat) :
    Chess.isEpCaptureP p ep m = false := by
  obtain ⟨_, col, hat⟩ := castlingMovesP_inv p c wk wq bk bq m h
  exact epcap_false_of_facts p m ⟨col, Chess.PieceType.king⟩ hat
    (Or.inl (by simp)) ep

theorem epMovesP_mem (p : List (Option Chess.Piece)) (c : Chess.Color)
    (ep : Option Nat) (m : Chess.Move) (h : m ∈ Chess.epMovesP p c ep) :
    m.promo = none := by
  cases ep with
  | none =>
    simp only [Chess.epMovesP] at h
    exact absurd h (List.not_mem_nil m)
  | some e =>
    simp only [Chess.epMovesP] at h
    split at h
    · exact absurd h (List.not_mem_nil m)
    · rcases List.mem_flatMap.mp h with ⟨df, hdf, hm⟩
      cases hs : Chess.shiftSq e df (- Chess.pawnDir c) with
      | none =>
        simp only [hs] at hm
        exact absurd hm (List.not_mem_nil m)
      | some s =>
        simp only [hs] at hm
        split at hm
        · rw [List.mem_singleton] at hm
          subst hm
          rfl
        · exact absurd hm (List.not_mem_nil m)

theorem legal_promo (b : Chess.Board) (m : Chess.Move)
    (h : m ∈ Chess.legalMoves b) : m.promo ≠ some Chess.PieceType.king := by
  unfold Chess.legalMoves at h
  rcases List.mem_append.mp h with h1 | h1
  · rcases List.mem_append.mp h1 with h2 | h2
    · exact (normalMovesP_inv _ _ _ (List.mem_filter.mp h2).1).1
    · rw [epMovesP_mem _ _ _ _ (List.mem_filter.mp h2).1]
      simp
  · rw [(castlingMovesP_inv _ _ _ _ _ _ _ h1).1]
    simp

/-- The board update only reads the en-passant square through
`is_en_passant`. -/
theorem movedPlacement_ep_congr (p : List (Option Chess.Piece))
    (c : Chess.Color) (ep1 ep2 : Option Nat) (m : Chess.Move)
    (h : Chess.isEpCaptureP p ep1 m = Chess.isEpCaptureP p ep2 m) :
    Chess.movedPlacement p c ep1 m = Chess.movedPlacement p c ep2 m := by
  cases hmv : Chess.pieceAtP p m.src with
  | none => simp only [Chess.movedPlacement, hmv]
  | some mover => simp only [Chess.movedPlacement, hmv, h]

theorem movedPlacement_length (p : List (Option Chess.Piece))
    (c : Chess.Color) (ep : Option Nat) (m : Chess.Move) :
    (Chess.movedPlacement p c ep m).length = p.length := by
  cases hmv : Chess.pieceAtP p m.src with
  | none => simp [Chess.movedPlacement, hmv]
  | some mover =>
    by_cases hcast : Chess.isCastlingP p m = true
    · simp [Chess.movedPlacement, hmv, hcast]
    · by_cases hep : Chess.isEpCaptureP p ep m = true
      · simp [Chess.movedPlacement, hmv, hcast, hep]
      · simp [Chess.movedPlacement, hmv, hcast, hep]

theorem intoCheck_ep_congr (p : List (Option Chess.Piece)) (c : Chess.Color)
    (ep1 ep2 : Option Nat) (m : Chess.Move)
    (h : Chess.isEpCaptureP p ep1 m = Chess.isEpCaptureP p ep2 m) :
    Chess.intoCheckP p c ep1 m = Chess.intoCheckP p c ep2 m := by
  unfold Chess.intoCheckP
  rw [movedPlacement_ep_congr p c ep1 ep2 m h]

theorem hasLegalEp_congr (b1 b2 : Chess.Board) (hp : b1.pieces = b2.pieces)
    (ht : b1.turn = b2.turn) (he : b1.epSquare = b2.epSquare) :
    Chess.hasLegalEp b1 = Chess.hasLegalEp b2 := by
  unfold Chess.hasLegalEp
  rw [hp, ht, he]

/-- The castling-rights letters printed by the FEN absorb into the
castling-move conditions: the generated castling moves from the cleaned
rights coincide with those from the raw rights. -/
theorem castling_clean (p : List (Option Chess.Piece)) (c : Chess.Color)
    (wk wq bk bq : Bool) :
    Chess.castlingMovesP p c (wk && Chess.cleanWK p) (wq && Chess.cleanWQ p)
      (bk && Chess.cleanBK p) (bq && Chess.cleanBQ p) =
    Chess.castlingMovesP p c wk wq bk bq := by
  cases c with
  | white =>
    by_cases h4 : Chess.pieceAtP p 4 =
        some ⟨Chess.Color.white, Chess.PieceType.king⟩ <;>
    by_cases h7 : Chess.pieceAtP p 7 =
        some ⟨Chess.Color.white, Chess.PieceType.rook⟩ <;>
    by_cases h0 : Chess.pieceAtP p 0 =
        some ⟨Chess.Color.white, Chess.PieceType.rook⟩ <;>
    simp [Chess.castlingMovesP, Chess.cleanWK, Chess.cleanWQ, h4, h7, h0]
  | black =>
    by_cases h60 : Chess.pieceAtP p 60 =
        some ⟨Chess.Color.black, Chess.PieceType.king⟩ <;>
    by_cases h63 : Chess.pieceAtP p 63 =
        some ⟨Chess.Color.black, Chess.PieceType.rook⟩ <;>
    by_cases h56 : Chess.pieceAtP p 56 =
        some ⟨Chess.Color.black, Chess.PieceType.rook⟩ <;>
    simp [Chess.castlingMovesP, Chess.cleanBK, Chess.cleanBQ, h60, h63, h56]

/-- The legal moves of the position restored from the printed FEN are
exactly the legal moves of the original position. -/
theorem legal_fen (b : Chess.Board) :
    Chess.legalMoves (Chess.fenOf b) = Chess.legalMoves b := by
  unfold Chess.legalMoves
  simp only [Chess.fenOf]
  by_cases hep : Chess.hasLegalEp b = true
  · rw [if_pos hep, castling_clean]
  · rw [if_neg hep, castling_clean]
    have h1 : (Chess.normalMovesP b.pieces b.turn).filter
        (fun m => !(Chess.intoCheckP b.pieces b.turn none m)) =
        (Chess.normalMovesP b.pieces b.turn).filter
        (fun m => !(Chess.intoCheckP b.pieces b.turn b.epSquare m)) := by
      refine List.filter_congr ?_
      intro m hm
      rw [intoCheck_ep_congr b.pieces b.turn none b.epSquare m
        (by rw [normal_epfalse _ _ _ hm none, normal_epfalse _ _ _ hm b.epSquare])]
    have h2 : (Chess.epMovesP b.pieces b.turn b.epSquare).filter
        (fun m => !(Chess.intoCheckP b.pieces b.turn b.epSquare m)) = [] := by
      cases hh : ((Chess.epMovesP b.pieces b.turn b.epSquare).filter
          (fun m => !(Chess.intoCheckP b.pieces b.turn b.epSquare m))).isEmpty
      · exfalso
        apply hep
        unfold Chess.hasLegalEp
        rw [hh]
        rfl
      · exact List.isEmpty_iff.mp hh
    rw [h1, h2]
    rw [show Chess.epMovesP b.pieces b.turn none = [] from rfl]
    simp

/-- For a legal move of a position with no legal en-passant capture,
`is_en_passant` is false under every en-passant square. -/
theorem legal_epcap_indep (b : Chess.Board) (m : Chess.Move)
    (h : m ∈ Chess.legalMoves b) (hep : ¬(Chess.hasLegalEp b = true))
    (ep2 : Option Nat) :
    Chess.isEpCaptureP b.pieces ep2 m = false := by
  unfold Chess.legalMoves at h
  rcases List.mem_append.mp h with h1 | h1
  · rcases List.mem_append.mp h1 with h2 | h2
    · exact normal_epfalse _ _ _ (List.mem_filter.mp h2).1 ep2
    · exfalso
      have hne : ((Chess.epMovesP b.pieces b.turn b.epSquare).filter
          (fun mv => !(Chess.intoCheckP b.pieces b.turn b.epSquare mv))) ≠ [] := by
        intro hnil
        rw [hnil] at h2
        exact absurd h2 (List.not_mem_nil m)
      apply hep
      unfold Chess.hasLegalEp
      cases hh : ((Chess.epMovesP b.pieces b.turn b.epSquare).filter
          (fun mv => !(Chess.intoCheckP b.pieces b.turn b.epSquare mv))).isEmpty
      · rfl
      · exact absurd (List.isEmpty_iff.mp hh) hne
  · exact castling_epfalse _ _ _ _ _ _ _ h1 ep2

/-- Core preservation step for the cleaned castling rights: when the move
does not touch the rook square, the mover is not the right's king and the
move does not promote to a king, a clean right after the move implies it
was clean before. -/
theorem clean_preserved (p : List (Option Chess.Piece)) (c : Chess.Color)
    (ep : Option Nat) (m : Chess.Move) (col : Chess.Color) (ksq rsq : Nat)
    (hlen : p.length = 64)
    (hpromo : m.promo ≠ some Chess.PieceType.king)
    (hmask : ¬(m.src = rsq ∨ m.dst = rsq))
    (hkc : ∀ mover, Chess.pieceAtP p m.src = some mover →
      ¬(mover.ptype = Chess.PieceType.king ∧ mover.color = col))
    (hk2 : Chess.pieceAtP (Chess.movedPlacement p c ep m) ksq =
      some ⟨col, Chess.PieceType.king⟩)
    (hr2 : Chess.pieceAtP (Chess.movedPlacement p c ep m) rsq =
      some ⟨col, Chess.PieceType.rook⟩) :
    Chess.pieceAtP p ksq = some ⟨col, Chess.PieceType.king⟩ ∧
      Chess.pieceAtP p rsq = some ⟨col, Chess.PieceType.rook⟩ := by
  cases hmv : Chess.pieceAtP p m.src with
  | none =>
    simp only [Chess.movedPlacement, hmv] at hk2 hr2
    exact ⟨hk2, hr2⟩
  | some mover =>
    simp only [Chess.movedPlacement, hmv] at hk2 hr2
    by_cases hcast : Chess.isCastlingP p m = true
    · rw [if_pos hcast] at hk2 hr2
      have hking : mover.ptype = Chess.PieceType.king := by
        unfold Chess.isCastlingP at hcast
        simp only [hmv, Bool.and_eq_true, decide_eq_true_eq] at hcast
        exact hcast.1
      have hcol : mover.color ≠ col := by
        intro hc
        exact hkc mover hmv ⟨hking, hc⟩
      by_cases hf6 : Chess.fileOf m.dst = 6
      · simp only [if_pos hf6] at hk2 hr2
        simp only [pieceAtP_set, List.length_set, hlen] at hk2 hr2
        constructor
        · split at hk2
          · exact absurd (show Chess.PieceType.rook = Chess.PieceType.king from
              congrArg Chess.Piece.ptype (Option.some.inj hk2)) (by simp)
          · split at hk2
            · have hmk := Option.some.inj hk2
              exact absurd ⟨by rw [hmk], by rw [hmk]⟩ (hkc mover hmv)
            · split at hk2
              · exact Option.noConfusion hk2
              · split at hk2
                · exact Option.noConfusion hk2
                · exact hk2
        · split at hr2
          · exact absurd (congrArg Chess.Piece.color (Option.some.inj hr2)) hcol
          · split at hr2
            · rename_i h1 h2
              exact absurd (Or.inr h2.1.symm) hmask
            · split at hr2
              · exact Option.noConfusion hr2
              · split at hr2
                · rename_i h1 h2 h3 h4
                  exact absurd (Or.inl h4.1.symm) hmask
                · exact hr2
      · simp only [if_neg hf6] at hk2 hr2
        simp only [pieceAtP_set, List.length_set, hlen] at hk2 hr2
        constructor
        · split at hk2
          · exact absurd (show Chess.PieceType.rook = Chess.PieceType.king from
              congrArg Chess.Piece.ptype (Option.some.inj hk2)) (by simp)
          · split at hk2
            · have hmk := Option.some.inj hk2
              exact absurd ⟨by rw [hmk], by rw [hmk]⟩ (hkc mover hmv)
            · split at hk2
              · exact Option.noConfusion hk2
              · split at hk2
                · exact Option.noConfusion hk2
                · exact hk2
        · split at hr2
          · exact absurd (congrArg Chess.Piece.color (Option.some.inj hr2)) hcol
          · split at hr2
            · rename_i h1 h2
              exact absurd (Or.inr h2.1.symm) hmask
            · split at hr2
              · exact Option.noConfusion hr2
              · split at hr2
                · rename_i h1 h2 h3 h4
                  exact absurd (Or.inl h4.1.symm) hmask
                · exact hr2
    · rw [if_neg hcast] at hk2 hr2
      cases hpm : m.promo with
      | none =>
        simp only [hpm] at hk2 hr2
        by_cases hep2 : Chess.isEpCaptureP p ep m = true
        · rw [if_pos hep2] at hk2 hr2
          simp only [pieceAtP_set, List.length_set, hlen] at hk2 hr2
          constructor
          · split at hk2
            · rw [Option.some.injEq] at hk2
              exact absurd ⟨by rw [hk2], by rw [hk2]⟩ (hkc mover hmv)
            · split at hk2
              · simp at hk2
              · split at hk2
                · simp at hk2
                · exact hk2
          · split at hr2
            · rename_i h1
              exact absurd (Or.inr h1.1.symm) hmask
            · split at hr2
              · simp at hr2
              · split at hr2
                · rename_i h1 h2 h3
                  exact absurd (Or.inl h3.1.symm) hmask
                · exact hr2
        · rw [if_neg hep2] at hk2 hr2
          simp only [pieceAtP_set, List.length_set, hlen] at hk2 hr2
          constructor
          · split at hk2
            · rw [Option.some.injEq] at hk2
              exact absurd ⟨by rw [hk2], by rw [hk2]⟩ (hkc mover hmv)
            · split at hk2
              · simp at hk2
              · exact hk2
          · split at hr2
            · rename_i h1
              exact absurd (Or.inr h1.1.symm) hmask
            · split at hr2
              · rename_i h1 h2
                exact absurd (Or.inl h2.1.symm) hmask
              · exact hr2
      | some t =>
        simp only [hpm] at hk2 hr2
        have ht : t ≠ Chess.PieceType.king := by
          intro hh
          exact hpromo (by rw [hpm, hh])
        by_cases hep2 : Chess.isEpCaptureP p ep m = true
        · rw [if_pos hep2] at hk2 hr2
          simp only [pieceAtP_set, List.length_set, hlen] at hk2 hr2
          constructor
          · split at hk2
            · rw [Option.some.injEq] at hk2
              exact absurd (congrArg Chess.Piece.ptype hk2) ht
            · split at hk2
              · simp at hk2
              · split at hk2
                · simp at hk2
                · exact hk2
          · split at hr2
            · rename_i h1
              exact absurd (Or.inr h1.1.symm) hmask
            · split at hr2
              · simp at hr2
              · split at hr2
                · rename_i h1 h2 h3
                  exact absurd (Or.inl h3.1.symm) hmask
                · exact hr2
        · rw [if_neg hep2] at hk2 hr2
          simp only [pieceAtP_set, List.length_set, hlen] at hk2 hr2
          constructor
          · split at hk2
            · rw [Option.some.injEq] at hk2
              exact absurd (congrArg Chess.Piece.ptype hk2) ht
            · split at hk2
              · simp at hk2
              · exact hk2
          · split at hr2
            · rename_i h1
              exact absurd (Or.inr h1.1.symm) hmask
            · split at hr2
              · rename_i h1 h2
                exact absurd (Or.inl h2.1.symm) hmask
              · exact hr2

/-- Boolean absorption shape of one cleaned castling right across a push. -/
theorem bool_bit_helper (w a b2 c1 c2 : Bool)
    (h : c2 = true → a = true → b2 = true → c1 = true) :
    ((((w && c1) && a) && b2) && c2) = (((w && a) && b2) && c2) := by
  cases w <;> cases a <;> cases b2 <;> cases c1 <;> cases c2 <;>
    (revert h; decide)

/-- Printed FENs agree when the fields agree and the cleaned rights
agree. -/
theorem fenOf_congr (b1 b2 : Chess.Board) (hp : b1.pieces = b2.pieces)
    (ht : b1.turn = b2.turn) (he : b1.epSquare = b2.epSquare)
    (hhm : b1.halfmove = b2.halfmove) (hfm : b1.fullmove = b2.fullmove)
    (hwk : (b1.castleWK && Chess.cleanWK b1.pieces) =
      (b2.castleWK && Chess.cleanWK b2.pieces))
    (hwq : (b1.castleWQ && Chess.cleanWQ b1.pieces) =
      (b2.castleWQ && Chess.cleanWQ b2.pieces))
    (hbk : (b1.castleBK && Chess.cleanBK b1.pieces) =
      (b2.castleBK && Chess.cleanBK b2.pieces))
    (hbq : (b1.castleBQ && Chess.cleanBQ b1.pieces) =
      (b2.castleBQ && Chess.cleanBQ b2.pieces)) :
    Chess.fenOf b1 = Chess.fenOf b2 := by
  unfold Chess.fenOf
  rw [Chess.Board.mk.injEq]
  refine ⟨hp, ht, hwk, hwq, hbk, hbq, ?_, hhm, hfm⟩
  rw [hasLegalEp_congr b1 b2 hp ht he, he]

/-- Key normalization step: pushing a legal move on the position restored
from the printed FEN prints the same FEN as pushing it on the original
position. -/
theorem fen_push_fen (b : Chess.Board) (m : Chess.Move)
    (hm : m ∈ Chess.legalMoves b) (hlen : b.pieces.length = 64) :
    Chess.fenOf (Chess.push (Chess.fenOf b) m) =
      Chess.fenOf (Chess.push b m) := by
  have hplace : Chess.movedPlacement b.pieces b.turn
      (if Chess.hasLegalEp b = true then b.epSquare else none) m =
      Chess.movedPlacement b.pieces b.turn b.epSquare m := by
    by_cases hep : Chess.hasLegalEp b = true
    · rw [if_pos hep]
    · rw [if_neg hep]
      exact movedPlacement_ep_congr _ _ _ _ _
        (by rw [legal_epcap_indep b m hm hep none,
                legal_epcap_indep b m hm hep b.epSquare])
  refine fenOf_congr _ _ ?_ rfl rfl rfl rfl ?_ ?_ ?_ ?_
  · exact hplace
  · simp only [Chess.push, Chess.fenOf, Chess.rightsAfter]
    rw [hplace]
    refine bool_bit_helper _ _ _ _ _ ?_
    intro hc2 ha hb2
    simp only [Chess.cleanWK, Bool.and_eq_true, decide_eq_true_eq] at hc2 ⊢
    refine clean_preserved b.pieces b.turn b.epSquare m Chess.Color.white 4 7
      hlen (legal_promo b m hm) ?_ ?_ hc2.1 hc2.2
    · intro hor
      rcases hor with hx | hx <;> simp [hx] at ha
    · intro mover hmv hcontra
      simp [hmv, hcontra.1, hcontra.2] at hb2
  · simp only [Chess.push, Chess.fenOf, Chess.rightsAfter]
    rw [hplace]
    refine bool_bit_helper _ _ _ _ _ ?_
    intro hc2 ha hb2
    simp only [Chess.cleanWQ, Bool.and_eq_true, decide_eq_true_eq] at hc2 ⊢
    refine clean_preserved b.pieces b.turn b.epSquare m Chess.Color.white 4 0
      hlen (legal_promo b m hm) ?_ ?_ hc2.1 hc2.2
    · intro hor
      rcases hor with hx | hx <;> simp [hx] at ha
    · intro mover hmv hcontra
      simp [hmv, hcontra.1, hcontra.2] at hb2
  · simp only [Chess.push, Chess.fenOf, Chess.rightsAfter]
    rw [hplace]
    refine bool_bit_helper _ _ _ _ _ ?_
    intro hc2 ha hb2
    simp only [Chess.cleanBK, Bool.and_eq_true, decide_eq_true_eq] at hc2 ⊢
    refine clean_preserved b.pieces b.turn b.epSquare m Chess.Color.black 60 63
      hlen (legal_promo b m hm) ?_ ?_ hc2.1 hc2.2
    · intro hor
      rcases hor with hx | hx <;> simp [hx] at ha
    · intro mover hmv hcontra
      simp [hmv, hcontra.1, hcontra.2] at hb2
  · simp only [Chess.push, Chess.fenOf, Chess.rightsAfter]
    rw [hplace]
    refine bool_bit_helper _ _ _ _ _ ?_
    intro hc2 ha hb2
    simp only [Chess.cleanBQ, Bool.and_eq_true, decide_eq_true_eq] at hc2 ⊢
    refine clean_preserved b.pieces b.turn b.epSquare m Chess.Color.black 60 56
      hlen (legal_promo b m hm) ?_ ?_ hc2.1 hc2.2
    · intro hor
      rcases hor with hx | hx <;> simp [hx] at ha
    · intro mover hmv hcontra
      simp [hmv, hcontra.1, hcontra.2] at hb2

theorem mem_of_containsList {α : Type} [DecidableEq α] (l : List α) (a : α)
    (h : l.contains a = true) : a ∈ l := List.mem_of_elem_eq_true h

theorem containsList_of_mem {α : Type} [DecidableEq α] (l : List α) (a : α)
    (h : a ∈ l) : l.contains a = true := List.elem_eq_true_of_mem h

/-- Pushing a legal move onto the printed FEN succeeds and prints the FEN
of the pushed original position. -/
theorem pushUciOnFen_step (b : Chess.Board) (m : Chess.Move)
    (hm : m ∈ Chess.legalMoves b) (hlen : b.pieces.length = 64) :
    Chess.pushUciOnFen (Chess.fenOf b) m =
      some (Chess.fenOf (Chess.push b m)) := by
  unfold Chess.pushUciOnFen
  rw [legal_fen b, if_pos (containsList_of_mem _ _ hm), fen_push_fen b m hm hlen]

theorem uniqueMatch_mem (l : List Chess.Move) (m : Chess.Move)
    (h : Chess.uniqueMatch l = some m) : m ∈ l := by
  cases l with
  | nil =>
    simp only [Chess.uniqueMatch] at h
    exact Option.noConfusion h
  | cons x t =>
    cases t with
    | nil =>
      simp only [Chess.uniqueMatch] at h
      injection h with h2
      rw [← h2]
      exact List.mem_singleton_self x
    | cons y t2 =>
      simp only [Chess.uniqueMatch] at h
      exact Option.noConfusion h

/-- `find_move` only returns legal moves. -/
theorem findMove_legal (b : Chess.Board) (src dst : Nat)
    (promo : Option Chess.PieceType) (m : Chess.Move)
    (h : Chess.findMove b src dst promo = some m) :
    m ∈ Chess.legalMoves b := by
  simp only [Chess.findMove] at h
  cases promo with
  | some pt =>
    dsimp only at h
    by_cases hcont : (Chess.legalMoves b).contains ⟨src, dst, some pt⟩ = true
    · rw [if_pos hcont] at h
      injection h with h2
      subst h2
      exact mem_of_containsList _ _ hcont
    · rw [if_neg hcont] at h
      exact Option.noConfusion h
  | none =>
    cases hpa : b.pieceAt src with
    | some pc =>
      simp only [hpa] at h
      by_cases hcond : pc.ptype = Chess.PieceType.pawn ∧
          (Chess.rankOf dst = 0 ∨ Chess.rankOf dst = 7)
      · rw [if_pos hcond] at h
        by_cases hcont : (Chess.legalMoves b).contains
            ⟨src, dst, some Chess.PieceType.queen⟩ = true
        · rw [if_pos hcont] at h
          injection h with h2
          subst h2
          exact mem_of_containsList _ _ hcont
        · rw [if_neg hcont] at h
          exact Option.noConfusion h
      · rw [if_neg hcond] at h
        by_cases hcont : (Chess.legalMoves b).contains ⟨src, dst, none⟩ = true
        · rw [if_pos hcont] at h
          injection h with h2
          subst h2
          exact mem_of_containsList _ _ hcont
        · rw [if_neg hcont] at h
          exact Option.noConfusion h
    | none =>
      simp only [hpa] at h
      by_cases hcont : (Chess.legalMoves b).contains ⟨src, dst, none⟩ = true
      · rw [if_pos hcont] at h
        injection h with h2
        subst h2
        exact mem_of_containsList _ _ hcont
      · rw [if_neg hcont] at h
        exact Option.noConfusion h

/-- `parse_san` only returns legal moves. -/
theorem parseSan_legal (b : Chess.Board) (s : String) (m : Chess.Move)
    (h : Chess.parseSan b s = some m) : m ∈ Chess.legalMoves b := by
  unfold Chess.parseSan at h
  split at h
  · unfold Chess.legalMoves
    exact List.mem_append_right _ (List.mem_of_find?_eq_some h)
  · split at h
    · unfold Chess.legalMoves
      exact List.mem_append_right _ (List.mem_of_find?_eq_some h)
    · cases hsm : Chess.sanMatch s.toList with
      | none =>
        simp only [hsm] at h
        exact Option.noConfusion h
      | some g =>
        simp only [hsm] at h
        split at h
        · exact Option.noConfusion h
        · cases hpc : g.pieceChar with
          | some pcChar =>
            simp only [hpc] at h
            exact (List.mem_filter.mp (uniqueMatch_mem _ _ h)).1
          | none =>
            simp only [hpc] at h
            cases hff : g.fromFile with
            | some f =>
              cases hfr : g.fromRank with
              | some r =>
                simp only [hff, hfr] at h
                exact findMove_legal _ _ _ _ _ h
              | none =>
                simp only [hff, hfr] at h
                exact (List.mem_filter.mp (uniqueMatch_mem _ _ h)).1
            | none =>
              simp only [hff] at h
              exact (List.mem_filter.mp (uniqueMatch_mem _ _ h)).1

/-- The SAN-or-UCI parsing step of `generate_moves_json` only returns
legal moves. -/
theorem parseOrUci_legal (b : Chess.Board) (s : String) (m : Chess.Move)
    (h : Pgn.parseOrUci b s = some m) : m ∈ Chess.legalMoves b := by
  unfold Pgn.parseOrUci at h
  cases hps : Chess.parseSan b s with
  | some m2 =>
    simp only [hps] at h
    injection h with h2
    subst h2
    exact parseSan_legal b s _ hps
  | none =>
    simp only [hps] at h
    cases hmu : Chess.moveFromUci s with
    | none =>
      simp only [hmu] at h
      exact Option.noConfusion h
    | some m2 =>
      simp only [hmu] at h
      split at h
      · rename_i hcont
        injection h with h2
        subst h2
        exact mem_of_containsList _ _ hcont
      · exact Option.noConfusion h

theorem startBoard_len : Chess.startBoard.pieces.length = 64 := by decide

theorem push_len (b : Chess.Board) (m : Chess.Move)
    (h : b.pieces.length = 64) : (Chess.push b m).pieces.length = 64 := by
  show (Chess.movedPlacement b.pieces b.turn b.epSquare m).length = 64
  rw [movedPlacement_length, h]

/-- Invariant lemma for the trace accumulator of `generate_moves_json`:
the FEN chain holds for the final trace whenever it holds for the
accumulator and the last accumulated FEN is the FEN of the running
board. -/
theorem movesJsonAux_inv (F0 : Chess.Board) (moves : List String) :
    ∀ (b : Chess.Board) (acc : List Pgn.TraceEntry),
      b.pieces.length = 64 →
      (∀ i e e2, acc[i]? = some e → acc[i + 1]? = some e2 →
        Chess.pushUciOnFen e.fen e2.uci = some e2.fen) →
      (∀ e0, acc[0]? = some e0 → Chess.pushUciOnFen F0 e0.uci = some e0.fen) →
      ((acc = [] ∧ Chess.fenOf b = F0) ∨
        (∃ l, acc.getLast? = some l ∧ l.fen = Chess.fenOf b)) →
      (∀ i e e2, (Pgn.movesJsonAux moves b acc)[i]? = some e →
          (Pgn.movesJsonAux moves b acc)[i + 1]? = some e2 →
          Chess.pushUciOnFen e.fen e2.uci = some e2.fen) ∧
      (∀ e0, (Pgn.movesJsonAux moves b acc)[0]? = some e0 →
          Chess.pushUciOnFen F0 e0.uci = some e0.fen) := by
  induction moves with
  | nil =>
    intro b acc hlen hchain hhead hrel
    exact ⟨hchain, hhead⟩
  | cons s rest ih =>
    intro b acc hlen hchain hhead hrel
    by_cases hss : s = "??"
    · simp only [Pgn.movesJsonAux, if_pos hss]
      exact ih b acc hlen hchain hhead hrel
    · simp only [Pgn.movesJsonAux, if_neg hss]
      cases hp : Pgn.parseOrUci b s with
      | none =>
        simp only [hp]
        exact ih b acc hlen hchain hhead hrel
      | some m =>
        simp only [hp]
        have hm : m ∈ Chess.legalMoves b := parseOrUci_legal b s m hp
        have hstep : Chess.pushUciOnFen (Chess.fenOf b) m =
            some (Chess.fenOf (Chess.push b m)) := pushUciOnFen_step b m hm hlen
        apply ih
        · exact push_len b m hlen
        · intro i e e2 he he2
          by_cases hi : i + 1 < acc.length
          · rw [List.getElem?_append_left (by omega)] at he
            rw [List.getElem?_append_left hi] at he2
            exact hchain i e e2 he he2
          · by_cases hi2 : i + 1 = acc.length
            · rw [List.getElem?_append_left (by omega)] at he
              rw [hi2, List.getElem?_concat_length] at he2
              have he2' := Option.some.inj he2
              rcases hrel with ⟨hnil, _⟩ | ⟨l, hl, hlf⟩
              · rw [hnil] at hi2
                simp at hi2
              · have he' : acc.getLast? = some e := by
                  rw [List.getLast?_eq_getElem?,
                    show acc.length - 1 = i from by omega]
                  exact he
                rw [hl] at he'
                have hle := Option.some.inj he'
                subst hle
                rw [← he2', hlf]
                exact hstep
            · have hnone : (acc ++ [(⟨(Chess.sanOf b m).getD "", m,
                  Chess.fenOf (Chess.push b m)⟩ : Pgn.TraceEntry)])[i + 1]? = none := by
                apply List.getElem?_eq_none
                have : (acc ++ [(⟨(Chess.sanOf b m).getD "", m,
                    Chess.fenOf (Chess.push b m)⟩ : Pgn.TraceEntry)]).length =
                    acc.length + 1 := by simp
                omega
              rw [hnone] at he2
              exact Option.noConfusion he2
        · intro e0 h0
          by_cases hl0 : 0 < acc.length
          · rw [List.getElem?_append_left hl0] at h0
            exact hhead e0 h0
          · have hacc : acc = [] := by
              cases acc with
              | nil => rfl
              | cons a t => simp at hl0
            subst hacc
            simp only [List.nil_append] at h0
            rw [show (([(⟨(Chess.sanOf b m).getD "", m,
                Chess.fenOf (Chess.push b m)⟩ : Pgn.TraceEntry)])[0]?) =
                some ⟨(Chess.sanOf b m).getD "", m,
                  Chess.fenOf (Chess.push b m)⟩ from rfl] at h0
            have he0 := Option.some.inj h0
            rcases hrel with ⟨_, hF⟩ | ⟨l, hl, _⟩
            · rw [← he0, ← hF]
              exact hstep
            · exact Option.noConfusion hl
        · right
          exact ⟨⟨(Chess.sanOf b m).getD "", m, Chess.fenOf (Chess.push b m)⟩,
            List.getLast?_concat _, rfl⟩

/-- C8: in every move trace produced by generate_moves_json, each entry's
fen is the FEN obtained by pushing that entry's uci onto the previous
entry's fen, and entry 0's fen is obtained by pushing its uci onto the
standard starting position. -/
theorem C8_moves_json_fen_chain (moves : List String) :
    (∀ i e e2, (Pgn.generate_moves_json moves)[i]? = some e →
      (Pgn.generate_moves_json moves)[i + 1]? = some e2 →
      Chess.pushUciOnFen e.fen e2.uci = some e2.fen) ∧
    (∀ e0, (Pgn.generate_moves_json moves)[0]? = some e0 →
      Chess.pushUciOnFen (Chess.fenOf Chess.startBoard) e0.uci = some e0.fen) := by
  unfold Pgn.generate_moves_json
  refine movesJsonAux_inv (Chess.fenOf Chess.startBoard) moves Chess.startBoard []
    startBoard_len ?_ ?_ (Or.inl ⟨rfl, rfl⟩)
  · intro i e e2 he _
    simp at he
  · intro e0 h0
    simp at h0

set_option maxRecDepth 20000 in
/-- C8 witness: the chain evaluated on the concrete trace of 1. e4 e5:
entry 1's fen comes from pushing its uci onto entry 0's fen, and entry 0's
fen from pushing its uci onto the starting position. -/
theorem C8_witness :
    Chess.pushUciOnFen
        ((Pgn.generate_moves_json ["e4", "e5"]).getD 0 Inputs.dummyTrace).fen
        ((Pgn.generate_moves_json ["e4", "e5"]).getD 1 Inputs.dummyTrace).uci =
      some ((Pgn.generate_moves_json ["e4", "e5"]).getD 1 Inputs.dummyTrace).fen ∧
    Chess.pushUciOnFen (Chess.fenOf Chess.startBoard)
        ((Pgn.generate_moves_json ["e4", "e5"]).getD 0 Inputs.dummyTrace).uci =
      some ((Pgn.generate_moves_json ["e4", "e5"]).getD 0 Inputs.dummyTrace).fen := by
  constructor
  · exact (C8_moves_json_fen_chain ["e4", "e5"]).1 0
      ((Pgn.generate_moves_json ["e4", "e5"]).getD 0 Inputs.dummyTrace)
      ((Pgn.generate_moves_json ["e4", "e5"]).getD 1 Inputs.dummyTrace)
      (by with_unfolding_all decide) (by with_unfolding_all decide)
  · exact (C8_moves_json_fen_chain ["e4", "e5"]).2
      ((Pgn.generate_moves_json ["e4", "e5"]).getD 0 Inputs.dummyTrace)
      (by with_unfolding_all decide)

